import Mathlib

/-!
The recording parser and the replay engine of hid-replay.

A shallow embedding of `src/hid-replay.c`.  Text is a list of byte values
(`Nat`), a C string being the bytes before its terminating NUL; recordings are
text files, so a line holds no NUL byte.  The `sscanf` calls of the program are
embedded directive by directive, following the C library: a blank in a format
skips white space, a conversion stops at the first byte that cannot continue
it, and the call returns the number of items assigned (`EOF`, that is `-1`,
when the input ends before the first one).

Integers follow the LP64 Linux ABI the program is built for: `long` and
`unsigned long` are 64 bits wide, `int` and `unsigned` 32 bits.
-/

namespace HidReplay

/-- A C string: its bytes up to, not including, the terminating NUL. -/
abbrev CStr := List Nat

/-- The bytes of a string literal. -/
def str (s : String) : CStr := s.toList.map Char.toNat

/-! ## The C library: `sscanf` -/

/-- The `isspace` test of the C locale: blank, `\t`, `\n`, `\v`, `\f`, `\r`. -/
def isspace (c : Nat) : Bool := c == 32 || (9 ≤ c && c ≤ 13)

/-- A white-space directive (and the blanks skipped before a conversion). -/
def skipSpace (s : CStr) : CStr := s.dropWhile isspace

/-- The value of a digit character, in `0-9`, `a-f`, `A-F`. -/
def digitValue (c : Nat) : Option Nat :=
  if 48 ≤ c ∧ c ≤ 57 then some (c - 48)
  else if 97 ≤ c ∧ c ≤ 102 then some (c - 87)
  else if 65 ≤ c ∧ c ≤ 70 then some (c - 55)
  else none

/-- The value of `c` as a digit of the given base, when it is one. -/
def digitIn (base c : Nat) : Option Nat :=
  match digitValue c with
  | some d => if d < base then some d else none
  | none => none

/-- Reads digits while the field width `w` lasts: the value accumulated from
`acc`, the number of digits read counted from `k`, and the unread input. -/
def scanDigits (base : Nat) : Nat → Nat → Nat → CStr → Nat × Nat × CStr
  | 0, acc, k, s => (acc, k, s)
  | _ + 1, acc, k, [] => (acc, k, [])
  | w + 1, acc, k, c :: s =>
    match digitIn base c with
    | some d => scanDigits base w (acc * base + d) (k + 1) s
    | none => (acc, k, c :: s)

/-- Why a directive failed: the input ended, or the next byte did not match. -/
inductive ScanFail where
  | input
  | matching
  deriving DecidableEq, Repr

/-- The optional sign of an integer conversion, which counts in the field
width `w`: whether it is `-`, the width left and the unread input. -/
def scanSign (w : Nat) (s : CStr) : Bool × Nat × CStr :=
  match s with
  | c :: t => if w ≠ 0 ∧ (c = 45 ∨ c = 43) then (c == 45, w - 1, t) else (false, w, c :: t)
  | [] => (false, w, [])

/-- The optional `0x` or `0X` of a base 16 conversion: the number of digits
read so far (the `0` is one), the width left and the unread input. -/
def scanBase (base w : Nat) (s : CStr) : Nat × Nat × CStr :=
  match s with
  | 48 :: x :: r =>
    if base = 16 ∧ 2 ≤ w ∧ (x = 120 ∨ x = 88) then (1, w - 2, r) else (0, w, 48 :: x :: r)
  | _ => (0, w, s)

/-- The text of an integer conversion (`%d`, `%u`, `%lu`, `%x`): white space is
skipped, then an optional sign, for base 16 an optional `0x`, then digits, all
within the field width when there is one.  Gives the sign, the magnitude and
the unread input. -/
def scanInteger (base : Nat) (width : Option Nat) (s : CStr) :
    Except ScanFail (Bool × Nat × CStr) :=
  match skipSpace s with
  | [] => .error .input
  | c :: t =>
    let sg := scanSign (width.getD (t.length + 1)) (c :: t)
    let px := scanBase base sg.2.1 sg.2.2
    let d := scanDigits base px.2.1 0 px.1 px.2.2
    if d.2.1 = 0 then .error .matching else .ok (sg.1, d.1, d.2.2)

/-- The result of `strtoul` on a sign and a magnitude: negation is modulo
`2^64`, a magnitude out of range gives `ULONG_MAX`. -/
def strtoul (neg : Bool) (v : Nat) : Nat :=
  if 2 ^ 64 ≤ v then 2 ^ 64 - 1 else if neg then (2 ^ 64 - v) % 2 ^ 64 else v

/-- The result of `strtol`: saturating at `LONG_MIN` and `LONG_MAX`. -/
def strtol (neg : Bool) (v : Nat) : Int :=
  if neg then (if 2 ^ 63 < v then -(2 ^ 63) else -(v : Int))
  else (if 2 ^ 63 ≤ v then 2 ^ 63 - 1 else (v : Int))

/-- Conversion to `int`. -/
def toInt (x : Int) : Int := (x + 2 ^ 31) % 2 ^ 32 - 2 ^ 31

/-- Conversion to `long`. -/
def toLong (x : Int) : Int := (x + 2 ^ 63) % 2 ^ 64 - 2 ^ 63

/-- Conversion to `unsigned`. -/
def toUnsigned (x : Int) : Nat := (x % 2 ^ 32).toNat

/-- Conversion to `size_t`. -/
def toSizeT (x : Int) : Nat := (x % 2 ^ 64).toNat

/-- Conversion to `__u16`. -/
def toU16 (x : Int) : Nat := (x % 2 ^ 16).toNat

/-- The directive `%[^\n]`: a non-empty run of bytes other than newline. -/
def scanSet (s : CStr) : Except ScanFail (CStr × CStr) :=
  match s with
  | [] => .error .input
  | c :: t =>
    if c = 10 then .error .matching
    else .ok ((c :: t).takeWhile (fun x => x != 10), (c :: t).dropWhile (fun x => x != 10))

/-- An ordinary character of a format: the next input byte must be it. -/
def scanLit (c : Nat) (s : CStr) : Except ScanFail CStr :=
  match s with
  | [] => .error .input
  | d :: t => if d = c then .ok t else .error .matching

/-- The value `sscanf` returns when a directive fails after `done`
assignments: `EOF` when the input ended before the first one. -/
def scanRet (done : Nat) : ScanFail → Int
  | .input => if done = 0 then -1 else (done : Int)
  | .matching => (done : Int)

/-- What `sscanf(buf, "%hhx %[^\n]\n", &b, buf)` leaves: its return value, the
byte stored through the first pointer when there is one, and the contents of
`buf`, overwritten by the rest of the line when the second item is assigned. -/
structure ByteScan where
  n : Int
  byte : Option Nat
  buf : CStr
  deriving DecidableEq, Repr

/-- The call `sscanf(buf, "%hhx %[^\n]\n", &b, buf)`. -/
def sscanf_byte (buf : CStr) : ByteScan :=
  match scanInteger 16 none buf with
  | .error f => ⟨scanRet 0 f, none, buf⟩
  | .ok (neg, v, s1) =>
    let b := strtoul neg v % 256
    match scanSet (skipSpace s1) with
    | .error f => ⟨scanRet 1 f, some b, buf⟩
    | .ok (rest, _) => ⟨2, some b, rest⟩

/-- What `sscanf(buf, "E: %lu.%06u %d %[^\n]\n", &sec, &usec, &event_len, buf)`
leaves.  A variable that was not assigned is indeterminate in C and shown as
`0`; the caller reads none of them unless `n = 4`. -/
structure EventScan where
  n : Int
  sec : Nat
  usec : Nat
  event_len : Int
  buf : CStr
  deriving DecidableEq, Repr

/-- The call `sscanf(buf, "E: %lu.%06u %d %[^\n]\n", &sec, &usec, &event_len, buf)`
of `hid_replay_event`. -/
def sscanf_event (buf : CStr) : EventScan :=
  match scanLit 69 buf with
  | .error f => ⟨scanRet 0 f, 0, 0, 0, buf⟩
  | .ok s1 =>
  match scanLit 58 s1 with
  | .error f => ⟨scanRet 0 f, 0, 0, 0, buf⟩
  | .ok s2 =>
  match scanInteger 10 none (skipSpace s2) with
  | .error f => ⟨scanRet 0 f, 0, 0, 0, buf⟩
  | .ok (neg1, v1, s3) =>
  let sec := strtoul neg1 v1
  match scanLit 46 s3 with
  | .error f => ⟨scanRet 1 f, sec, 0, 0, buf⟩
  | .ok s4 =>
  match scanInteger 10 (some 6) s4 with
  | .error f => ⟨scanRet 1 f, sec, 0, 0, buf⟩
  | .ok (neg2, v2, s5) =>
  let usec := strtoul neg2 v2 % 2 ^ 32
  match scanInteger 10 none (skipSpace s5) with
  | .error f => ⟨scanRet 2 f, sec, usec, 0, buf⟩
  | .ok (neg3, v3, s6) =>
  let event_len := toInt (strtol neg3 v3)
  match scanSet (skipSpace s6) with
  | .error f => ⟨scanRet 3 f, sec, usec, event_len, buf⟩
  | .ok (rest, _) => ⟨4, sec, usec, event_len, rest⟩

/-! ## The replay engine -/

/-- A `struct timeval`. -/
structure timeval where
  tv_sec : Int
  tv_usec : Int
  deriving DecidableEq, Repr

/-- The `struct uhid_input_req` of a written `UHID_INPUT` event: `data` lists
the bytes stored at `data[0]`, `data[1]`, ...; the bytes of the array behind
them are the zeros `memset` left. -/
structure uhid_input_req where
  data : List Nat
  size : Nat
  deriving DecidableEq, Repr

/-- What the replay engine does to the outside, in order. -/
inductive Effect where
  | usleep (usec : Nat)
  | write (ev : uhid_input_req)
  | fprintf_stderr
  deriving DecidableEq, Repr

/-- Modelled from the spec: `UHID_DATA_MAX` of `linux/uhid.h`, which is not
among the sources; the spec bounds report data by 4096 bytes. -/
def UHID_DATA_MAX : Nat := 4096

/-- The loop `for (i = 0; i < event_len; ++i)` of `hid_replay_event`, with `k`
the number of iterations left.  `data` holds the bytes stored at the indices
below `i`, so the store into `data[i]` appends.  `none` is the `return` inside
the loop.  The array `data` has `UHID_DATA_MAX` bytes: a store at a higher
index falls behind it, at first into the rest of the stack object `ev`, then
outside it, where C defines nothing; the list keeps such bytes, which
`hid_replay_event` does not count as data, and what is stated of lines with
more than `UHID_DATA_MAX` bytes is stated of the list only. -/
def event_loop (event_len : Int) : Nat → Nat → CStr → List Nat → Option (List Nat)
  | 0, _, _, data => some data
  | k + 1, i, buf, data =>
    let r := sscanf_byte buf
    let data1 := match r.byte with
      | some b => data ++ [b]
      | none => data
    if r.n ≠ 2 then
      if (i : Int) = event_len - 1 ∧ r.n = 1 then some data1 else none
    else event_loop event_len k (i + 1) r.buf data1

/-- What a call of `hid_replay_event` leaves: the clock `*time` and the effects. -/
structure EventResult where
  time : timeval
  effects : List Effect
  deriving DecidableEq, Repr

/-- The function `hid_replay_event`.  `wfail` tells whether its `write`
returns a negative value. -/
def hid_replay_event (wfail : Bool) (ubuf : CStr) (time : timeval) : EventResult :=
  let sc := sscanf_event ubuf
  if sc.n ≠ 4 then ⟨time, []⟩
  else
    let ev_time : timeval := ⟨toLong sc.sec, sc.usec⟩
    let time1 := if time.tv_sec = 0 ∧ time.tv_usec = 0 then ev_time else time
    let usec0 := toUnsigned (1000000 * (ev_time.tv_sec - time1.tv_sec))
    let usec1 := toUnsigned ((usec0 : Int) + (ev_time.tv_usec - time1.tv_usec))
    let slp : List Effect :=
      if 500 < usec1 then [Effect.usleep (if 3000000 < usec1 then 3000000 else usec1)] else []
    let time2 := if 500 < usec1 then ev_time else time1
    match event_loop sc.event_len sc.event_len.toNat 0 sc.buf [] with
    | none => ⟨time2, slp⟩
    | some data =>
      ⟨time2, slp ++ [Effect.write ⟨data.take UHID_DATA_MAX, toU16 sc.event_len⟩]
        ++ (if wfail then [Effect.fprintf_stderr] else [])⟩

/-- What a call of `hid_replay_read_one` leaves: its return value, the unread
lines of the source, the clock and the effects. -/
structure ReadResult where
  error : Int
  fp : List CStr
  time : timeval
  effects : List Effect
  deriving DecidableEq, Repr

/-- The function `hid_replay_read_one` on a source given by its unread lines,
each as `getline` returns it (with its newline).  A fresh line is read until one
begins with `E`, which is handed to `hid_replay_event`, or `getline` returns
less than 1. -/
def hid_replay_read_one (wfail : Bool) : List CStr → timeval → ReadResult
  | [], time => ⟨1, [], time, []⟩
  | l :: fp, time =>
    if (l.length : Int) < 1 then ⟨1, fp, time, []⟩
    else if l.head? = some 69 then
      let r := hid_replay_event wfail l time
      ⟨0, fp, r.time, r.effects⟩
    else hid_replay_read_one wfail fp time

/-- The loop `do { error = hid_replay_read_one(fp, device, &time); } while (!error);`
of `main`, bounded by `fuel` calls.  `wfail j` tells whether the write of call
number `j` fails. -/
def read_loop (wfail : Nat → Bool) : Nat → Nat → List CStr → timeval →
    Option (timeval × List Effect)
  | 0, _, _, _ => none
  | fuel + 1, j, fp, time =>
    let r := hid_replay_read_one (wfail j) fp time
    if r.error = 0 then
      (read_loop wfail fuel (j + 1) r.fp r.time).map (fun x => (x.1, r.effects ++ x.2))
    else some (r.time, r.effects)

/-- One replay pass of `main`: `memset(&time, 0, sizeof(time))`, the source
rewound to its start by `fseek`, then the read loop. -/
def main_pass (wfail : Nat → Bool) (fuel : Nat) (fp : List CStr) :
    Option (timeval × List Effect) :=
  read_loop wfail fuel 0 fp ⟨0, 0⟩

/-- The messages written, in order. -/
def writes : List Effect → List uhid_input_req
  | [] => []
  | Effect.write ev :: es => ev :: writes es
  | _ :: es => writes es

/-- The sleeps issued, in order. -/
def sleeps : List Effect → List Nat
  | [] => []
  | Effect.usleep u :: es => u :: sleeps es
  | _ :: es => sleeps es

/-! ## The header parser -/

/-- The global `__u8 rdesc_buf[4096]`, as the list of the stores made into it,
latest first, each an index and a byte.  The empty list is the zeroed array
the program starts with; a store at an index of 4096 or more lies outside the
array. -/
abbrev RdescBuf := List (Nat × Nat)

/-- The byte `rdesc_buf[i]`. -/
def peek (mem : RdescBuf) (i : Nat) : Nat :=
  match mem.find? (fun e => e.1 == i) with
  | some e => e.2
  | none => 0

/-- The first `n` bytes of `rdesc_buf`. -/
def rdesc_bytes (mem : RdescBuf) (n : Nat) : List Nat := (List.range n).map (peek mem)

/-- The pointer `rd_data`: what the caller left there, or `rdesc_buf`. -/
inductive Ptr where
  | unset
  | rdesc_buf
  deriving DecidableEq, Repr

/-- The fields of `struct uhid_create_req` the parser fills.  `name` and `phys`
are the C strings held in the two character arrays. -/
structure uhid_create_req where
  name : CStr
  phys : CStr
  rd_data : Ptr
  rd_size : Nat
  bus : Nat
  vendor : Nat
  product : Nat
  deriving DecidableEq, Repr

/-- Modelled from the spec: `sizeof(dev->name)`, the size of the name field of
`struct uhid_create_req` in `linux/uhid.h`, which is not among the sources;
the spec gives the name a fixed capacity, 128 bytes in that header. -/
def NAME_SIZE : Nat := 128

/-- Modelled from the spec: `sizeof(dev->phys)`, the size of the physical-path
field of `struct uhid_create_req` in `linux/uhid.h`, which is not among the
sources; 64 bytes in that header. -/
def PHYS_SIZE : Nat := 64

/-- What `sscanf(rdesc, "R: %d %[^\n]\n", &rdesc_len, rdesc)` leaves. -/
structure RdescScan where
  n : Int
  rdesc_len : Int
  buf : CStr
  deriving DecidableEq, Repr

/-- The call `sscanf(rdesc, "R: %d %[^\n]\n", &rdesc_len, rdesc)`. -/
def sscanf_rdesc (buf : CStr) : RdescScan :=
  match scanLit 82 buf with
  | .error f => ⟨scanRet 0 f, 0, buf⟩
  | .ok s1 =>
  match scanLit 58 s1 with
  | .error f => ⟨scanRet 0 f, 0, buf⟩
  | .ok s2 =>
  match scanInteger 10 none (skipSpace s2) with
  | .error f => ⟨scanRet 0 f, 0, buf⟩
  | .ok (neg, v, s3) =>
  let rdesc_len := toInt (strtol neg v)
  match scanSet (skipSpace s3) with
  | .error f => ⟨scanRet 1 f, rdesc_len, buf⟩
  | .ok (rest, _) => ⟨2, rdesc_len, rest⟩

/-- What `hid_replay_rdesc` leaves: the line buffer it rewrote, `rdesc_buf`
and the descriptor. -/
structure RdescResult where
  buf : CStr
  mem : RdescBuf
  dev : uhid_create_req
  deriving DecidableEq, Repr

/-- The loop `for (i = 0; i < rdesc_len; ++i)` of `hid_replay_rdesc`, with `k`
the number of iterations left: whether the loop was left by its end or its
`break` (not by `return`), the line buffer and `rdesc_buf`. -/
def rdesc_loop (rdesc_len : Int) : Nat → Nat → CStr → RdescBuf → Bool × CStr × RdescBuf
  | 0, _, buf, mem => (true, buf, mem)
  | k + 1, i, buf, mem =>
    let r := sscanf_byte buf
    let mem1 := match r.byte with
      | some b => (i, b) :: mem
      | none => mem
    if r.n ≠ 2 then
      if (i : Int) = rdesc_len - 1 ∧ r.n = 1 then (true, r.buf, mem1) else (false, r.buf, mem1)
    else rdesc_loop rdesc_len k (i + 1) r.buf mem1

/-- The function `hid_replay_rdesc`; `rd_size` is a `__u16`. -/
def hid_replay_rdesc (rdesc : CStr) (mem : RdescBuf) (dev : uhid_create_req) : RdescResult :=
  let sc := sscanf_rdesc rdesc
  if sc.n ≠ 2 then ⟨sc.buf, mem, dev⟩
  else
    let r := rdesc_loop sc.rdesc_len sc.rdesc_len.toNat 0 sc.buf mem
    if r.1 then
      ⟨r.2.1, r.2.2, { dev with rd_data := Ptr.rdesc_buf, rd_size := toU16 sc.rdesc_len }⟩
    else ⟨r.2.1, r.2.2, dev⟩

/-- The calls `sscanf(buf, "N: %[^\n]\n", dev->name)` and
`sscanf(buf, "P: %[^\n]\n", dev->phys)`, for the tag byte `tag`: the string
stored, when one is. -/
def sscanf_text (tag : Nat) (buf : CStr) : Option CStr :=
  match scanLit tag buf with
  | .error _ => none
  | .ok s1 =>
  match scanLit 58 s1 with
  | .error _ => none
  | .ok s2 =>
  match scanSet (skipSpace s2) with
  | .error _ => none
  | .ok (text, _) => some text

/-- The function `hid_replay_name`.  The subtraction `len - 3` is compared as a
`size_t`.  `sscanf` stores the text and its terminator from `name[0]` on: what
does not fit the `NAME_SIZE` bytes of the field lands in `phys`, the field that
follows `name` in the packed `struct uhid_create_req`, and the string read
back from `name` then runs on into it.  When the name is the empty string the
C code reads `name[-1]`, a byte outside the field, taken here to be other than
`\r`. -/
def hid_replay_name (buf : CStr) (len : Int) (dev : uhid_create_req) : uhid_create_req :=
  if NAME_SIZE ≤ toSizeT (len - 3) then dev
  else
    let dev1 := match sscanf_text 78 buf with
      | some s =>
        { dev with name := s,
                   phys := if NAME_SIZE ≤ s.length then s.drop NAME_SIZE else dev.phys }
      | none => dev
    if dev1.name.getLast? = some 13 then { dev1 with name := dev1.name.dropLast } else dev1

/-- The function `hid_replay_phys`.  A text of `PHYS_SIZE` bytes or more would
run over into the field `uniq`, which the parser never reads and which is not
among the fields kept here. -/
def hid_replay_phys (buf : CStr) (len : Int) (dev : uhid_create_req) : uhid_create_req :=
  if PHYS_SIZE ≤ toSizeT (len - 3) then dev
  else
    match sscanf_text 80 buf with
    | some s => { dev with phys := s }
    | none => dev

/-- What `sscanf(buf, "I: %x %x %x\n", &bus, &vid, &pid)` leaves. -/
structure InfoScan where
  n : Int
  bus : Int
  vid : Int
  pid : Int
  deriving DecidableEq, Repr

/-- The call `sscanf(buf, "I: %x %x %x\n", &bus, &vid, &pid)`. -/
def sscanf_info (buf : CStr) : InfoScan :=
  match scanLit 73 buf with
  | .error f => ⟨scanRet 0 f, 0, 0, 0⟩
  | .ok s1 =>
  match scanLit 58 s1 with
  | .error f => ⟨scanRet 0 f, 0, 0, 0⟩
  | .ok s2 =>
  match scanInteger 16 none (skipSpace s2) with
  | .error f => ⟨scanRet 0 f, 0, 0, 0⟩
  | .ok (neg1, v1, s3) =>
  let bus := toInt (strtoul neg1 v1)
  match scanInteger 16 none (skipSpace s3) with
  | .error f => ⟨scanRet 1 f, bus, 0, 0⟩
  | .ok (neg2, v2, s4) =>
  let vid := toInt (strtoul neg2 v2)
  match scanInteger 16 none (skipSpace s4) with
  | .error f => ⟨scanRet 2 f, bus, vid, 0⟩
  | .ok (neg3, v3, _) => ⟨3, bus, vid, toInt (strtoul neg3 v3)⟩

/-- The function `hid_replay_info`: `bus` is a `__u16`, `vendor` and `product`
are `__u32`.  The length test is against `sizeof(dev->phys)`, as in the source. -/
def hid_replay_info (buf : CStr) (len : Int) (dev : uhid_create_req) : uhid_create_req :=
  if PHYS_SIZE ≤ toSizeT (len - 3) then dev
  else
    let sc := sscanf_info buf
    if sc.n ≠ 3 then dev
    else { dev with bus := toU16 sc.bus, vendor := toUnsigned sc.vid, product := toUnsigned sc.pid }

/-- The macro `HID_REPLAY_MASK_NAME`. -/
def HID_REPLAY_MASK_NAME : Nat := 1 <<< 0

/-- The macro `HID_REPLAY_MASK_RDESC`. -/
def HID_REPLAY_MASK_RDESC : Nat := 1 <<< 1

/-- The macro `HID_REPLAY_MASK_INFO`. -/
def HID_REPLAY_MASK_INFO : Nat := 1 <<< 2

/-- The macro `HID_REPLAY_MASK_COMPLETE`. -/
def HID_REPLAY_MASK_COMPLETE : Nat :=
  HID_REPLAY_MASK_NAME ||| HID_REPLAY_MASK_RDESC ||| HID_REPLAY_MASK_INFO

/-- The variables of `hid_replay_parse_header` that live across its loop: the
line buffer `buf`, `mask`, and with them `rdesc_buf` and `*dev`. -/
structure HeaderState where
  buf : CStr
  mask : Nat
  mem : RdescBuf
  dev : uhid_create_req
  deriving DecidableEq, Repr

/-- The `switch (buf[0])` of `hid_replay_parse_header`, for the value `size`
that `getline` returned.  The first byte of an empty string is its NUL, which
has no case. -/
def header_switch (size : Int) (st : HeaderState) : HeaderState :=
  match st.buf.head? with
  | some 35 => st
  | some 82 =>
    let r := hid_replay_rdesc st.buf st.mem st.dev
    { buf := r.buf, mask := st.mask ||| HID_REPLAY_MASK_RDESC, mem := r.mem, dev := r.dev }
  | some 78 =>
    { st with dev := hid_replay_name st.buf size st.dev,
              mask := st.mask ||| HID_REPLAY_MASK_NAME }
  | some 80 => { st with dev := hid_replay_phys st.buf size st.dev }
  | some 73 =>
    { st with dev := hid_replay_info st.buf size st.dev,
              mask := st.mask ||| HID_REPLAY_MASK_INFO }
  | _ => st

/-- The `do ... while (size > 0 && !stop)` loop of `hid_replay_parse_header`
on the unread lines of the source: the lines left unread and the final state.
When the source is exhausted `getline` returns `-1` and leaves `buf` as it was,
and the `switch` still runs once on it. -/
def header_loop : List CStr → HeaderState → List CStr × HeaderState
  | [], st => ([], header_switch (-1) st)
  | l :: fp, st =>
    let st1 := header_switch (l.length : Int) { st with buf := l }
    if 0 < (l.length : Int) ∧ st1.mask ≠ HID_REPLAY_MASK_COMPLETE then header_loop fp st1
    else (fp, st1)

/-- What `hid_replay_parse_header` leaves: its return value `device_index`, the
unread lines of the source, `rdesc_buf` and the descriptor `*dev`. -/
structure HeaderResult where
  ret : Int
  fp : List CStr
  mem : RdescBuf
  dev : uhid_create_req
  deriving DecidableEq, Repr

/-- The function `hid_replay_parse_header`.  `buf0` is what the buffer that
`getline` allocates holds when the source has no line at all. -/
def hid_replay_parse_header (fp : List CStr) (buf0 : CStr) (mem : RdescBuf)
    (dev : uhid_create_req) : HeaderResult :=
  let r := header_loop fp ⟨buf0, 0, mem, dev⟩
  ⟨0, r.1, r.2.mem, r.2.dev⟩

/-! ## The device controller -/

/-- A `struct hid_replay_device`. -/
structure hid_replay_device where
  fuhid : Int
  deriving DecidableEq, Repr

/-- What the device controller does to the outside, in order. -/
inductive DevEffect where
  | open_uhid
  | write_create (dev : uhid_create_req)
  | close (fd : Int)
  | free
  | fprintf_stderr
  deriving DecidableEq, Repr

/-- The function `hid_replay_destroy_device`. -/
def hid_replay_destroy_device (device : hid_replay_device) : List DevEffect :=
  (if device.fuhid ≠ 0 then [DevEffect.close device.fuhid] else []) ++ [DevEffect.free]

/-- What a function returning a `struct hid_replay_device *` leaves: the
pointer returned (`none` for `NULL`, otherwise the object it points at),
whether that object has been released by `free`, and the effects. -/
structure CreateResult where
  device : Option hid_replay_device
  freed : Bool
  effects : List DevEffect
  deriving DecidableEq, Repr

/-- The function `__hid_replay_create_device`.  `calloc_ok` tells whether
`calloc` returns memory, `open_ret` and `write_ret` are what `open` and `write`
return. -/
def __hid_replay_create_device (dev : uhid_create_req) (calloc_ok : Bool)
    (open_ret write_ret : Int) : CreateResult :=
  if ¬ calloc_ok then ⟨none, false, [DevEffect.fprintf_stderr]⟩
  else if open_ret < 0 then
    ⟨none, false, [DevEffect.open_uhid, DevEffect.fprintf_stderr, DevEffect.free]⟩
  else if write_ret < 0 then
    ⟨some ⟨open_ret⟩, true,
      [DevEffect.open_uhid, DevEffect.write_create dev, DevEffect.fprintf_stderr]
        ++ hid_replay_destroy_device ⟨open_ret⟩⟩
  else ⟨some ⟨open_ret⟩, false, [DevEffect.open_uhid, DevEffect.write_create dev]⟩

/-- The function `hid_replay_create_devices`, whose descriptor `dev` is an
uninitialised local.  `hid_replay_parse_header` always returns 0, so the test
`idx >= 0` holds; the other branch would return an uninitialised pointer. -/
def hid_replay_create_devices (fp : List CStr) (buf0 : CStr) (mem : RdescBuf)
    (dev : uhid_create_req) (calloc_ok : Bool) (open_ret write_ret : Int) : CreateResult :=
  let h := hid_replay_parse_header fp buf0 mem dev
  if 0 ≤ h.ret then
    let r := __hid_replay_create_device h.dev calloc_ok open_ret write_ret
    if r.device.isNone then ⟨none, r.freed, r.effects⟩ else r
  else ⟨none, false, []⟩

/-- The test `if (!device) return EXIT_FAILURE;` of `main` after
`hid_replay_create_devices`: the exit status, or `none` when `main` goes on to
`hid_replay_wait_opened` with the pointer. -/
def main_after_create (r : CreateResult) : Option Int :=
  if r.device.isNone then some 1 else none

/-! ## The text of a recording

The lines the claims speak of, built from their parts, and the notions the
theorems need to state what the program does with them. -/

/-- A decimal digit. -/
def isdigit (c : Nat) : Bool := 48 ≤ c && c ≤ 57

/-- A hexadecimal digit. -/
def isxdigit (c : Nat) : Bool :=
  (48 ≤ c && c ≤ 57) || (97 ≤ c && c ≤ 102) || (65 ≤ c && c ≤ 70)

/-- The number a string of digits denotes in the given base. -/
def numValue (base : Nat) (s : CStr) : Nat :=
  s.foldl (fun a c => a * base + (digitValue c).getD 0) 0

/-- What stops a run of digits: the end of the input, or a byte that is no
digit of the base. -/
def stopsDigits (base : Nat) (r : CStr) : Prop :=
  ∀ c ∈ r.head?, digitIn base c = none

/-- What ends a token: the end of the input, or white space. -/
def endsToken (r : CStr) : Prop := ∀ c ∈ r.head?, isspace c = true

/-- A byte written as two hexadecimal digits. -/
def hexPair (p : Nat × Nat) : Bool := isxdigit p.1 && isxdigit p.2

/-- The value of a byte written as two hexadecimal digits. -/
def byteValue (p : Nat × Nat) : Nat := numValue 16 [p.1, p.2]

/-- The text of a list of bytes, each preceded by a blank. -/
def payloadText : List (Nat × Nat) → CStr
  | [] => []
  | p :: ps => 32 :: p.1 :: p.2 :: payloadText ps

/-- The line `E: <sec>.<usec> <len> <b1> ... <bn><eol>`. -/
def eventLine (sec usec len : CStr) (bytes : List (Nat × Nat)) (eol : CStr) : CStr :=
  [69, 58, 32] ++ sec ++ [46] ++ usec ++ [32] ++ len ++ payloadText bytes ++ eol

/-- An end of line: white space only (a newline, a carriage return and a
newline, or nothing at the end of the source). -/
def isEol (e : CStr) : Prop := ∀ c ∈ e, isspace c = true

instance isEol.decidable (e : CStr) : Decidable (isEol e) :=
  inferInstanceAs (Decidable (∀ c ∈ e, isspace c = true))

/-- The line part of an end of line: what precedes its first newline. -/
def eolHead (e : CStr) : CStr := e.takeWhile (fun x => x != 10)

/-- The head of an event line: `E: <sec>.<usec> <len>` with `sec` and `len`
runs of decimal digits and `usec` six decimal digits. -/
structure EventHead (sec usec len : CStr) : Prop where
  sec_ne : sec ≠ []
  sec_digits : ∀ c ∈ sec, isdigit c = true
  usec_len : usec.length = 6
  usec_digits : ∀ c ∈ usec, isdigit c = true
  len_ne : len ≠ []
  len_digits : ∀ c ∈ len, isdigit c = true

/-- The stores of the bytes `vals` at the indices `i`, `i + 1`, ... of
`rdesc_buf`. -/
def storeSeq : Nat → List Nat → RdescBuf → RdescBuf
  | _, [], mem => mem
  | i, v :: vs, mem => storeSeq (i + 1) vs ((i, v) :: mem)

/-- The line `R: <len> <b1> ... <bn><eol>`. -/
def rdescLine (len : CStr) (bytes : List (Nat × Nat)) (eol : CStr) : CStr :=
  [82, 58, 32] ++ len ++ payloadText bytes ++ eol

/-- The end of a line of a recording: a newline, a carriage return and a
newline, or nothing (the last line of a source). -/
def isLineEnd (e : CStr) : Prop := e = [] ∨ e = [10] ∨ e = [13, 10]

/-- The line `N: <name><eol>`. -/
def nameLine (name eol : CStr) : CStr := [78, 58, 32] ++ name ++ eol

/-- The line `I: <bus> <vendor> <product><eol>`. -/
def infoLine (bus vendor product eol : CStr) : CStr :=
  [73, 58, 32] ++ bus ++ [32] ++ vendor ++ [32] ++ product ++ eol

/-- A name as a line `N: <name>` can carry it: not empty, not beginning with
white space, without a newline and not ending in a carriage return. -/
structure NameText (name : CStr) : Prop where
  ne : name ≠ []
  head : ∀ c ∈ name.head?, isspace c = false
  no_newline : ∀ c ∈ name, c ≠ 10
  last : name.getLast? ≠ some 13

/-- A field of an `I:` line: one to four hexadecimal digits. -/
structure HexField (f : CStr) : Prop where
  ne : f ≠ []
  short : f.length ≤ 4
  digits : ∀ c ∈ f, isxdigit c = true

/-- A well-formed event line `E: <sec>.<usec> <len> <b1> ... <blen><eol>`: the
seconds fit a `long`, `len` is between 1 and 4096 and is the number of the
bytes, each two hexadecimal digits, and only white space ends the line. -/
structure EventText (sec usec len : CStr) (bytes : List (Nat × Nat)) (eol : CStr) : Prop where
  head : EventHead sec usec len
  sec_long : numValue 10 sec < 2 ^ 63
  len_eq : numValue 10 len = bytes.length
  len_pos : 1 ≤ bytes.length
  len_max : bytes.length ≤ 4096
  hex : ∀ q ∈ bytes, hexPair q = true
  eol : isEol eol

/-- The input message of an event line: its bytes and their number. -/
def eventMessage (bytes : List (Nat × Nat)) : uhid_input_req :=
  ⟨bytes.map byteValue, bytes.length⟩

/-- The 32-bit value `usec` that `hid_replay_event` computes from the event
timestamp `(sec, usec)` and the clock `time`. -/
def pacingDelta (time : timeval) (sec usec : Int) : Nat :=
  toUnsigned ((toUnsigned (1000000 * (sec - time.tv_sec)) : Int) + (usec - time.tv_usec))

/-- The number of lines that begin with `E`. -/
def eventTags : List CStr → Nat
  | [] => 0
  | l :: ls => if l.head? = some 69 then eventTags ls + 1 else eventTags ls

/-- One pass told line by line: the clock and the effects that the lines
beginning with `E` leave, the `j`-th call of `hid_replay_read_one` being the
next. -/
def passTrace (wfail : Nat → Bool) : Nat → List CStr → timeval → timeval × List Effect
  | _, [], time => (time, [])
  | j, l :: ls, time =>
    if l.head? = some 69 then
      ((passTrace wfail (j + 1) ls (hid_replay_event (wfail j) l time).time).1,
        (hid_replay_event (wfail j) l time).effects
          ++ (passTrace wfail (j + 1) ls (hid_replay_event (wfail j) l time).time).2)
    else passTrace wfail j ls time

/-- A line of a recording as the replay pass sees it: a well-formed event
line, given by its parts, or any other line. -/
inductive RecLine where
  | other (l : CStr)
  | event (sec usec len : CStr) (bytes : List (Nat × Nat)) (eol : CStr)

/-- The text of a line. -/
def RecLine.text : RecLine → CStr
  | .other l => l
  | .event sec usec len bytes eol => eventLine sec usec len bytes eol

/-- What is asked of a line: an event line is well formed, another line is one
that `getline` can return (not empty) and does not begin with `E`. -/
def RecLine.wellFormed : RecLine → Prop
  | .other l => l ≠ [] ∧ l.head? ≠ some 69
  | .event sec usec len bytes eol => EventText sec usec len bytes eol

/-- The input message a line stands for, when it is an event line. -/
def RecLine.message : RecLine → Option uhid_input_req
  | .other _ => none
  | .event _ _ _ bytes _ => some (eventMessage bytes)

/-- The lines of a pass before its first event line with a timestamp: no line
that sets the clock. -/
def noEventYet (pre : List CStr) : Prop :=
  ∀ l ∈ pre, l ≠ [] ∧ (l.head? = some 69 → (sscanf_event l).n ≠ 4)

instance noEventYet.decidable (pre : List CStr) : Decidable (noEventYet pre) :=
  inferInstanceAs (Decidable (∀ l ∈ pre, l ≠ [] ∧ (l.head? = some 69 → (sscanf_event l).n ≠ 4)))

/-- A line tagged `c`: its first byte is `c`. -/
def lineTag (c : Nat) (l : CStr) : Bool := l.head? == some c

/-- Lines tagged `N`, `R` and `I` have each occurred among `ls`. -/
def headerComplete (ls : List CStr) : Bool :=
  ls.any (lineTag 78) && ls.any (lineTag 82) && ls.any (lineTag 73)

/-- The state of the header parser after the lines `ls` were read in turn,
each into the line buffer and through the `switch`. -/
def headerFold (ls : List CStr) (st : HeaderState) : HeaderState :=
  ls.foldl (fun s l => header_switch (l.length : Int) { s with buf := l }) st

/-- The mask of a header parser that has seen a line tagged `N` (`a`), `R`
(`b`), `I` (`c`). -/
def maskBits (a b c : Bool) : Nat :=
  (if a then HID_REPLAY_MASK_NAME else 0) ||| (if b then HID_REPLAY_MASK_RDESC else 0)
    ||| (if c then HID_REPLAY_MASK_INFO else 0)

/-- The dispatch attempts and sleeps of a trace: everything but the messages
printed when a write fails. -/
def attempts : List Effect → List Effect
  | [] => []
  | Effect.fprintf_stderr :: es => attempts es
  | e :: es => e :: attempts es

/-- The wait of the replay engine in the words of the specification:
`wait = capture_delta − elapsed_delta`, in microseconds. -/
def spec_wait (capture_delta elapsed_delta : Int) : Int := capture_delta - elapsed_delta

/-- The sleeps the specification derives from a wait: none up to 500
microseconds, otherwise one of the wait clamped to 3,000,000. -/
def spec_sleeps (wait : Int) : List Nat :=
  if 500 < wait then [min wait.toNat 3000000] else []

/-- A line `R: <len> <b1> ... <bn>` with fewer bytes, at most 4096 of them, than
the length (below `2^31`) it declares. -/
def shortRdesc (l : CStr) : Prop :=
  ∃ (len : CStr) (bytes : List (Nat × Nat)) (eol : CStr),
    l = rdescLine len bytes eol ∧ len ≠ [] ∧ (∀ c ∈ len, isdigit c = true)
      ∧ numValue 10 len < 2 ^ 31 ∧ bytes.length < numValue 10 len
      ∧ bytes.length ≤ 4096 ∧ (∀ q ∈ bytes, hexPair q = true) ∧ isEol eol

/-- A line that `hid_replay_rdesc` gives up on: one with fewer bytes than it
declares, or one in which `sscanf` does not find a decimal length and a rest of
line behind `R:`. -/
def rdescRejected (l : CStr) : Prop := shortRdesc l ∨ (sscanf_rdesc l).n ≠ 2

/-- The line `P: <phys><eol>`. -/
def physLine (phys eol : CStr) : CStr := [80, 58, 32] ++ phys ++ eol

/-- The tags of the four header lines. -/
inductive HeaderTag where
  | N
  | P
  | I
  | R
  deriving DecidableEq, Repr

/-- The header line of each tag, out of four given lines. -/
def headerLine (nl pl il rl : CStr) : HeaderTag → CStr
  | .N => nl
  | .P => pl
  | .I => il
  | .R => rl

/-- A field of an `I:` line as the specification has it: hexadecimal digits
denoting a value of at most `0xffff`. -/
structure HexValue (f : CStr) : Prop where
  ne : f ≠ []
  digits : ∀ c ∈ f, isxdigit c = true
  value : numValue 16 f ≤ 0xffff

/-- The messages printed for failed writes, counted. -/
def logs : List Effect → Nat
  | [] => 0
  | Effect.fprintf_stderr :: es => logs es + 1
  | _ :: es => logs es

/-! ## Lemmas: reading numbers and lines back -/

theorem digitIn_dec {c : Nat} (h : isdigit c = true) :
    digitIn 10 c = some ((digitValue c).getD 0) := by
  simp only [isdigit, Bool.and_eq_true, decide_eq_true_eq] at h
  have h1 : digitValue c = some (c - 48) := by simp [digitValue, h.1, h.2]
  simp only [digitIn, h1, Option.getD_some]
  rw [if_pos (by omega)]

theorem digitIn_hex {c : Nat} (h : isxdigit c = true) :
    digitIn 16 c = some ((digitValue c).getD 0) := by
  simp only [isxdigit, Bool.or_eq_true, Bool.and_eq_true, decide_eq_true_eq] at h
  rcases h with (h | h) | h
  · have h1 : digitValue c = some (c - 48) := by simp [digitValue, h.1, h.2]
    simp only [digitIn, h1, Option.getD_some]
    rw [if_pos (by omega)]
  · have h1 : digitValue c = some (c - 87) := by
      simp only [digitValue]
      rw [if_neg (by omega), if_pos (by omega)]
    simp only [digitIn, h1, Option.getD_some]
    rw [if_pos (by omega)]
  · have h1 : digitValue c = some (c - 55) := by
      simp only [digitValue]
      rw [if_neg (by omega), if_neg (by omega), if_pos (by omega)]
    simp only [digitIn, h1, Option.getD_some]
    rw [if_pos (by omega)]

theorem digitIn_none_of_space {base c : Nat} (h : isspace c = true) : digitIn base c = none := by
  simp only [isspace, Bool.or_eq_true, beq_iff_eq, Bool.and_eq_true, decide_eq_true_eq] at h
  have h1 : digitValue c = none := by
    simp only [digitValue]
    rw [if_neg (by omega), if_neg (by omega), if_neg (by omega)]
  simp [digitIn, h1]

theorem scanDigits_run (base : Nat) (f : Nat → Nat) :
    ∀ (s : CStr) (w acc k : Nat) (r : CStr),
      (∀ c ∈ s, digitIn base c = some (f c)) → s.length ≤ w →
      (w = s.length ∨ stopsDigits base r) →
      scanDigits base w acc k (s ++ r)
        = (s.foldl (fun a c => a * base + f c) acc, k + s.length, r) := by
  intro s
  induction s with
  | nil =>
    intro w acc k r _ _ hr
    cases w with
    | zero => simp [scanDigits]
    | succ w =>
      cases r with
      | nil => simp [scanDigits]
      | cons c t =>
        have hc : digitIn base c = none := by
          rcases hr with h | h
          · simp at h
          · exact h c (by simp)
        simp [scanDigits, hc]
  | cons c s ih =>
    intro w acc k r hs hw hr
    cases w with
    | zero => simp at hw
    | succ w =>
      have hc : digitIn base c = some (f c) := hs c (by simp)
      simp only [List.cons_append, scanDigits, hc, List.foldl_cons, List.length_cons]
      show scanDigits base w (acc * base + f c) (k + 1) (s ++ r) = _
      rw [ih w (acc * base + f c) (k + 1) r (fun x hx => hs x (by simp [hx]))
        (by simpa using hw) (by rcases hr with h | h
                                · left; simpa using h
                                · right; exact h)]
      simp only [Prod.mk.injEq, true_and, and_true]
      omega

theorem stopsDigits_of_endsToken {base : Nat} {r : CStr} (h : endsToken r) :
    stopsDigits base r := fun c hc => digitIn_none_of_space (h c hc)

theorem isspace_false_of_isxdigit {c : Nat} (h : isxdigit c = true) : isspace c = false := by
  simp only [isxdigit, Bool.or_eq_true, Bool.and_eq_true, decide_eq_true_eq] at h
  simp only [isspace, Bool.or_eq_false_iff, beq_eq_false_iff_ne, Bool.and_eq_false_iff,
    decide_eq_false_iff_not]
  omega

theorem isxdigit_of_isdigit {c : Nat} (h : isdigit c = true) : isxdigit c = true := by
  simp only [isdigit, Bool.and_eq_true, decide_eq_true_eq] at h
  simp only [isxdigit, Bool.or_eq_true, Bool.and_eq_true, decide_eq_true_eq]
  omega

theorem skipSpace_cons_of_not_space {c : Nat} (t : CStr) (h : isspace c = false) :
    skipSpace (c :: t) = c :: t := by
  simp [skipSpace, List.dropWhile, h]

theorem skipSpace_cons_of_space {c : Nat} (t : CStr) (h : isspace c = true) :
    skipSpace (c :: t) = skipSpace t := by
  simp [skipSpace, List.dropWhile, h]

theorem skipSpace_all_space : ∀ (e : CStr), (∀ c ∈ e, isspace c = true) → skipSpace e = []
  | [], _ => rfl
  | c :: t, h => by
    rw [skipSpace_cons_of_space t (h c (by simp))]
    exact skipSpace_all_space t (fun x hx => h x (by simp [hx]))

theorem scanSign_of_isxdigit {c : Nat} (w : Nat) (t : CStr) (h : isxdigit c = true) :
    scanSign w (c :: t) = (false, w, c :: t) := by
  simp only [isxdigit, Bool.or_eq_true, Bool.and_eq_true, decide_eq_true_eq] at h
  simp only [scanSign]
  rw [if_neg (by omega)]

theorem scanBase_dec (w : Nat) (s : CStr) : scanBase 10 w s = (0, w, s) := by
  unfold scanBase
  split
  · simp
  · rfl

theorem scanBase_hex_digits (w : Nat) (s r : CStr) (hs : ∀ c ∈ s, isxdigit c = true)
    (hr : endsToken r) : scanBase 16 w (s ++ r) = (0, w, s ++ r) := by
  unfold scanBase
  split
  · rename_i x t heq
    have hx : x ≠ 120 ∧ x ≠ 88 := by
      have hmem : isxdigit x = true ∨ isspace x = true := by
        match s, hs, heq with
        | [], _, heq =>
          simp only [List.nil_append] at heq
          have h48 := hr 48 (by simp [heq])
          simp [isspace] at h48
        | [a], _, heq =>
          simp only [List.cons_append, List.nil_append, List.cons.injEq] at heq
          right
          exact hr x (by simp [heq.2])
        | a :: b :: u, hs, heq =>
          simp only [List.cons_append, List.cons.injEq] at heq
          left
          exact hs x (by simp [heq.2.1])
      simp only [isxdigit, isspace, Bool.or_eq_true, Bool.and_eq_true, decide_eq_true_eq,
        beq_iff_eq] at hmem
      omega
    rw [if_neg (by omega), heq]
  · rfl

/-- A run of decimal digits, ended by a byte that is no digit, is read by an
integer conversion without width as the number it denotes. -/
theorem scanInteger_dec (s r : CStr) (hne : s ≠ []) (hs : ∀ c ∈ s, isdigit c = true)
    (hr : stopsDigits 10 r) :
    scanInteger 10 none (s ++ r) = .ok (false, numValue 10 s, r) := by
  obtain ⟨c, t, rfl⟩ := List.exists_cons_of_ne_nil hne
  have hc : isxdigit c = true := isxdigit_of_isdigit (hs c (by simp))
  simp only [scanInteger, List.cons_append,
    skipSpace_cons_of_not_space _ (isspace_false_of_isxdigit hc), Option.getD_none,
    scanSign_of_isxdigit _ _ hc, scanBase_dec]
  have h := scanDigits_run 10 (fun c => (digitValue c).getD 0) (c :: t) ((t ++ r).length + 1)
    0 0 r (fun x hx => digitIn_dec (hs x hx)) (by simp) (Or.inr hr)
  simp only [List.cons_append] at h
  rw [h]
  simp [numValue]

/-- A run of exactly `w` decimal digits is read whole by a conversion of field
width `w`, whatever follows. -/
theorem scanInteger_dec_width (w : Nat) (s r : CStr) (hne : s ≠ []) (hw : s.length = w)
    (hs : ∀ c ∈ s, isdigit c = true) :
    scanInteger 10 (some w) (s ++ r) = .ok (false, numValue 10 s, r) := by
  obtain ⟨c, t, rfl⟩ := List.exists_cons_of_ne_nil hne
  have hc : isxdigit c = true := isxdigit_of_isdigit (hs c (by simp))
  simp only [scanInteger, List.cons_append,
    skipSpace_cons_of_not_space _ (isspace_false_of_isxdigit hc), Option.getD_some,
    scanSign_of_isxdigit _ _ hc, scanBase_dec]
  have h := scanDigits_run 10 (fun c => (digitValue c).getD 0) (c :: t) w
    0 0 r (fun x hx => digitIn_dec (hs x hx)) (by omega) (Or.inl hw.symm)
  simp only [List.cons_append] at h
  rw [h]
  simp [numValue]

/-- A run of hexadecimal digits, ended by white space or the end of the input,
is read by `%x` as the number it denotes. -/
theorem scanInteger_hex (s r : CStr) (hne : s ≠ []) (hs : ∀ c ∈ s, isxdigit c = true)
    (hr : endsToken r) :
    scanInteger 16 none (s ++ r) = .ok (false, numValue 16 s, r) := by
  have hb := scanBase_hex_digits ((s ++ r).length) s r hs hr
  obtain ⟨c, t, rfl⟩ := List.exists_cons_of_ne_nil hne
  have hc : isxdigit c = true := hs c (by simp)
  simp only [List.cons_append, List.length_cons] at hb
  simp only [scanInteger, List.cons_append,
    skipSpace_cons_of_not_space _ (isspace_false_of_isxdigit hc), Option.getD_none,
    scanSign_of_isxdigit _ _ hc, hb]
  have h := scanDigits_run 16 (fun c => (digitValue c).getD 0) (c :: t) ((t ++ r).length + 1)
    0 0 r (fun x hx => digitIn_hex (hs x hx)) (by simp)
    (Or.inr (stopsDigits_of_endsToken hr))
  simp only [List.cons_append] at h
  rw [h]
  simp [numValue]

theorem digitValue_lt_of_isxdigit {c : Nat} (h : isxdigit c = true) :
    (digitValue c).getD 0 < 16 := by
  have h1 := digitIn_hex h
  simp only [digitIn] at h1
  split at h1
  · rename_i d hd
    simp only [hd, Option.getD_some]
    by_cases hlt : d < 16
    · exact hlt
    · simp [hlt] at h1
  · simp at h1

theorem digitValue_lt_of_isdigit {c : Nat} (h : isdigit c = true) :
    (digitValue c).getD 0 < 10 := by
  have h1 := digitIn_dec h
  simp only [digitIn] at h1
  split at h1
  · rename_i d hd
    simp only [hd, Option.getD_some]
    by_cases hlt : d < 10
    · exact hlt
    · simp [hlt] at h1
  · simp at h1

theorem byteValue_lt {p : Nat × Nat} (h : hexPair p = true) : byteValue p < 256 := by
  simp only [hexPair, Bool.and_eq_true] at h
  have h1 := digitValue_lt_of_isxdigit h.1
  have h2 := digitValue_lt_of_isxdigit h.2
  simp only [byteValue, numValue, List.foldl_cons, List.foldl_nil]
  omega

theorem numValue_snoc (base : Nat) (s : CStr) (c : Nat) :
    numValue base (s ++ [c]) = numValue base s * base + (digitValue c).getD 0 := by
  simp [numValue, List.foldl_append]

theorem numValue_dec_lt : ∀ (s : CStr), (∀ c ∈ s, isdigit c = true) →
    numValue 10 s < 10 ^ s.length := by
  intro s
  induction s using List.reverseRecOn with
  | nil => intro _; simp [numValue]
  | append_singleton s c ih =>
    intro h
    have h1 := ih (fun x hx => h x (by simp [hx]))
    have h2 := digitValue_lt_of_isdigit (h c (by simp))
    rw [numValue_snoc, List.length_append, List.length_singleton, pow_succ]
    nlinarith

theorem numValue_hex_lt : ∀ (s : CStr), (∀ c ∈ s, isxdigit c = true) →
    numValue 16 s < 16 ^ s.length := by
  intro s
  induction s using List.reverseRecOn with
  | nil => intro _; simp [numValue]
  | append_singleton s c ih =>
    intro h
    have h1 := ih (fun x hx => h x (by simp [hx]))
    have h2 := digitValue_lt_of_isxdigit (h c (by simp))
    rw [numValue_snoc, List.length_append, List.length_singleton, pow_succ]
    nlinarith

theorem strtoul_pos {v : Nat} (h : v < 2 ^ 64) : strtoul false v = v := by
  simp only [strtoul]
  rw [if_neg (by omega)]
  simp

theorem toInt_strtol_pos {v : Nat} (h : v < 2 ^ 31) : toInt (strtol false v) = (v : Int) := by
  simp only [strtol, toInt]
  have h63 : ¬ (2 ^ 63 ≤ v) := by omega
  simp only [Bool.false_eq_true, if_false, h63]
  omega

theorem endsToken_payload (bytes : List (Nat × Nat)) (e : CStr) (he : isEol e) :
    endsToken (payloadText bytes ++ e) := by
  intro c hc
  cases bytes with
  | nil =>
    simp only [payloadText, List.nil_append] at hc
    cases e with
    | nil => simp at hc
    | cons a t =>
      simp only [List.head?_cons, Option.mem_def, Option.some.injEq] at hc
      exact he c (by simp [hc])
  | cons p ps =>
    simp only [payloadText, List.cons_append, List.head?_cons, Option.mem_def,
      Option.some.injEq] at hc
    subst hc
    rfl

theorem takeWhile_ne_newline : ∀ (s : CStr), (∀ c ∈ s, c ≠ 10) →
    s.takeWhile (fun x => x != 10) = s
  | [], _ => rfl
  | c :: t, h => by
    have hc : (c != 10) = true := by simpa using h c (by simp)
    rw [List.takeWhile_cons, hc]
    simp only [if_true, List.cons.injEq, true_and]
    exact takeWhile_ne_newline t (fun x hx => h x (by simp [hx]))

theorem ne_newline_of_isxdigit {c : Nat} (h : isxdigit c = true) : c ≠ 10 := by
  simp only [isxdigit, Bool.or_eq_true, Bool.and_eq_true, decide_eq_true_eq] at h
  omega

theorem payloadText_no_newline : ∀ (bytes : List (Nat × Nat)),
    (∀ p ∈ bytes, hexPair p = true) → ∀ c ∈ payloadText bytes, c ≠ 10
  | [], _ => by simp [payloadText]
  | p :: ps, h => by
    intro c hc
    have hp := h p (by simp)
    simp only [hexPair, Bool.and_eq_true] at hp
    simp only [payloadText, List.mem_cons] at hc
    rcases hc with rfl | rfl | rfl | hc
    · decide
    · exact ne_newline_of_isxdigit hp.1
    · exact ne_newline_of_isxdigit hp.2
    · exact payloadText_no_newline ps (fun q hq => h q (by simp [hq])) c hc

theorem eolHead_space {e : CStr} (he : isEol e) : isEol (eolHead e) :=
  fun c hc => he c (List.takeWhile_subset _ hc)

theorem eolHead_no_newline (e : CStr) : ∀ c ∈ eolHead e, c ≠ 10 := by
  intro c hc
  have := List.mem_takeWhile_imp hc
  simpa using this

theorem takeWhile_append_eol (s e : CStr) (hs : ∀ c ∈ s, c ≠ 10) :
    (s ++ e).takeWhile (fun x => x != 10) = s ++ eolHead e := by
  induction s with
  | nil => rfl
  | cons c t ih =>
    have hc : (c != 10) = true := by simpa using hs c (by simp)
    rw [List.cons_append, List.takeWhile_cons, hc]
    simp only [if_true, List.cons_append, List.cons.injEq, true_and]
    exact ih (fun x hx => hs x (by simp [hx]))

/-- The last byte of a payload: `sscanf` assigns it and finds nothing more. -/
theorem sscanf_byte_last (h l : Nat) (e : CStr) (hp : hexPair (h, l) = true) (he : isEol e) :
    sscanf_byte (h :: l :: e) = ⟨1, some (byteValue (h, l)), h :: l :: e⟩ := by
  have hx := hp
  simp only [hexPair, Bool.and_eq_true] at hx
  have hs : scanInteger 16 none ([h, l] ++ e) = .ok (false, numValue 16 [h, l], e) :=
    scanInteger_hex [h, l] e (by simp) (by
      intro c hc
      simp only [List.mem_cons, List.mem_singleton, List.not_mem_nil, or_false] at hc
      rcases hc with rfl | rfl
      · exact hx.1
      · exact hx.2) (fun c hc => he c (List.mem_of_mem_head? hc))
  simp only [List.cons_append, List.nil_append] at hs
  have hv := byteValue_lt hp
  simp only [sscanf_byte, hs, skipSpace_all_space e he, scanSet, scanRet]
  rw [strtoul_pos (by simp only [byteValue] at hv; omega)]
  simp only [byteValue] at hv ⊢
  simp only [ByteScan.mk.injEq, Option.some.injEq, and_true]
  constructor
  · rfl
  · exact Nat.mod_eq_of_lt hv

/-- A byte of a payload followed by another token: `sscanf` assigns it and
moves the rest of the line to the front of the buffer. -/
theorem sscanf_byte_more (h l c : Nat) (t : CStr) (hp : hexPair (h, l) = true)
    (hc : isspace c = false) :
    sscanf_byte (h :: l :: 32 :: c :: t)
      = ⟨2, some (byteValue (h, l)), (c :: t).takeWhile (fun x => x != 10)⟩ := by
  have hx := hp
  simp only [hexPair, Bool.and_eq_true] at hx
  have hs : scanInteger 16 none ([h, l] ++ 32 :: c :: t)
      = .ok (false, numValue 16 [h, l], 32 :: c :: t) :=
    scanInteger_hex [h, l] (32 :: c :: t) (by simp) (by
      intro c hc
      simp only [List.mem_cons, List.mem_singleton, List.not_mem_nil, or_false] at hc
      rcases hc with rfl | rfl
      · exact hx.1
      · exact hx.2) (fun x hx => by
        simp only [List.head?_cons, Option.mem_def, Option.some.injEq] at hx
        subst hx
        rfl)
  simp only [List.cons_append, List.nil_append] at hs
  have hv := byteValue_lt hp
  have hc10 : c ≠ 10 := by
    intro h10
    subst h10
    simp [isspace] at hc
  have hsk : skipSpace (32 :: c :: t) = c :: t := by
    rw [skipSpace_cons_of_space _ (by rfl), skipSpace_cons_of_not_space _ hc]
  simp only [sscanf_byte, hs, hsk, scanSet]
  rw [if_neg hc10, strtoul_pos (by simp only [byteValue] at hv; omega)]
  simp only [byteValue] at hv ⊢
  simp only [ByteScan.mk.injEq, Option.some.injEq, and_true, true_and]
  exact Nat.mod_eq_of_lt hv

theorem skipSpace_digits (s r : CStr) (hne : s ≠ []) (hs : ∀ c ∈ s, isxdigit c = true) :
    skipSpace (s ++ r) = s ++ r := by
  obtain ⟨c, t, rfl⟩ := List.exists_cons_of_ne_nil hne
  exact skipSpace_cons_of_not_space _ (isspace_false_of_isxdigit (hs c (by simp)))

theorem skipSpace_blank (s : CStr) : skipSpace (32 :: s) = skipSpace s :=
  skipSpace_cons_of_space s (by rfl)

theorem all_isxdigit_of_isdigit {s : CStr} (hs : ∀ c ∈ s, isdigit c = true) :
    ∀ c ∈ s, isxdigit c = true := fun c hc => isxdigit_of_isdigit (hs c hc)

theorem skipSpace_payload (p : Nat × Nat) (ps : List (Nat × Nat)) (e : CStr)
    (hp : hexPair p = true) :
    skipSpace (payloadText (p :: ps) ++ e) = p.1 :: p.2 :: (payloadText ps ++ e) := by
  simp only [hexPair, Bool.and_eq_true] at hp
  simp only [payloadText, List.cons_append]
  rw [skipSpace_blank, skipSpace_cons_of_not_space _ (isspace_false_of_isxdigit hp.1)]

/-- The payload loop of `hid_replay_event` on a buffer holding the byte tokens
`p, ps` and then only white space, with `k` iterations left: when `k` does not
exceed the number of tokens the loop stores the first `k` bytes, otherwise it
leaves by `return`. -/
theorem event_loop_tokens (event_len : Int) (e : CStr) (he : isEol e)
    (hn : ∀ c ∈ e, c ≠ 10) :
    ∀ (ps : List (Nat × Nat)) (p : Nat × Nat) (k i : Nat) (data : List Nat),
      (∀ q ∈ p :: ps, hexPair q = true) → (i : Int) + k = event_len →
      event_loop event_len k i (p.1 :: p.2 :: (payloadText ps ++ e)) data
        = if k ≤ ps.length + 1 then some (data ++ ((p :: ps).take k).map byteValue)
          else none := by
  intro ps
  induction ps with
  | nil =>
    intro p k i data hp hik
    cases k with
    | zero => simp [event_loop]
    | succ k =>
      have h1 := sscanf_byte_last p.1 p.2 e (hp p (by simp)) he
      simp only [payloadText, List.nil_append, event_loop, h1]
      by_cases hk : k = 0
      · subst hk
        have hi : (i : Int) = event_len - 1 := by omega
        simp [hi]
      · have hi : ¬ ((i : Int) = event_len - 1) := by omega
        simp [hi, hk]
  | cons q qs ih =>
    intro p k i data hp hik
    cases k with
    | zero => simp [event_loop]
    | succ k =>
      have hq : hexPair q = true := hp q (by simp)
      have hqx := hq
      simp only [hexPair, Bool.and_eq_true] at hqx
      have h1 := sscanf_byte_more p.1 p.2 q.1 (q.2 :: (payloadText qs ++ e)) (hp p (by simp))
        (isspace_false_of_isxdigit hqx.1)
      have h2 : (q.1 :: q.2 :: (payloadText qs ++ e)).takeWhile (fun x => x != 10)
          = q.1 :: q.2 :: (payloadText qs ++ e) := by
        apply takeWhile_ne_newline
        intro c hc
        simp only [List.mem_cons, List.mem_append] at hc
        rcases hc with rfl | rfl | hc | hc
        · exact ne_newline_of_isxdigit hqx.1
        · exact ne_newline_of_isxdigit hqx.2
        · exact payloadText_no_newline qs (fun x hx => hp x (by simp [hx])) c hc
        · exact hn c hc
      rw [h2] at h1
      simp only [payloadText, List.cons_append, event_loop, h1]
      have h3 := ih q k (i + 1) (data ++ [byteValue (p.1, p.2)])
        (fun x hx => hp x (by simp only [List.mem_cons] at hx ⊢; right; exact hx))
        (by push_cast; omega)
      simp only [ne_eq, not_true_eq_false, if_false]
      rw [h3]
      by_cases hk : k ≤ qs.length + 1
      · simp [hk]
      · simp [hk]

theorem stopsDigits_dot (r : CStr) : stopsDigits 10 (46 :: r) := by
  intro c hc
  simp only [List.head?_cons, Option.mem_def, Option.some.injEq] at hc
  subst hc
  rfl

/-- The first three conversions of the `sscanf` of `hid_replay_event` on the
head of an event line, with the rest of the line `r` still to be read. -/
theorem sscanf_event_head (sec usec len r : CStr) (hd : EventHead sec usec len)
    (hsec : numValue 10 sec < 2 ^ 64) (hlen : numValue 10 len < 2 ^ 31) (hr : endsToken r) :
    sscanf_event ([69, 58, 32] ++ sec ++ [46] ++ usec ++ [32] ++ len ++ r)
      = match scanSet (skipSpace r) with
        | .error f => ⟨scanRet 3 f, numValue 10 sec, numValue 10 usec, (numValue 10 len : Int),
            [69, 58, 32] ++ sec ++ [46] ++ usec ++ [32] ++ len ++ r⟩
        | .ok (rest, _) => ⟨4, numValue 10 sec, numValue 10 usec, (numValue 10 len : Int), rest⟩ := by
  have e1 : [69, 58, 32] ++ sec ++ [46] ++ usec ++ [32] ++ len ++ r
      = 69 :: 58 :: 32 :: (sec ++ 46 :: (usec ++ 32 :: (len ++ r))) := by
    simp only [List.append_assoc, List.cons_append, List.nil_append]
  have h1 : scanInteger 10 none (skipSpace (32 :: (sec ++ 46 :: (usec ++ 32 :: (len ++ r)))))
      = .ok (false, numValue 10 sec, 46 :: (usec ++ 32 :: (len ++ r))) := by
    rw [skipSpace_blank, skipSpace_digits _ _ hd.sec_ne (all_isxdigit_of_isdigit hd.sec_digits)]
    exact scanInteger_dec _ _ hd.sec_ne hd.sec_digits (stopsDigits_dot _)
  have hune : usec ≠ [] := by
    intro h
    have := hd.usec_len
    rw [h] at this
    simp at this
  have h2 : scanInteger 10 (some 6) (usec ++ 32 :: (len ++ r))
      = .ok (false, numValue 10 usec, 32 :: (len ++ r)) :=
    scanInteger_dec_width 6 _ _ hune hd.usec_len hd.usec_digits
  have h3 : scanInteger 10 none (skipSpace (32 :: (len ++ r)))
      = .ok (false, numValue 10 len, r) := by
    rw [skipSpace_blank, skipSpace_digits _ _ hd.len_ne (all_isxdigit_of_isdigit hd.len_digits)]
    exact scanInteger_dec _ _ hd.len_ne hd.len_digits (stopsDigits_of_endsToken hr)
  have hu : numValue 10 usec < 10 ^ 6 := by
    have := numValue_dec_lt usec hd.usec_digits
    rwa [hd.usec_len] at this
  have hu2 : strtoul false (numValue 10 usec) % 2 ^ 32 = numValue 10 usec := by
    rw [strtoul_pos (by omega)]
    exact Nat.mod_eq_of_lt (by omega)
  rw [e1]
  simp only [sscanf_event, scanLit, if_true, h1, h2, h3, hu2, strtoul_pos hsec,
    toInt_strtol_pos hlen]

/-- The `sscanf` of `hid_replay_event` on an event line with at least one
byte: four items, the rest of the line moved to the front of the buffer. -/
theorem sscanf_event_line (sec usec len : CStr) (p : Nat × Nat) (ps : List (Nat × Nat))
    (eol : CStr) (hd : EventHead sec usec len) (hsec : numValue 10 sec < 2 ^ 64)
    (hlen : numValue 10 len < 2 ^ 31) (hb : ∀ q ∈ p :: ps, hexPair q = true)
    (he : isEol eol) :
    sscanf_event (eventLine sec usec len (p :: ps) eol)
      = ⟨4, numValue 10 sec, numValue 10 usec, (numValue 10 len : Int),
          p.1 :: p.2 :: (payloadText ps ++ eolHead eol)⟩ := by
  have hp : hexPair p = true := hb p (by simp)
  have hpx := hp
  simp only [hexPair, Bool.and_eq_true] at hpx
  have h := sscanf_event_head sec usec len (payloadText (p :: ps) ++ eol) hd hsec hlen
    (endsToken_payload _ _ he)
  have e : eventLine sec usec len (p :: ps) eol
      = [69, 58, 32] ++ sec ++ [46] ++ usec ++ [32] ++ len ++ (payloadText (p :: ps) ++ eol) := by
    simp only [eventLine, List.append_assoc]
  rw [e, h, skipSpace_payload p ps eol hp]
  have h10 : p.1 ≠ 10 := ne_newline_of_isxdigit hpx.1
  have ht : (p.1 :: p.2 :: (payloadText ps ++ eol)).takeWhile (fun x => x != 10)
      = p.1 :: p.2 :: (payloadText ps ++ eolHead eol) := by
    have := takeWhile_append_eol (p.1 :: p.2 :: payloadText ps) eol (by
      intro c hc
      simp only [List.mem_cons] at hc
      rcases hc with rfl | rfl | hc
      · exact h10
      · exact ne_newline_of_isxdigit hpx.2
      · exact payloadText_no_newline ps (fun x hx => hb x (by simp [hx])) c hc)
    simpa using this
  simp only [scanSet, if_neg h10, ht]

/-- The `sscanf` of `hid_replay_event` on an event line without any byte:
three items only. -/
theorem sscanf_event_bare (sec usec len eol : CStr) (hd : EventHead sec usec len)
    (hsec : numValue 10 sec < 2 ^ 64) (hlen : numValue 10 len < 2 ^ 31) (he : isEol eol) :
    (sscanf_event (eventLine sec usec len [] eol)).n = 3 := by
  have h := sscanf_event_head sec usec len eol hd hsec hlen
    (fun c hc => he c (List.mem_of_mem_head? hc))
  have e : eventLine sec usec len [] eol
      = [69, 58, 32] ++ sec ++ [46] ++ usec ++ [32] ++ len ++ eol := by
    simp only [eventLine, payloadText, List.append_nil]
  rw [e, h, skipSpace_all_space eol he]
  rfl

theorem writes_append (a b : List Effect) : writes (a ++ b) = writes a ++ writes b := by
  induction a with
  | nil => rfl
  | cons x t ih => cases x <;> simp [writes, ih]

theorem sleeps_append (a b : List Effect) : sleeps (a ++ b) = sleeps a ++ sleeps b := by
  induction a with
  | nil => rfl
  | cons x t ih => cases x <;> simp [sleeps, ih]

theorem writes_log (b : Bool) : writes (if b then [Effect.fprintf_stderr] else []) = [] := by
  cases b <;> rfl

theorem sleeps_log (b : Bool) : sleeps (if b then [Effect.fprintf_stderr] else []) = [] := by
  cases b <;> rfl

theorem writes_pause (c : Prop) [Decidable c] (u : Nat) :
    writes (if c then [Effect.usleep u] else []) = [] := by
  by_cases h : c <;> simp [h, writes]

theorem toU16_small {n : Nat} (h : n < 2 ^ 16) : toU16 (n : Int) = n := by
  simp only [toU16]
  omega

theorem toLong_small {n : Nat} (h : n < 2 ^ 63) : toLong (n : Int) = (n : Int) := by
  simp only [toLong]
  omega

/-- The payload loop of `hid_replay_event` on the buffer its `sscanf` leaves
for an event line with as many bytes as declared: all of them are stored. -/
theorem event_loop_line (p : Nat × Nat) (ps : List (Nat × Nat)) (eol : CStr)
    (hb : ∀ q ∈ p :: ps, hexPair q = true) (he : isEol eol) :
    event_loop (((p :: ps).length : Nat) : Int) (p :: ps).length 0
        (p.1 :: p.2 :: (payloadText ps ++ eolHead eol)) []
      = some ((p :: ps).map byteValue) := by
  have h := event_loop_tokens (((p :: ps).length : Nat) : Int) (eolHead eol) (eolHead_space he)
    (eolHead_no_newline eol) ps p (p :: ps).length 0 [] hb (by simp)
  rw [h]
  simp

theorem peek_cons (i v j : Nat) (mem : RdescBuf) :
    peek ((i, v) :: mem) j = if i = j then v else peek mem j := by
  by_cases h : i = j
  · simp [peek, List.find?, h]
  · have hb : (i == j) = false := by simpa using h
    simp [peek, List.find?, h, hb]

theorem peek_storeSeq_below : ∀ (vs : List Nat) (i j : Nat) (mem : RdescBuf), j < i →
    peek (storeSeq i vs mem) j = peek mem j
  | [], _, _, _, _ => rfl
  | v :: vs, i, j, mem, h => by
    rw [storeSeq, peek_storeSeq_below vs (i + 1) j _ (by omega), peek_cons, if_neg (by omega)]

theorem peek_storeSeq_at : ∀ (vs : List Nat) (i t : Nat) (mem : RdescBuf) (h : t < vs.length),
    peek (storeSeq i vs mem) (i + t) = vs.get ⟨t, h⟩
  | v :: vs, i, 0, mem, _ => by
    rw [storeSeq]
    show peek (storeSeq (i + 1) vs ((i, v) :: mem)) i = _
    rw [peek_storeSeq_below vs (i + 1) i _ (by omega), peek_cons]
    simp
  | v :: vs, i, t + 1, mem, h => by
    have h2 : t < vs.length := by simpa using h
    have := peek_storeSeq_at vs (i + 1) t ((i, v) :: mem) h2
    rw [storeSeq, show i + (t + 1) = i + 1 + t by omega, this]
    rfl

/-- After the bytes `vals` are stored from index 0 on, they are the first bytes
of `rdesc_buf`. -/
theorem rdesc_bytes_storeSeq (vs : List Nat) (mem : RdescBuf) :
    rdesc_bytes (storeSeq 0 vs mem) vs.length = vs := by
  apply List.ext_get
  · simp [rdesc_bytes]
  · intro n h1 h2
    have := peek_storeSeq_at vs 0 n mem h2
    simp only [Nat.zero_add] at this
    simp [rdesc_bytes, this]

/-- The byte loop of `hid_replay_rdesc` on a buffer holding the byte tokens
`p, ps` and then only white space, with `k` iterations left: the loop is left
by its end or its `break` exactly when `k` does not exceed the number of
tokens, and it has stored the first `k` bytes (all of them when there are
fewer) from index `i` on. -/
theorem rdesc_loop_tokens (rdesc_len : Int) (e : CStr) (he : isEol e)
    (hn : ∀ c ∈ e, c ≠ 10) :
    ∀ (ps : List (Nat × Nat)) (p : Nat × Nat) (k i : Nat) (mem : RdescBuf),
      (∀ q ∈ p :: ps, hexPair q = true) → (i : Int) + k = rdesc_len →
      (rdesc_loop rdesc_len k i (p.1 :: p.2 :: (payloadText ps ++ e)) mem).1
          = decide (k ≤ ps.length + 1)
      ∧ (rdesc_loop rdesc_len k i (p.1 :: p.2 :: (payloadText ps ++ e)) mem).2.2
          = storeSeq i (((p :: ps).take k).map byteValue) mem := by
  intro ps
  induction ps with
  | nil =>
    intro p k i mem hp hik
    cases k with
    | zero => simp [rdesc_loop, storeSeq]
    | succ k =>
      have h1 := sscanf_byte_last p.1 p.2 e (hp p (by simp)) he
      simp only [payloadText, List.nil_append, rdesc_loop, h1]
      by_cases hk : k = 0
      · subst hk
        have hi : (i : Int) = rdesc_len - 1 := by omega
        simp [hi, storeSeq]
      · have hi : ¬ ((i : Int) = rdesc_len - 1) := by omega
        simp [hi, hk, storeSeq]
  | cons q qs ih =>
    intro p k i mem hp hik
    cases k with
    | zero => simp [rdesc_loop, storeSeq]
    | succ k =>
      have hq : hexPair q = true := hp q (by simp)
      have hqx := hq
      simp only [hexPair, Bool.and_eq_true] at hqx
      have h1 := sscanf_byte_more p.1 p.2 q.1 (q.2 :: (payloadText qs ++ e)) (hp p (by simp))
        (isspace_false_of_isxdigit hqx.1)
      have h2 : (q.1 :: q.2 :: (payloadText qs ++ e)).takeWhile (fun x => x != 10)
          = q.1 :: q.2 :: (payloadText qs ++ e) := by
        apply takeWhile_ne_newline
        intro c hc
        simp only [List.mem_cons, List.mem_append] at hc
        rcases hc with rfl | rfl | hc | hc
        · exact ne_newline_of_isxdigit hqx.1
        · exact ne_newline_of_isxdigit hqx.2
        · exact payloadText_no_newline qs (fun x hx => hp x (by simp [hx])) c hc
        · exact hn c hc
      rw [h2] at h1
      simp only [payloadText, List.cons_append, rdesc_loop, h1]
      have h3 := ih q k (i + 1) ((i, byteValue (p.1, p.2)) :: mem)
        (fun x hx => hp x (by simp only [List.mem_cons] at hx ⊢; right; exact hx))
        (by push_cast; omega)
      simp only [ne_eq, not_true_eq_false, if_false]
      rw [h3.1, h3.2]
      simp [storeSeq]

/-- The `sscanf` of `hid_replay_rdesc` on the head `R: <len>` of a line, with
the rest of the line `r` still to be read. -/
theorem sscanf_rdesc_head (len r : CStr) (hne : len ≠ []) (hd : ∀ c ∈ len, isdigit c = true)
    (hlen : numValue 10 len < 2 ^ 31) (hr : endsToken r) :
    sscanf_rdesc ([82, 58, 32] ++ len ++ r)
      = match scanSet (skipSpace r) with
        | .error f => ⟨scanRet 1 f, (numValue 10 len : Int), [82, 58, 32] ++ len ++ r⟩
        | .ok (rest, _) => ⟨2, (numValue 10 len : Int), rest⟩ := by
  have e1 : [82, 58, 32] ++ len ++ r = 82 :: 58 :: 32 :: (len ++ r) := by
    simp only [List.append_assoc, List.cons_append, List.nil_append]
  have h1 : scanInteger 10 none (skipSpace (32 :: (len ++ r)))
      = .ok (false, numValue 10 len, r) := by
    rw [skipSpace_blank, skipSpace_digits _ _ hne (all_isxdigit_of_isdigit hd)]
    exact scanInteger_dec _ _ hne hd (stopsDigits_of_endsToken hr)
  rw [e1]
  simp only [sscanf_rdesc, scanLit, if_true, h1, toInt_strtol_pos hlen]

/-- The `sscanf` of `hid_replay_rdesc` on a line with at least one byte. -/
theorem sscanf_rdesc_line (len : CStr) (p : Nat × Nat) (ps : List (Nat × Nat)) (eol : CStr)
    (hne : len ≠ []) (hd : ∀ c ∈ len, isdigit c = true) (hlen : numValue 10 len < 2 ^ 31)
    (hb : ∀ q ∈ p :: ps, hexPair q = true) (he : isEol eol) :
    sscanf_rdesc (rdescLine len (p :: ps) eol)
      = ⟨2, (numValue 10 len : Int), p.1 :: p.2 :: (payloadText ps ++ eolHead eol)⟩ := by
  have hp : hexPair p = true := hb p (by simp)
  have hpx := hp
  simp only [hexPair, Bool.and_eq_true] at hpx
  have h := sscanf_rdesc_head len (payloadText (p :: ps) ++ eol) hne hd hlen
    (endsToken_payload _ _ he)
  have e : rdescLine len (p :: ps) eol = [82, 58, 32] ++ len ++ (payloadText (p :: ps) ++ eol) := by
    simp only [rdescLine, List.append_assoc]
  rw [e, h, skipSpace_payload p ps eol hp]
  have h10 : p.1 ≠ 10 := ne_newline_of_isxdigit hpx.1
  have ht : (p.1 :: p.2 :: (payloadText ps ++ eol)).takeWhile (fun x => x != 10)
      = p.1 :: p.2 :: (payloadText ps ++ eolHead eol) := by
    have := takeWhile_append_eol (p.1 :: p.2 :: payloadText ps) eol (by
      intro c hc
      simp only [List.mem_cons] at hc
      rcases hc with rfl | rfl | hc
      · exact h10
      · exact ne_newline_of_isxdigit hpx.2
      · exact payloadText_no_newline ps (fun x hx => hb x (by simp [hx])) c hc)
    simpa using this
  simp only [scanSet, if_neg h10, ht]

/-- On a line `R: <len> <b1> ... <blen>` with as many bytes as declared,
`hid_replay_rdesc` stores the bytes at the start of `rdesc_buf` and sets
`rd_data` and `rd_size`. -/
theorem hid_replay_rdesc_line (len : CStr) (bytes : List (Nat × Nat)) (eol : CStr)
    (mem : RdescBuf) (dev : uhid_create_req)
    (hne : len ≠ []) (hd : ∀ c ∈ len, isdigit c = true)
    (hlen : numValue 10 len = bytes.length) (h1 : 1 ≤ bytes.length)
    (h4096 : bytes.length ≤ 4096)
    (hb : ∀ q ∈ bytes, hexPair q = true) (he : isEol eol) :
    (hid_replay_rdesc (rdescLine len bytes eol) mem dev).dev
        = { dev with rd_data := Ptr.rdesc_buf, rd_size := bytes.length }
    ∧ (hid_replay_rdesc (rdescLine len bytes eol) mem dev).mem
        = storeSeq 0 (bytes.map byteValue) mem := by
  obtain ⟨p, ps, rfl⟩ := List.exists_cons_of_ne_nil (l := bytes) (by
    intro h
    rw [h] at h1
    simp at h1)
  have hsc := sscanf_rdesc_line len p ps eol hne hd (by omega) hb he
  rw [hlen] at hsc
  have hl := rdesc_loop_tokens (((p :: ps).length : Nat) : Int) (eolHead eol) (eolHead_space he)
    (eolHead_no_newline eol) ps p (p :: ps).length 0 mem hb (by simp)
  have hlen16 : toU16 (((p :: ps).length : Nat) : Int) = (p :: ps).length :=
    toU16_small (by omega)
  simp only [hid_replay_rdesc, hsc, Int.toNat_ofNat, hl.1, hl.2, hlen16]
  simp

theorem isEol_of_isLineEnd {e : CStr} (h : isLineEnd e) : isEol e := by
  rcases h with rfl | rfl | rfl <;> intro c hc <;> simp at hc
  · subst hc; rfl
  · rcases hc with rfl | rfl <;> rfl

theorem length_le_of_isLineEnd {e : CStr} (h : isLineEnd e) : e.length ≤ 2 := by
  rcases h with rfl | rfl | rfl <;> simp

theorem HexField.lt {f : CStr} (h : HexField f) : numValue 16 f < 65536 := by
  have h1 := numValue_hex_lt f h.digits
  have h2 : 16 ^ f.length ≤ 16 ^ 4 := Nat.pow_le_pow_right (by omega) h.short
  omega

/-- The `sscanf` of `hid_replay_name` on a line `N: <name><eol>`. -/
theorem sscanf_text_name (name eol : CStr) (hn : NameText name) :
    sscanf_text 78 (nameLine name eol) = some (name ++ eolHead eol) := by
  obtain ⟨c, t, rfl⟩ := List.exists_cons_of_ne_nil hn.ne
  have hc : isspace c = false := hn.head c (by simp)
  have hc10 : c ≠ 10 := hn.no_newline c (by simp)
  have e1 : nameLine (c :: t) eol = 78 :: 58 :: 32 :: c :: (t ++ eol) := by
    simp only [nameLine, List.append_assoc, List.cons_append, List.nil_append]
  have ht := takeWhile_append_eol (c :: t) eol hn.no_newline
  simp only [List.cons_append] at ht
  rw [e1]
  simp only [sscanf_text, scanLit, if_true, skipSpace_blank,
    skipSpace_cons_of_not_space _ hc, scanSet, if_neg hc10, ht]
  rfl

theorem toSizeT_small {n : Nat} (h : n < 2 ^ 64) : toSizeT (n : Int) = n := by
  simp only [toSizeT]
  omega

/-- On a line `N: <name>` that fits the name field, `hid_replay_name` stores
the name. -/
theorem hid_replay_name_line (name eol : CStr) (dev : uhid_create_req) (hn : NameText name)
    (he : isLineEnd eol) (hcap : name.length + eol.length < NAME_SIZE) :
    hid_replay_name (nameLine name eol) ((nameLine name eol).length : Int) dev
      = { dev with name := name } := by
  have hlen : ((nameLine name eol).length : Int) - 3 = ((name.length + eol.length : Nat) : Int) := by
    simp only [nameLine, List.length_append, List.length_cons, List.length_nil]
    push_cast
    omega
  have hsz : ¬ (NAME_SIZE ≤ toSizeT (((nameLine name eol).length : Int) - 3)) := by
    rw [hlen, toSizeT_small (by simp only [NAME_SIZE] at hcap; omega)]
    omega
  simp only [hid_replay_name, if_neg hsz, sscanf_text_name name eol hn]
  rcases he with rfl | rfl | rfl
  · have h1 : eolHead [] = [] := rfl
    have h3 : ¬ (NAME_SIZE ≤ name.length) := by
      simp only [List.length_nil] at hcap
      omega
    simp only [h1, List.append_nil, if_neg hn.last, if_neg h3]
  · have h1 : eolHead [10] = [] := rfl
    have h3 : ¬ (NAME_SIZE ≤ name.length) := by
      simp only [List.length_singleton] at hcap
      omega
    simp only [h1, List.append_nil, if_neg hn.last, if_neg h3]
  · have h1 : eolHead [13, 10] = [13] := rfl
    have h2 : (name ++ [13]).getLast? = some 13 := by simp
    have h3 : ¬ (NAME_SIZE ≤ (name ++ [13]).length) := by
      simp only [List.length_cons, List.length_nil, List.length_append] at hcap ⊢
      omega
    simp only [h1, h2, if_true, List.dropLast_concat, if_neg h3]

theorem endsToken_blank (r : CStr) : endsToken (32 :: r) := by
  intro c hc
  simp only [List.head?_cons, Option.mem_def, Option.some.injEq] at hc
  subst hc
  rfl

theorem toInt_small {n : Nat} (h : n < 2 ^ 31) : toInt (n : Int) = (n : Int) := by
  simp only [toInt]
  omega

theorem toUnsigned_small {n : Nat} (h : n < 2 ^ 32) : toUnsigned (n : Int) = n := by
  simp only [toUnsigned]
  omega

/-- The `sscanf` of `hid_replay_info` on a line `I: <bus> <vendor> <product>`. -/
theorem sscanf_info_line (bus vendor product eol : CStr) (hb : HexField bus)
    (hv : HexField vendor) (hp : HexField product) (he : isEol eol) :
    sscanf_info (infoLine bus vendor product eol)
      = ⟨3, (numValue 16 bus : Int), (numValue 16 vendor : Int), (numValue 16 product : Int)⟩ := by
  have e1 : infoLine bus vendor product eol
      = 73 :: 58 :: 32 :: (bus ++ 32 :: (vendor ++ 32 :: (product ++ eol))) := by
    simp only [infoLine, List.append_assoc, List.cons_append, List.nil_append]
  have h1 : scanInteger 16 none (skipSpace (32 :: (bus ++ 32 :: (vendor ++ 32 :: (product ++ eol)))))
      = .ok (false, numValue 16 bus, 32 :: (vendor ++ 32 :: (product ++ eol))) := by
    rw [skipSpace_blank, skipSpace_digits _ _ hb.ne hb.digits]
    exact scanInteger_hex _ _ hb.ne hb.digits (endsToken_blank _)
  have h2 : scanInteger 16 none (skipSpace (32 :: (vendor ++ 32 :: (product ++ eol))))
      = .ok (false, numValue 16 vendor, 32 :: (product ++ eol)) := by
    rw [skipSpace_blank, skipSpace_digits _ _ hv.ne hv.digits]
    exact scanInteger_hex _ _ hv.ne hv.digits (endsToken_blank _)
  have h3 : scanInteger 16 none (skipSpace (32 :: (product ++ eol)))
      = .ok (false, numValue 16 product, eol) := by
    rw [skipSpace_blank, skipSpace_digits _ _ hp.ne hp.digits]
    exact scanInteger_hex _ _ hp.ne hp.digits (fun c hc => he c (List.mem_of_mem_head? hc))
  have b1 := hb.lt
  have b2 := hv.lt
  have b3 := hp.lt
  rw [e1]
  simp only [sscanf_info, scanLit, if_true, h1, h2, h3, strtoul_pos (show numValue 16 bus < 2 ^ 64 by omega),
    strtoul_pos (show numValue 16 vendor < 2 ^ 64 by omega),
    strtoul_pos (show numValue 16 product < 2 ^ 64 by omega),
    toInt_small (show numValue 16 bus < 2 ^ 31 by omega),
    toInt_small (show numValue 16 vendor < 2 ^ 31 by omega),
    toInt_small (show numValue 16 product < 2 ^ 31 by omega)]

/-- On a line `I: <bus> <vendor> <product>`, `hid_replay_info` stores the three
identifiers. -/
theorem hid_replay_info_line (bus vendor product eol : CStr) (dev : uhid_create_req)
    (hb : HexField bus) (hv : HexField vendor) (hp : HexField product) (he : isLineEnd eol) :
    hid_replay_info (infoLine bus vendor product eol)
        ((infoLine bus vendor product eol).length : Int) dev
      = { dev with bus := numValue 16 bus, vendor := numValue 16 vendor,
                   product := numValue 16 product } := by
  have hl1 := hb.short
  have hl2 := hv.short
  have hl3 := hp.short
  have hl4 := length_le_of_isLineEnd he
  have hlen : ((infoLine bus vendor product eol).length : Int) - 3
      = ((bus.length + 1 + vendor.length + 1 + product.length + eol.length : Nat) : Int) := by
    simp only [infoLine, List.length_append, List.length_cons, List.length_nil]
    push_cast
    omega
  have hsz : ¬ (PHYS_SIZE ≤ toSizeT (((infoLine bus vendor product eol).length : Int) - 3)) := by
    rw [hlen, toSizeT_small (by omega)]
    simp only [PHYS_SIZE]
    omega
  have b1 := hb.lt
  have b2 := hv.lt
  have b3 := hp.lt
  simp only [hid_replay_info, if_neg hsz, sscanf_info_line bus vendor product eol hb hv hp
    (isEol_of_isLineEnd he), ne_eq, not_true_eq_false, if_false,
    toU16_small (show numValue 16 bus < 2 ^ 16 by omega),
    toUnsigned_small (show numValue 16 vendor < 2 ^ 32 by omega),
    toUnsigned_small (show numValue 16 product < 2 ^ 32 by omega)]

theorem header_switch_name (size : Int) (st : HeaderState) (h : st.buf.head? = some 78) :
    header_switch size st
      = { st with dev := hid_replay_name st.buf size st.dev,
                  mask := st.mask ||| HID_REPLAY_MASK_NAME } := by
  simp only [header_switch, h]

theorem header_switch_info (size : Int) (st : HeaderState) (h : st.buf.head? = some 73) :
    header_switch size st
      = { st with dev := hid_replay_info st.buf size st.dev,
                  mask := st.mask ||| HID_REPLAY_MASK_INFO } := by
  simp only [header_switch, h]

theorem header_switch_rdesc (size : Int) (st : HeaderState) (h : st.buf.head? = some 82) :
    header_switch size st
      = { buf := (hid_replay_rdesc st.buf st.mem st.dev).buf,
          mask := st.mask ||| HID_REPLAY_MASK_RDESC,
          mem := (hid_replay_rdesc st.buf st.mem st.dev).mem,
          dev := (hid_replay_rdesc st.buf st.mem st.dev).dev } := by
  simp only [header_switch, h]

/-- What the `sscanf` and the payload loop of `hid_replay_event` give on a
well-formed event line. -/
theorem event_text_scan {sec usec len : CStr} {bytes : List (Nat × Nat)} {eol : CStr}
    (h : EventText sec usec len bytes eol) :
    ∃ buf, sscanf_event (eventLine sec usec len bytes eol)
        = ⟨4, numValue 10 sec, numValue 10 usec, (bytes.length : Int), buf⟩
      ∧ event_loop (bytes.length : Int) bytes.length 0 buf [] = some (bytes.map byteValue) := by
  obtain ⟨p, ps, rfl⟩ := List.exists_cons_of_ne_nil (l := bytes) (by
    intro h0
    have := h.len_pos
    rw [h0] at this
    simp at this)
  have h1 := h.len_eq
  have h2 := h.len_max
  have h3 := h.sec_long
  have hsc := sscanf_event_line sec usec len p ps eol h.head (by omega) (by omega) h.hex h.eol
  rw [h.len_eq] at hsc
  exact ⟨_, hsc, event_loop_line p ps eol h.hex h.eol⟩

/-- What `hid_replay_event` does with a well-formed event line, step by step:
the clock is set when it is unset, the 32-bit difference decides about the
sleep, and the one message is written. -/
theorem hid_replay_event_text (wfail : Bool) (time : timeval) {sec usec len : CStr}
    {bytes : List (Nat × Nat)} {eol : CStr} (h : EventText sec usec len bytes eol) :
    hid_replay_event wfail (eventLine sec usec len bytes eol) time
      = ⟨if 500 < pacingDelta (if time.tv_sec = 0 ∧ time.tv_usec = 0
              then ⟨numValue 10 sec, numValue 10 usec⟩ else time)
              (numValue 10 sec) (numValue 10 usec)
          then ⟨numValue 10 sec, numValue 10 usec⟩
          else (if time.tv_sec = 0 ∧ time.tv_usec = 0
              then ⟨numValue 10 sec, numValue 10 usec⟩ else time),
         (if 500 < pacingDelta (if time.tv_sec = 0 ∧ time.tv_usec = 0
              then ⟨numValue 10 sec, numValue 10 usec⟩ else time)
              (numValue 10 sec) (numValue 10 usec)
          then [Effect.usleep (if 3000000 < pacingDelta (if time.tv_sec = 0 ∧ time.tv_usec = 0
              then ⟨numValue 10 sec, numValue 10 usec⟩ else time)
              (numValue 10 sec) (numValue 10 usec) then 3000000
            else pacingDelta (if time.tv_sec = 0 ∧ time.tv_usec = 0
              then ⟨numValue 10 sec, numValue 10 usec⟩ else time)
              (numValue 10 sec) (numValue 10 usec))]
          else [])
         ++ [Effect.write (eventMessage bytes)]
         ++ (if wfail then [Effect.fprintf_stderr] else [])⟩ := by
  obtain ⟨buf, hsc, hloop⟩ := event_text_scan h
  have hlen16 : toU16 ((bytes.length : Nat) : Int) = bytes.length :=
    toU16_small (by have := h.len_max; omega)
  have htake : (bytes.map byteValue).take UHID_DATA_MAX = bytes.map byteValue :=
    List.take_of_length_le (by simpa [UHID_DATA_MAX] using h.len_max)
  simp only [hid_replay_event, hsc, Int.toNat_ofNat, hloop, hlen16, htake,
    toLong_small h.sec_long, pacingDelta, eventMessage]
  simp

theorem pacingDelta_self (sec usec : Int) : pacingDelta ⟨sec, usec⟩ sec usec = 0 := by
  simp [pacingDelta, toUnsigned]

theorem length_pos_cast {l : CStr} (h : l ≠ []) : ¬ ((l.length : Int) < 1) := by
  have : 0 < l.length := List.length_pos.mpr h
  omega

theorem read_one_skip (w : Bool) (l : CStr) (fp : List CStr) (time : timeval) (hl : l ≠ [])
    (ht : l.head? ≠ some 69) :
    hid_replay_read_one w (l :: fp) time = hid_replay_read_one w fp time := by
  simp only [hid_replay_read_one, if_neg (length_pos_cast hl), if_neg ht]

theorem read_one_event (w : Bool) (l : CStr) (fp : List CStr) (time : timeval) (hl : l ≠ [])
    (ht : l.head? = some 69) :
    hid_replay_read_one w (l :: fp) time
      = ⟨0, fp, (hid_replay_event w l time).time, (hid_replay_event w l time).effects⟩ := by
  simp only [hid_replay_read_one, if_neg (length_pos_cast hl), if_pos ht]

theorem read_loop_skip (wfail : Nat → Bool) (fuel j : Nat) (l : CStr) (fp : List CStr)
    (time : timeval) (hl : l ≠ []) (ht : l.head? ≠ some 69) :
    read_loop wfail fuel j (l :: fp) time = read_loop wfail fuel j fp time := by
  cases fuel with
  | zero => rfl
  | succ f => simp only [read_loop, read_one_skip _ l fp time hl ht]

theorem read_loop_event (wfail : Nat → Bool) (f j : Nat) (l : CStr) (fp : List CStr)
    (time : timeval) (hl : l ≠ []) (ht : l.head? = some 69) :
    read_loop wfail (f + 1) j (l :: fp) time
      = (read_loop wfail f (j + 1) fp (hid_replay_event (wfail j) l time).time).map
          (fun x => (x.1, (hid_replay_event (wfail j) l time).effects ++ x.2)) := by
  simp only [read_loop, read_one_event _ l fp time hl ht, if_true]

/-- The read loop of `main` ends, within one call of `hid_replay_read_one` per
line beginning with `E` and one more, and does what the pass told line by line
does. -/
theorem read_loop_trace (wfail : Nat → Bool) :
    ∀ (ls : List CStr) (fuel j : Nat) (time : timeval), (∀ l ∈ ls, l ≠ []) →
      eventTags ls < fuel → read_loop wfail fuel j ls time = some (passTrace wfail j ls time) := by
  intro ls
  induction ls with
  | nil =>
    intro fuel j time _ hf
    cases fuel with
    | zero => simp [eventTags] at hf
    | succ f => simp [read_loop, hid_replay_read_one, passTrace]
  | cons l ls ih =>
    intro fuel j time hne hf
    have hl : l ≠ [] := hne l (by simp)
    have hls : ∀ x ∈ ls, x ≠ [] := fun x hx => hne x (by simp [hx])
    by_cases ht : l.head? = some 69
    · cases fuel with
      | zero => simp at hf
      | succ f =>
        simp only [eventTags, if_pos ht] at hf
        rw [read_loop_event wfail f j l ls time hl ht, ih f (j + 1) _ hls (by omega)]
        simp [passTrace, ht]
    · simp only [eventTags, if_neg ht] at hf
      rw [read_loop_skip wfail fuel j l ls time hl ht, ih fuel j time hls hf]
      simp [passTrace, ht]

theorem eventLine_head (sec usec len : CStr) (bytes : List (Nat × Nat)) (eol : CStr) :
    (eventLine sec usec len bytes eol).head? = some 69 := rfl

theorem eventLine_ne_nil (sec usec len : CStr) (bytes : List (Nat × Nat)) (eol : CStr) :
    eventLine sec usec len bytes eol ≠ [] := by
  simp [eventLine]

theorem writes_event_text (wfail : Bool) (time : timeval) {sec usec len : CStr}
    {bytes : List (Nat × Nat)} {eol : CStr} (h : EventText sec usec len bytes eol) :
    writes (hid_replay_event wfail (eventLine sec usec len bytes eol) time).effects
      = [eventMessage bytes] := by
  rw [hid_replay_event_text wfail time h]
  simp [writes_append, writes_pause, writes_log, writes]

theorem recLine_ne_nil : ∀ (x : RecLine), x.wellFormed → x.text ≠ []
  | .other _, h => h.1
  | .event sec usec len bytes eol, _ => eventLine_ne_nil sec usec len bytes eol

theorem eventTags_recLines : ∀ (src : List RecLine), (∀ x ∈ src, x.wellFormed) →
    eventTags (src.map RecLine.text) = (src.filterMap RecLine.message).length
  | [], _ => rfl
  | .other l :: src, h => by
    have h1 : RecLine.wellFormed (.other l) := h _ (by simp)
    have ih := eventTags_recLines src (fun x hx => h x (by simp [hx]))
    simp [eventTags, RecLine.text, RecLine.message, h1.2, ih]
  | .event sec usec len bytes eol :: src, h => by
    have ih := eventTags_recLines src (fun x hx => h x (by simp [hx]))
    simp [eventTags, RecLine.text, RecLine.message, eventLine_head, ih]

theorem writes_passTrace (wfail : Nat → Bool) : ∀ (src : List RecLine) (j : Nat) (time : timeval),
    (∀ x ∈ src, x.wellFormed) →
    writes (passTrace wfail j (src.map RecLine.text) time).2 = src.filterMap RecLine.message
  | [], _, _, _ => rfl
  | .other l :: src, j, time, h => by
    have h1 : RecLine.wellFormed (.other l) := h _ (by simp)
    have ih := writes_passTrace wfail src j time (fun x hx => h x (by simp [hx]))
    simp [passTrace, RecLine.text, RecLine.message, h1.2, ih]
  | .event sec usec len bytes eol :: src, j, time, h => by
    have h1 : EventText sec usec len bytes eol := h (.event sec usec len bytes eol) (by simp)
    have ih := writes_passTrace wfail src (j + 1)
      (hid_replay_event (wfail j) (eventLine sec usec len bytes eol) time).time
      (fun x hx => h x (by simp [hx]))
    simp only [List.map_cons, RecLine.text, passTrace, eventLine_head, if_true, writes_append,
      writes_event_text (wfail j) time h1, ih]
    simp [RecLine.message]

/-- The 32-bit difference computed by `hid_replay_event` is the difference of
the two timestamps in microseconds, modulo `2^32`. -/
theorem pacingDelta_eq (time : timeval) (sec usec : Int) :
    pacingDelta time sec usec
      = ((1000000 * (sec - time.tv_sec) + (usec - time.tv_usec)) % 2 ^ 32).toNat := by
  simp only [pacingDelta, toUnsigned]
  omega

/-- On an event line without enough bytes, the payload loop is left by
`return`, or the `sscanf` has assigned three items only: nothing is written. -/
theorem writes_event_short (wfail : Bool) (time : timeval) (sec usec len : CStr)
    (bytes : List (Nat × Nat)) (eol : CStr) (hd : EventHead sec usec len)
    (hsec : numValue 10 sec < 2 ^ 64) (hlen : numValue 10 len < 2 ^ 31)
    (hfew : bytes.length < numValue 10 len) (hb : ∀ q ∈ bytes, hexPair q = true)
    (he : isEol eol) :
    writes (hid_replay_event wfail (eventLine sec usec len bytes eol) time).effects = [] := by
  cases bytes with
  | nil =>
    have h3 := sscanf_event_bare sec usec len eol hd hsec hlen he
    simp only [hid_replay_event, h3]
    rfl
  | cons p ps =>
    have hsc := sscanf_event_line sec usec len p ps eol hd hsec hlen hb he
    have hloop := event_loop_tokens ((numValue 10 len : Nat) : Int) (eolHead eol)
      (eolHead_space he) (eolHead_no_newline eol) ps p (numValue 10 len) 0 [] hb (by simp)
    have hk : ¬ (numValue 10 len ≤ ps.length + 1) := by
      simp only [List.length_cons] at hfew
      omega
    rw [if_neg hk] at hloop
    simp only [hid_replay_event, hsc, Int.toNat_ofNat, hloop]
    simp [writes_pause]

/-- A line beginning with `E` on which the `sscanf` of `hid_replay_event` does
not assign its four items has no effect at all. -/
theorem hid_replay_event_unparsed (w : Bool) (l : CStr) (time : timeval)
    (h : (sscanf_event l).n ≠ 4) : hid_replay_event w l time = ⟨time, []⟩ := by
  simp only [hid_replay_event, if_pos h]

theorem read_loop_first_event (wfail : Nat → Bool) {sec usec len : CStr}
    {bytes : List (Nat × Nat)} {eol : CStr} (h : EventText sec usec len bytes eol)
    (post : List CStr) (fuel : Nat) :
    ∀ (pre : List CStr) (j : Nat), noEventYet pre →
      read_loop wfail (eventTags pre + 1 + fuel) j
          (pre ++ eventLine sec usec len bytes eol :: post) ⟨0, 0⟩
        = (read_loop wfail fuel (j + eventTags pre + 1) post
            ⟨(numValue 10 sec : Int), (numValue 10 usec : Int)⟩).map
          (fun x => (x.1, [Effect.write (eventMessage bytes)]
            ++ (if wfail (j + eventTags pre) then [Effect.fprintf_stderr] else []) ++ x.2)) := by
  intro pre
  induction pre with
  | nil =>
    intro j _
    have e : eventTags [] + 1 + fuel = fuel + 1 := by simp [eventTags]; omega
    rw [e, List.nil_append, read_loop_event wfail fuel j _ post ⟨0, 0⟩
      (eventLine_ne_nil sec usec len bytes eol) (eventLine_head sec usec len bytes eol),
      hid_replay_event_text (wfail j) ⟨0, 0⟩ h]
    simp [pacingDelta_self, eventTags]
  | cons l pre ih =>
    intro j hpre
    have hl := hpre l (by simp)
    have hrest : noEventYet pre := fun x hx => hpre x (by simp [hx])
    by_cases ht : l.head? = some 69
    · have e : eventTags (l :: pre) + 1 + fuel = (eventTags pre + 1 + fuel) + 1 := by
        simp only [eventTags, if_pos ht]
        omega
      have e2 : eventTags (l :: pre) = eventTags pre + 1 := by
        simp only [eventTags, if_pos ht]
      rw [e, List.cons_append, read_loop_event wfail _ j l _ ⟨0, 0⟩ hl.1 ht,
        hid_replay_event_unparsed (wfail j) l ⟨0, 0⟩ (hl.2 ht), ih (j + 1) hrest, e2,
        Option.map_map]
      have e3 : j + 1 + eventTags pre = j + (eventTags pre + 1) := by omega
      rw [e3]
      rfl
    · have e2 : eventTags (l :: pre) = eventTags pre := by
        simp only [eventTags, if_neg ht]
      rw [e2, List.cons_append, read_loop_skip wfail _ j l _ ⟨0, 0⟩ hl.1 ht, ih j hrest]

theorem maskBits_complete (a b c : Bool) :
    maskBits a b c = HID_REPLAY_MASK_COMPLETE ↔ (a && b && c) = true := by
  cases a <;> cases b <;> cases c <;> decide

theorem maskBits_name (a b c : Bool) :
    maskBits a b c ||| HID_REPLAY_MASK_NAME = maskBits true b c := by
  cases a <;> cases b <;> cases c <;> decide

theorem maskBits_rdesc (a b c : Bool) :
    maskBits a b c ||| HID_REPLAY_MASK_RDESC = maskBits a true c := by
  cases a <;> cases b <;> cases c <;> decide

theorem maskBits_info (a b c : Bool) :
    maskBits a b c ||| HID_REPLAY_MASK_INFO = maskBits a b true := by
  cases a <;> cases b <;> cases c <;> decide

/-- The `switch` sets the bit of the tag of the line, whatever the line holds
behind it. -/
theorem header_switch_mask (size : Int) (st : HeaderState) (a b c : Bool)
    (hm : st.mask = maskBits a b c) :
    (header_switch size st).mask
      = maskBits (a || lineTag 78 st.buf) (b || lineTag 82 st.buf) (c || lineTag 73 st.buf) := by
  unfold header_switch
  split
  · rename_i h
    simp [lineTag, h, hm]
  · rename_i h
    simp [lineTag, h, hm, maskBits_rdesc]
  · rename_i h
    simp [lineTag, h, hm, maskBits_name]
  · rename_i h
    simp [lineTag, h, hm]
  · rename_i h
    simp [lineTag, h, hm, maskBits_info]
  · rename_i h1 h2 h3 h4 h5
    have e1 : lineTag 78 st.buf = false := by simpa [lineTag] using h3
    have e2 : lineTag 82 st.buf = false := by simpa [lineTag] using h2
    have e3 : lineTag 73 st.buf = false := by simpa [lineTag] using h5
    simp [e1, e2, e3, hm]

theorem headerComplete_snoc (pre : List CStr) (l : CStr) :
    headerComplete (pre ++ [l])
      = ((pre.any (lineTag 78) || lineTag 78 l) && (pre.any (lineTag 82) || lineTag 82 l)
          && (pre.any (lineTag 73) || lineTag 73 l)) := by
  simp [headerComplete, List.any_append]

/-- The loop of `hid_replay_parse_header`, entered after the lines `pre` were
read without completing the set of tags: it stops at the first line that
completes it, or at the end of the source. -/
theorem header_loop_spec : ∀ (fp pre : List CStr) (st : HeaderState),
    st.mask = maskBits (pre.any (lineTag 78)) (pre.any (lineTag 82)) (pre.any (lineTag 73)) →
    headerComplete pre = false → (∀ l ∈ fp, l ≠ []) →
    ∃ k, k ≤ fp.length ∧ (header_loop fp st).1 = fp.drop k
      ∧ (∀ j, j < k → headerComplete (pre ++ fp.take j) = false)
      ∧ ((headerComplete (pre ++ fp.take k) = true
            ∧ (header_loop fp st).2 = headerFold (fp.take k) st)
          ∨ (k = fp.length ∧ headerComplete (pre ++ fp) = false
            ∧ (header_loop fp st).2 = header_switch (-1) (headerFold fp st)))
  | [], pre, st, _, hpre, _ => by
    refine ⟨0, Nat.le_refl _, rfl, ?_, Or.inr ⟨rfl, by simpa using hpre, rfl⟩⟩
    intro j hj
    omega
  | l :: fp, pre, st, hm, hpre, hne => by
    have hl : l ≠ [] := hne l (by simp)
    have hpos : 0 < (l.length : Int) := by
      have : 0 < l.length := List.length_pos.mpr hl
      omega
    have hm1 := header_switch_mask (l.length : Int) { st with buf := l } _ _ _ hm
    have hc1 := headerComplete_snoc pre l
    by_cases hdone : (header_switch (l.length : Int) { st with buf := l }).mask
        = HID_REPLAY_MASK_COMPLETE
    · refine ⟨1, by simp, ?_, ?_, Or.inl ⟨?_, ?_⟩⟩
      · simp [header_loop, hdone]
      · intro j hj
        have : j = 0 := by omega
        subst this
        simpa using hpre
      · rw [hm1, maskBits_complete] at hdone
        simpa [hc1] using hdone
      · simp [header_loop, hdone, headerFold]
    · have hinc : headerComplete (pre ++ [l]) = false := by
        rw [hm1, maskBits_complete] at hdone
        rw [hc1]
        simpa using hdone
      have hm2 : (header_switch (l.length : Int) { st with buf := l }).mask
          = maskBits ((pre ++ [l]).any (lineTag 78)) ((pre ++ [l]).any (lineTag 82))
              ((pre ++ [l]).any (lineTag 73)) := by
        rw [hm1]
        simp [List.any_append]
      obtain ⟨k, hk, hfp, hmin, hres⟩ := header_loop_spec fp (pre ++ [l])
        (header_switch (l.length : Int) { st with buf := l }) hm2 hinc
        (fun x hx => hne x (by simp [hx]))
      have hstep : header_loop (l :: fp) st
          = header_loop fp (header_switch (l.length : Int) { st with buf := l }) := by
        simp [header_loop, hdone, hpos]
      refine ⟨k + 1, by simpa using hk, ?_, ?_, ?_⟩
      · rw [hstep, hfp]
        rfl
      · intro j hj
        cases j with
        | zero => simpa using hpre
        | succ j =>
          have := hmin j (by omega)
          simpa using this
      · rcases hres with ⟨h1, h2⟩ | ⟨h1, h2, h3⟩
        · left
          refine ⟨by simpa using h1, ?_⟩
          rw [hstep, h2]
          rfl
        · right
          refine ⟨by simp [h1], by simpa using h2, ?_⟩
          rw [hstep, h3]
          rfl

theorem sleeps_pause (c : Prop) [Decidable c] (u : Nat) :
    sleeps (if c then [Effect.usleep u] else []) = if c then [u] else [] := by
  by_cases h : c <;> simp [h, sleeps]

theorem attempts_append (a b : List Effect) : attempts (a ++ b) = attempts a ++ attempts b := by
  induction a with
  | nil => rfl
  | cons x t ih => cases x <;> simp [attempts, ih]

theorem attempts_log (b : Bool) : attempts (if b then [Effect.fprintf_stderr] else []) = [] := by
  cases b <;> rfl

/-- A failing write changes nothing in what `hid_replay_event` does but the
message it prints. -/
theorem hid_replay_event_wfail (w w' : Bool) (l : CStr) (time : timeval) :
    (hid_replay_event w l time).time = (hid_replay_event w' l time).time
    ∧ attempts (hid_replay_event w l time).effects
        = attempts (hid_replay_event w' l time).effects := by
  simp only [hid_replay_event]
  by_cases hn : (sscanf_event l).n ≠ 4
  · rw [if_pos hn, if_pos hn]
    exact ⟨rfl, rfl⟩
  · rw [if_neg hn, if_neg hn]
    cases event_loop (sscanf_event l).event_len (sscanf_event l).event_len.toNat 0
      (sscanf_event l).buf [] with
    | none => exact ⟨rfl, rfl⟩
    | some data => exact ⟨rfl, by simp only [attempts_append, attempts_log]⟩

theorem read_one_wfail (w w' : Bool) : ∀ (fp : List CStr) (time : timeval),
    (hid_replay_read_one w fp time).error = (hid_replay_read_one w' fp time).error
    ∧ (hid_replay_read_one w fp time).fp = (hid_replay_read_one w' fp time).fp
    ∧ (hid_replay_read_one w fp time).time = (hid_replay_read_one w' fp time).time
    ∧ attempts (hid_replay_read_one w fp time).effects
        = attempts (hid_replay_read_one w' fp time).effects
  | [], _ => ⟨rfl, rfl, rfl, rfl⟩
  | l :: fp, time => by
    simp only [hid_replay_read_one]
    split
    · exact ⟨rfl, rfl, rfl, rfl⟩
    · split
      · exact ⟨rfl, rfl, (hid_replay_event_wfail w w' l time).1,
          (hid_replay_event_wfail w w' l time).2⟩
      · exact read_one_wfail w w' fp time

theorem read_loop_wfail (wfail wfail' : Nat → Bool) : ∀ (fuel j : Nat) (fp : List CStr)
    (time : timeval),
    (read_loop wfail fuel j fp time).map (fun x => (x.1, attempts x.2))
      = (read_loop wfail' fuel j fp time).map (fun x => (x.1, attempts x.2))
  | 0, _, _, _ => rfl
  | fuel + 1, j, fp, time => by
    obtain ⟨h1, h2, h3, h4⟩ := read_one_wfail (wfail j) (wfail' j) fp time
    simp only [read_loop, h1]
    split
    · rw [Option.map_map, Option.map_map]
      have ih := read_loop_wfail wfail wfail' fuel (j + 1) (hid_replay_read_one (wfail j) fp time).fp
        (hid_replay_read_one (wfail j) fp time).time
      rw [← h2, ← h3]
      have e : ∀ (es : List Effect) (o : Option (timeval × List Effect)),
          Option.map ((fun x => (x.1, attempts x.2)) ∘ fun x => (x.1, es ++ x.2)) o
            = Option.map (fun x => (x.1, attempts es ++ x.2))
                (Option.map (fun x => (x.1, attempts x.2)) o) := by
        intro es o
        cases o <;> simp [attempts_append]
      rw [e, e, ih, h4]
    · simp [h3, h4]

/-- The sleeps of `hid_replay_event`, for any line and any clock: none when the
`sscanf` does not assign four items, otherwise at most the one decided by the
32-bit difference. -/
theorem sleeps_event (w : Bool) (l : CStr) (time : timeval) :
    sleeps (hid_replay_event w l time).effects
      = if (sscanf_event l).n ≠ 4 then []
        else if 500 < pacingDelta (if time.tv_sec = 0 ∧ time.tv_usec = 0
            then ⟨toLong (sscanf_event l).sec, (sscanf_event l).usec⟩ else time)
            (toLong (sscanf_event l).sec) (sscanf_event l).usec
        then [if 3000000 < pacingDelta (if time.tv_sec = 0 ∧ time.tv_usec = 0
            then ⟨toLong (sscanf_event l).sec, (sscanf_event l).usec⟩ else time)
            (toLong (sscanf_event l).sec) (sscanf_event l).usec then 3000000
          else pacingDelta (if time.tv_sec = 0 ∧ time.tv_usec = 0
            then ⟨toLong (sscanf_event l).sec, (sscanf_event l).usec⟩ else time)
            (toLong (sscanf_event l).sec) (sscanf_event l).usec]
        else [] := by
  simp only [hid_replay_event, pacingDelta]
  by_cases hn : (sscanf_event l).n ≠ 4
  · rw [if_pos hn, if_pos hn]
    rfl
  · rw [if_neg hn, if_neg hn]
    cases event_loop (sscanf_event l).event_len (sscanf_event l).event_len.toNat 0
      (sscanf_event l).buf [] with
    | none => simp only [sleeps_pause]
    | some data =>
      simp only [sleeps_append, sleeps_pause, sleeps_log, sleeps, List.append_nil]

theorem sleeps_event_text (wfail : Bool) (time : timeval) {sec usec len : CStr}
    {bytes : List (Nat × Nat)} {eol : CStr} (h : EventText sec usec len bytes eol) :
    sleeps (hid_replay_event wfail (eventLine sec usec len bytes eol) time).effects
      = if 500 < pacingDelta (if time.tv_sec = 0 ∧ time.tv_usec = 0
              then ⟨numValue 10 sec, numValue 10 usec⟩ else time)
              (numValue 10 sec) (numValue 10 usec)
        then [if 3000000 < pacingDelta (if time.tv_sec = 0 ∧ time.tv_usec = 0
              then ⟨numValue 10 sec, numValue 10 usec⟩ else time)
              (numValue 10 sec) (numValue 10 usec) then 3000000
            else pacingDelta (if time.tv_sec = 0 ∧ time.tv_usec = 0
              then ⟨numValue 10 sec, numValue 10 usec⟩ else time)
              (numValue 10 sec) (numValue 10 usec)]
        else [] := by
  rw [hid_replay_event_text wfail time h]
  simp only [sleeps_append, sleeps_pause, sleeps_log, sleeps, List.append_nil]

/-- What `hid_replay_event` does with an event line that carries at least one
byte but fewer than declared: the pacing step, then the `return` inside the
payload loop. -/
theorem hid_replay_event_short (wfail : Bool) (time : timeval) (sec usec len : CStr)
    (p : Nat × Nat) (ps : List (Nat × Nat)) (eol : CStr) (hd : EventHead sec usec len)
    (hsec : numValue 10 sec < 2 ^ 63) (hlen : numValue 10 len < 2 ^ 31)
    (hfew : (p :: ps).length < numValue 10 len) (hb : ∀ q ∈ p :: ps, hexPair q = true)
    (he : isEol eol) :
    hid_replay_event wfail (eventLine sec usec len (p :: ps) eol) time
      = ⟨if 500 < pacingDelta (if time.tv_sec = 0 ∧ time.tv_usec = 0
              then ⟨numValue 10 sec, numValue 10 usec⟩ else time)
              (numValue 10 sec) (numValue 10 usec)
          then ⟨numValue 10 sec, numValue 10 usec⟩
          else (if time.tv_sec = 0 ∧ time.tv_usec = 0
              then ⟨numValue 10 sec, numValue 10 usec⟩ else time),
         if 500 < pacingDelta (if time.tv_sec = 0 ∧ time.tv_usec = 0
              then ⟨numValue 10 sec, numValue 10 usec⟩ else time)
              (numValue 10 sec) (numValue 10 usec)
          then [Effect.usleep (if 3000000 < pacingDelta (if time.tv_sec = 0 ∧ time.tv_usec = 0
              then ⟨numValue 10 sec, numValue 10 usec⟩ else time)
              (numValue 10 sec) (numValue 10 usec) then 3000000
            else pacingDelta (if time.tv_sec = 0 ∧ time.tv_usec = 0
              then ⟨numValue 10 sec, numValue 10 usec⟩ else time)
              (numValue 10 sec) (numValue 10 usec))]
          else []⟩ := by
  have hsc := sscanf_event_line sec usec len p ps eol hd (by omega) hlen hb he
  have hloop := event_loop_tokens ((numValue 10 len : Nat) : Int) (eolHead eol)
    (eolHead_space he) (eolHead_no_newline eol) ps p (numValue 10 len) 0 [] hb (by simp)
  have hk : ¬ (numValue 10 len ≤ ps.length + 1) := by
    simp only [List.length_cons] at hfew
    omega
  rw [if_neg hk] at hloop
  simp only [hid_replay_event, hsc, Int.toNat_ofNat, hloop, toLong_small hsec, pacingDelta]
  simp

/-- On a line `R: <len> ...` with fewer bytes than declared, `hid_replay_rdesc`
returns before it touches the descriptor. -/
theorem hid_replay_rdesc_short (len : CStr) (bytes : List (Nat × Nat)) (eol : CStr)
    (mem : RdescBuf) (dev : uhid_create_req) (hne : len ≠ [])
    (hd : ∀ c ∈ len, isdigit c = true) (hlen : numValue 10 len < 2 ^ 31)
    (hfew : bytes.length < numValue 10 len) (hb : ∀ q ∈ bytes, hexPair q = true)
    (he : isEol eol) :
    (hid_replay_rdesc (rdescLine len bytes eol) mem dev).dev = dev := by
  cases bytes with
  | nil =>
    have h := sscanf_rdesc_head len eol hne hd hlen (fun c hc => he c (List.mem_of_mem_head? hc))
    have e : rdescLine len [] eol = [82, 58, 32] ++ len ++ eol := by
      simp only [rdescLine, payloadText, List.append_nil]
    rw [skipSpace_all_space eol he] at h
    simp only [scanSet, scanRet] at h
    simp only [hid_replay_rdesc, e, h]
    rfl
  | cons p ps =>
    have hsc := sscanf_rdesc_line len p ps eol hne hd hlen hb he
    have hl := rdesc_loop_tokens ((numValue 10 len : Nat) : Int) (eolHead eol)
      (eolHead_space he) (eolHead_no_newline eol) ps p (numValue 10 len) 0 mem hb (by simp)
    have hk : ¬ (numValue 10 len ≤ ps.length + 1) := by
      simp only [List.length_cons] at hfew
      omega
    simp only [hid_replay_rdesc, hsc, Int.toNat_ofNat, hl.1, hk]
    simp

theorem mem_storeSeq : ∀ (vs : List Nat) (i t v : Nat) (mem : RdescBuf), vs[t]? = some v →
    (i + t, v) ∈ storeSeq i vs mem
  | [], _, _, _, _, h => by simp at h
  | x :: vs, i, 0, v, mem, h => by
    simp only [List.getElem?_cons_zero, Option.some.injEq] at h
    subst h
    have hsub : ∀ (ws : List Nat) (j : Nat) (m : RdescBuf) (e : Nat × Nat), e ∈ m →
        e ∈ storeSeq j ws m := by
      intro ws
      induction ws with
      | nil => intro j m e he; exact he
      | cons w ws ih => intro j m e he; exact ih (j + 1) _ e (by simp [he])
    exact hsub vs (i + 1) _ _ (by simp)
  | x :: vs, i, t + 1, v, mem, h => by
    simp only [List.getElem?_cons_succ] at h
    have := mem_storeSeq vs (i + 1) t v ((i, x) :: mem) h
    rw [show i + (t + 1) = i + 1 + t by omega]
    exact this

/-- On a line `R: <len> <b1> ... <blen>` with as many bytes as declared, up to
65535 of them, `hid_replay_rdesc` stores every byte from index 0 on and sets
`rd_data` and `rd_size`: nothing compares `len` with the size of `rdesc_buf`. -/
theorem hid_replay_rdesc_full (len : CStr) (bytes : List (Nat × Nat)) (eol : CStr)
    (mem : RdescBuf) (dev : uhid_create_req)
    (hne : len ≠ []) (hd : ∀ c ∈ len, isdigit c = true)
    (hlen : numValue 10 len = bytes.length) (h1 : 1 ≤ bytes.length)
    (hmax : bytes.length < 65536)
    (hb : ∀ q ∈ bytes, hexPair q = true) (he : isEol eol) :
    (hid_replay_rdesc (rdescLine len bytes eol) mem dev).dev
        = { dev with rd_data := Ptr.rdesc_buf, rd_size := bytes.length }
    ∧ (hid_replay_rdesc (rdescLine len bytes eol) mem dev).mem
        = storeSeq 0 (bytes.map byteValue) mem := by
  obtain ⟨p, ps, rfl⟩ := List.exists_cons_of_ne_nil (l := bytes) (by
    intro h
    rw [h] at h1
    simp at h1)
  have hsc := sscanf_rdesc_line len p ps eol hne hd (by omega) hb he
  rw [hlen] at hsc
  have hl := rdesc_loop_tokens (((p :: ps).length : Nat) : Int) (eolHead eol) (eolHead_space he)
    (eolHead_no_newline eol) ps p (p :: ps).length 0 mem hb (by simp)
  have hlen16 : toU16 (((p :: ps).length : Nat) : Int) = (p :: ps).length :=
    toU16_small (by omega)
  simp only [hid_replay_rdesc, hsc, Int.toNat_ofNat, hl.1, hl.2, hlen16]
  simp

theorem hid_replay_name_rd (buf : CStr) (len : Int) (dev : uhid_create_req) :
    (hid_replay_name buf len dev).rd_data = dev.rd_data
    ∧ (hid_replay_name buf len dev).rd_size = dev.rd_size := by
  simp only [hid_replay_name]
  split
  · exact ⟨rfl, rfl⟩
  · split <;> split <;> exact ⟨rfl, rfl⟩

theorem hid_replay_phys_rd (buf : CStr) (len : Int) (dev : uhid_create_req) :
    (hid_replay_phys buf len dev).rd_data = dev.rd_data
    ∧ (hid_replay_phys buf len dev).rd_size = dev.rd_size := by
  simp only [hid_replay_phys]
  split
  · exact ⟨rfl, rfl⟩
  · split <;> exact ⟨rfl, rfl⟩

theorem hid_replay_info_rd (buf : CStr) (len : Int) (dev : uhid_create_req) :
    (hid_replay_info buf len dev).rd_data = dev.rd_data
    ∧ (hid_replay_info buf len dev).rd_size = dev.rd_size := by
  simp only [hid_replay_info]
  split
  · exact ⟨rfl, rfl⟩
  · split <;> exact ⟨rfl, rfl⟩

/-- The `switch` of the header parser leaves `rd_data` and `rd_size` alone on
every line but an `R:` line that parses; an `R:` line with fewer bytes than
declared is none. -/
theorem header_switch_rd (size : Int) (st : HeaderState)
    (hR : lineTag 82 st.buf = true → rdescRejected st.buf) :
    (header_switch size st).dev.rd_data = st.dev.rd_data
    ∧ (header_switch size st).dev.rd_size = st.dev.rd_size := by
  unfold header_switch
  split
  · exact ⟨rfl, rfl⟩
  · rename_i h
    rcases hR (by simp [lineTag, h]) with ⟨len, bytes, eol, hl, hne, hd, hlen, hfew, _, hb, he⟩ | hn
    · have := hid_replay_rdesc_short len bytes eol st.mem st.dev hne hd hlen hfew hb he
      simp only [hl, this, and_self]
    · simp only [hid_replay_rdesc, if_pos hn, and_self]
  · exact hid_replay_name_rd st.buf size st.dev
  · exact hid_replay_phys_rd st.buf size st.dev
  · exact hid_replay_info_rd st.buf size st.dev
  · exact ⟨rfl, rfl⟩

theorem headerFold_rd : ∀ (ls : List CStr) (st : HeaderState),
    (∀ l ∈ ls, lineTag 82 l = true → rdescRejected l) →
    (headerFold ls st).dev.rd_data = st.dev.rd_data
    ∧ (headerFold ls st).dev.rd_size = st.dev.rd_size
  | [], _, _ => ⟨rfl, rfl⟩
  | l :: ls, st, h => by
    have h1 := header_switch_rd (l.length : Int) { st with buf := l } (h l (by simp))
    have h2 := headerFold_rd ls (header_switch (l.length : Int) { st with buf := l })
      (fun x hx => h x (by simp [hx]))
    simp only [headerFold, List.foldl_cons] at h2 ⊢
    exact ⟨h2.1.trans h1.1, h2.2.trans h1.2⟩

theorem headerComplete_append_left (pre rest : List CStr) (h : headerComplete pre = true) :
    headerComplete (pre ++ rest) = true := by
  simp only [headerComplete, List.any_append, Bool.and_eq_true, Bool.or_eq_true] at h ⊢
  exact ⟨⟨Or.inl h.1.1, Or.inl h.1.2⟩, Or.inl h.2⟩

/-- The header parser on a source that begins with the shortest run of lines
holding the three tags: it reads that run and nothing more. -/
theorem header_loop_run (pre rest : List CStr) (st : HeaderState) (hm : st.mask = 0)
    (hne : ∀ l ∈ pre ++ rest, l ≠ []) (hc : headerComplete pre = true)
    (hmin : ∀ j, j < pre.length → headerComplete (pre.take j) = false) :
    (header_loop (pre ++ rest) st).1 = rest
    ∧ (header_loop (pre ++ rest) st).2 = headerFold pre st := by
  obtain ⟨k, hk, hfp, hmink, hres⟩ := header_loop_spec (pre ++ rest) [] st (by rw [hm]; rfl) rfl
    hne
  simp only [List.nil_append] at hmink hres
  have hk2 : k = pre.length := by
    rcases hres with ⟨h1, _⟩ | ⟨_, h2, _⟩
    · rcases Nat.lt_trichotomy k pre.length with hlt | heq | hgt
      · have := hmin k hlt
        rw [List.take_append_of_le_length (Nat.le_of_lt hlt)] at h1
        rw [this] at h1
        exact absurd h1 (by simp)
      · exact heq
      · have := hmink pre.length hgt
        rw [List.take_left'] at this
        · rw [hc] at this
          exact absurd this (by simp)
        · rfl
    · rw [headerComplete_append_left pre rest hc] at h2
      exact absurd h2 (by simp)
  subst hk2
  rcases hres with ⟨_, h2⟩ | ⟨_, h2, _⟩
  · refine ⟨by rw [hfp]; simp, ?_⟩
    rw [h2, List.take_left']
    rfl
  · rw [headerComplete_append_left pre rest hc] at h2
    exact absurd h2 (by simp)

/-- The `sscanf` of `hid_replay_phys` on a line `P: <phys><eol>`. -/
theorem sscanf_text_phys (phys eol : CStr) (hn : NameText phys) :
    sscanf_text 80 (physLine phys eol) = some (phys ++ eolHead eol) := by
  obtain ⟨c, t, rfl⟩ := List.exists_cons_of_ne_nil hn.ne
  have hc : isspace c = false := hn.head c (by simp)
  have hc10 : c ≠ 10 := hn.no_newline c (by simp)
  have e1 : physLine (c :: t) eol = 80 :: 58 :: 32 :: c :: (t ++ eol) := by
    simp only [physLine, List.append_assoc, List.cons_append, List.nil_append]
  have ht := takeWhile_append_eol (c :: t) eol hn.no_newline
  simp only [List.cons_append] at ht
  rw [e1]
  simp only [sscanf_text, scanLit, if_true, skipSpace_blank,
    skipSpace_cons_of_not_space _ hc, scanSet, if_neg hc10, ht]
  rfl

/-- On a line `P: <phys>` that fits the field, `hid_replay_phys` stores the
text up to the newline. -/
theorem hid_replay_phys_line (phys eol : CStr) (dev : uhid_create_req) (hn : NameText phys)
    (hcap : phys.length + eol.length < PHYS_SIZE) :
    hid_replay_phys (physLine phys eol) ((physLine phys eol).length : Int) dev
      = { dev with phys := phys ++ eolHead eol } := by
  have hlen : ((physLine phys eol).length : Int) - 3 = ((phys.length + eol.length : Nat) : Int) := by
    simp only [physLine, List.length_append, List.length_cons, List.length_nil]
    push_cast
    omega
  have hsz : ¬ (PHYS_SIZE ≤ toSizeT (((physLine phys eol).length : Int) - 3)) := by
    rw [hlen, toSizeT_small (by simp only [PHYS_SIZE] at hcap; omega)]
    omega
  simp only [hid_replay_phys, if_neg hsz, sscanf_text_phys phys eol hn]

theorem header_switch_phys (size : Int) (st : HeaderState) (h : st.buf.head? = some 80) :
    header_switch size st = { st with dev := hid_replay_phys st.buf size st.dev } := by
  simp only [header_switch, h]

theorem parse_header_eq (fp : List CStr) (buf0 : CStr) (mem : RdescBuf) (dev : uhid_create_req) :
    hid_replay_parse_header fp buf0 mem dev
      = ⟨0, (header_loop fp ⟨buf0, maskBits false false false, mem, dev⟩).1,
          (header_loop fp ⟨buf0, maskBits false false false, mem, dev⟩).2.mem,
          (header_loop fp ⟨buf0, maskBits false false false, mem, dev⟩).2.dev⟩ := rfl

theorem header_loop_cons (l : CStr) (fp : List CStr) (b : CStr) (m : Nat) (mem : RdescBuf)
    (dev : uhid_create_req) :
    header_loop (l :: fp) ⟨b, m, mem, dev⟩
      = if 0 < (l.length : Int)
            ∧ (header_switch (l.length : Int) ⟨l, m, mem, dev⟩).mask ≠ HID_REPLAY_MASK_COMPLETE
        then header_loop fp (header_switch (l.length : Int) ⟨l, m, mem, dev⟩)
        else (fp, header_switch (l.length : Int) ⟨l, m, mem, dev⟩) := rfl

/-- The `switch` on a well-formed `N:` line. -/
theorem header_step_name (name eol : CStr) (a b c : Bool) (mem : RdescBuf)
    (dev : uhid_create_req) (hn : NameText name) (he : isLineEnd eol)
    (hcap : name.length + eol.length < NAME_SIZE) :
    header_switch ((nameLine name eol).length : Int) ⟨nameLine name eol, maskBits a b c, mem, dev⟩
      = ⟨nameLine name eol, maskBits true b c, mem, { dev with name := name }⟩ := by
  rw [header_switch_name _ _ (show (nameLine name eol).head? = some 78 from rfl)]
  simp only [hid_replay_name_line name eol dev hn he hcap, maskBits_name]

/-- The `switch` on a well-formed `P:` line. -/
theorem header_step_phys (phys eol : CStr) (a b c : Bool) (mem : RdescBuf)
    (dev : uhid_create_req) (hn : NameText phys)
    (hcap : phys.length + eol.length < PHYS_SIZE) :
    header_switch ((physLine phys eol).length : Int) ⟨physLine phys eol, maskBits a b c, mem, dev⟩
      = ⟨physLine phys eol, maskBits a b c, mem, { dev with phys := phys ++ eolHead eol }⟩ := by
  rw [header_switch_phys _ _ (show (physLine phys eol).head? = some 80 from rfl)]
  simp only [hid_replay_phys_line phys eol dev hn hcap]

/-- The `switch` on a well-formed `I:` line. -/
theorem header_step_info (bus vendor product eol : CStr) (a b c : Bool) (mem : RdescBuf)
    (dev : uhid_create_req) (hb : HexField bus) (hv : HexField vendor) (hp : HexField product)
    (he : isLineEnd eol) :
    header_switch ((infoLine bus vendor product eol).length : Int)
        ⟨infoLine bus vendor product eol, maskBits a b c, mem, dev⟩
      = ⟨infoLine bus vendor product eol, maskBits a b true, mem,
          { dev with bus := numValue 16 bus, vendor := numValue 16 vendor,
                     product := numValue 16 product }⟩ := by
  rw [header_switch_info _ _ (show (infoLine bus vendor product eol).head? = some 73 from rfl)]
  simp only [hid_replay_info_line bus vendor product eol dev hb hv hp he, maskBits_info]

/-- The `switch` on a well-formed `R:` line. -/
theorem header_step_rdesc (len : CStr) (bytes : List (Nat × Nat)) (eol : CStr) (size : Int)
    (a b c : Bool) (mem : RdescBuf) (dev : uhid_create_req)
    (hne : len ≠ []) (hd : ∀ c ∈ len, isdigit c = true)
    (hlen : numValue 10 len = bytes.length) (h1 : 1 ≤ bytes.length)
    (h4096 : bytes.length ≤ 4096) (hb : ∀ q ∈ bytes, hexPair q = true) (he : isEol eol) :
    header_switch size ⟨rdescLine len bytes eol, maskBits a b c, mem, dev⟩
      = ⟨(hid_replay_rdesc (rdescLine len bytes eol) mem dev).buf, maskBits a true c,
          storeSeq 0 (bytes.map byteValue) mem,
          { dev with rd_data := Ptr.rdesc_buf, rd_size := bytes.length }⟩ := by
  have h := hid_replay_rdesc_line len bytes eol mem dev hne hd hlen h1 h4096 hb he
  rw [header_switch_rdesc _ _ (show (rdescLine len bytes eol).head? = some 82 from rfl)]
  simp only [h.1, h.2, maskBits_rdesc]

/-- The header parser on the four well-formed lines `N`, `P`, `I`, `R` in any
order that does not end with the `P` line: it reads all four and leaves the
same state. -/
theorem header_any_order (name phys bus vendor product len e1 e2 e3 e4 : CStr)
    (bytes : List (Nat × Nat)) (rest : List CStr) (buf0 : CStr) (mem : RdescBuf)
    (dev : uhid_create_req) (ts : List HeaderTag)
    (hn : NameText name) (he1 : isLineEnd e1) (hcap : name.length + e1.length < NAME_SIZE)
    (hp : NameText phys) (hpcap : phys.length + e2.length < PHYS_SIZE)
    (hbus : HexField bus) (hven : HexField vendor) (hpro : HexField product)
    (he3 : isLineEnd e3)
    (hne : len ≠ []) (hd : ∀ c ∈ len, isdigit c = true)
    (hlen : numValue 10 len = bytes.length) (h1 : 1 ≤ bytes.length)
    (h4096 : bytes.length ≤ 4096) (hb : ∀ q ∈ bytes, hexPair q = true) (he4 : isLineEnd e4)
    (hperm : ts.Perm [HeaderTag.N, HeaderTag.P, HeaderTag.I, HeaderTag.R])
    (hlast : ts.getLast? ≠ some HeaderTag.P) :
    hid_replay_parse_header
        (ts.map (headerLine (nameLine name e1) (physLine phys e2)
          (infoLine bus vendor product e3) (rdescLine len bytes e4)) ++ rest) buf0 mem dev
      = ⟨0, rest, storeSeq 0 (bytes.map byteValue) mem,
          { dev with name := name, phys := phys ++ eolHead e2, bus := numValue 16 bus,
                     vendor := numValue 16 vendor, product := numValue 16 product,
                     rd_data := Ptr.rdesc_buf, rd_size := bytes.length }⟩ := by
  have sN := fun a b c mem dev => header_step_name name e1 a b c mem dev hn he1 hcap
  have sP := fun a b c mem dev => header_step_phys phys e2 a b c mem dev hp hpcap
  have sI := fun a b c mem dev => header_step_info bus vendor product e3 a b c mem dev
    hbus hven hpro he3
  have sR := fun size a b c mem dev => header_step_rdesc len bytes e4 size a b c mem dev
    hne hd hlen h1 h4096 hb (isEol_of_isLineEnd he4)
  have lN : 0 < ((nameLine name e1).length : Int) := by simp [nameLine]; omega
  have lP : 0 < ((physLine phys e2).length : Int) := by simp [physLine]; omega
  have lI : 0 < ((infoLine bus vendor product e3).length : Int) := by simp [infoLine]; omega
  have lR : 0 < ((rdescLine len bytes e4).length : Int) := by simp [rdescLine]; omega
  obtain ⟨a, b, c, d, rfl⟩ : ∃ a b c d, ts = [a, b, c, d] := by
    have hl := hperm.length_eq
    match ts, hl with
    | [], h => simp at h
    | [_], h => simp at h
    | [_, _], h => simp at h
    | [_, _, _], h => simp at h
    | [a, b, c, d], _ => exact ⟨a, b, c, d, rfl⟩
    | _ :: _ :: _ :: _ :: _ :: _, h => simp at h
  cases a <;> cases b <;> cases c <;> cases d <;>
    first
    | exact absurd hperm (by decide)
    | exact absurd rfl hlast
    | simp [parse_header_eq, headerLine, header_loop_cons, sN, sP, sI, sR, lN, lP, lI, lR,
        maskBits_complete]

/-- The `sscanf` of `hid_replay_info` on a line `I: <bus> <vendor> <product>`
whose fields denote values of at most `0xffff`. -/
theorem sscanf_info_values (bus vendor product eol : CStr) (hb : HexValue bus)
    (hv : HexValue vendor) (hp : HexValue product) (he : isEol eol) :
    sscanf_info (infoLine bus vendor product eol)
      = ⟨3, (numValue 16 bus : Int), (numValue 16 vendor : Int), (numValue 16 product : Int)⟩ := by
  have e1 : infoLine bus vendor product eol
      = 73 :: 58 :: 32 :: (bus ++ 32 :: (vendor ++ 32 :: (product ++ eol))) := by
    simp only [infoLine, List.append_assoc, List.cons_append, List.nil_append]
  have h1 : scanInteger 16 none (skipSpace (32 :: (bus ++ 32 :: (vendor ++ 32 :: (product ++ eol)))))
      = .ok (false, numValue 16 bus, 32 :: (vendor ++ 32 :: (product ++ eol))) := by
    rw [skipSpace_blank, skipSpace_digits _ _ hb.ne hb.digits]
    exact scanInteger_hex _ _ hb.ne hb.digits (endsToken_blank _)
  have h2 : scanInteger 16 none (skipSpace (32 :: (vendor ++ 32 :: (product ++ eol))))
      = .ok (false, numValue 16 vendor, 32 :: (product ++ eol)) := by
    rw [skipSpace_blank, skipSpace_digits _ _ hv.ne hv.digits]
    exact scanInteger_hex _ _ hv.ne hv.digits (endsToken_blank _)
  have h3 : scanInteger 16 none (skipSpace (32 :: (product ++ eol)))
      = .ok (false, numValue 16 product, eol) := by
    rw [skipSpace_blank, skipSpace_digits _ _ hp.ne hp.digits]
    exact scanInteger_hex _ _ hp.ne hp.digits (fun c hc => he c (List.mem_of_mem_head? hc))
  have b1 := hb.value
  have b2 := hv.value
  have b3 := hp.value
  rw [e1]
  simp only [sscanf_info, scanLit, if_true, h1, h2, h3, strtoul_pos (show numValue 16 bus < 2 ^ 64 by omega),
    strtoul_pos (show numValue 16 vendor < 2 ^ 64 by omega),
    strtoul_pos (show numValue 16 product < 2 ^ 64 by omega),
    toInt_small (show numValue 16 bus < 2 ^ 31 by omega),
    toInt_small (show numValue 16 vendor < 2 ^ 31 by omega),
    toInt_small (show numValue 16 product < 2 ^ 31 by omega)]

/-- On a line `I: <bus> <vendor> <product>` that passes the length test,
`hid_replay_info` stores the three identifiers. -/
theorem hid_replay_info_values (bus vendor product eol : CStr) (dev : uhid_create_req)
    (hb : HexValue bus) (hv : HexValue vendor) (hp : HexValue product) (he : isEol eol)
    (hfit : bus.length + 1 + vendor.length + 1 + product.length + eol.length < PHYS_SIZE) :
    hid_replay_info (infoLine bus vendor product eol)
        ((infoLine bus vendor product eol).length : Int) dev
      = { dev with bus := numValue 16 bus, vendor := numValue 16 vendor,
                   product := numValue 16 product } := by
  have hlen : ((infoLine bus vendor product eol).length : Int) - 3
      = ((bus.length + 1 + vendor.length + 1 + product.length + eol.length : Nat) : Int) := by
    simp only [infoLine, List.length_append, List.length_cons, List.length_nil]
    push_cast
    omega
  have hsz : ¬ (PHYS_SIZE ≤ toSizeT (((infoLine bus vendor product eol).length : Int) - 3)) := by
    rw [hlen, toSizeT_small (by simp only [PHYS_SIZE] at hfit; omega)]
    omega
  have b1 := hb.value
  have b2 := hv.value
  have b3 := hp.value
  simp only [hid_replay_info, if_neg hsz, sscanf_info_values bus vendor product eol hb hv hp he,
    ne_eq, not_true_eq_false, if_false,
    toU16_small (show numValue 16 bus < 2 ^ 16 by omega),
    toUnsigned_small (show numValue 16 vendor < 2 ^ 32 by omega),
    toUnsigned_small (show numValue 16 product < 2 ^ 32 by omega)]

/-- The clock that `hid_replay_event` leaves, for any line and any clock. -/
theorem time_event (w : Bool) (l : CStr) (time : timeval) :
    (hid_replay_event w l time).time
      = if (sscanf_event l).n ≠ 4 then time
        else if 500 < pacingDelta (if time.tv_sec = 0 ∧ time.tv_usec = 0
            then ⟨toLong (sscanf_event l).sec, (sscanf_event l).usec⟩ else time)
            (toLong (sscanf_event l).sec) (sscanf_event l).usec
        then ⟨toLong (sscanf_event l).sec, (sscanf_event l).usec⟩
        else (if time.tv_sec = 0 ∧ time.tv_usec = 0
            then ⟨toLong (sscanf_event l).sec, (sscanf_event l).usec⟩ else time) := by
  simp only [hid_replay_event, pacingDelta]
  by_cases hn : (sscanf_event l).n ≠ 4
  · rw [if_pos hn, if_pos hn]
  · rw [if_neg hn, if_neg hn]
    cases event_loop (sscanf_event l).event_len (sscanf_event l).event_len.toNat 0
      (sscanf_event l).buf [] with
    | none => rfl
    | some data => rfl

theorem eventTags_append : ∀ (a b : List CStr), eventTags (a ++ b) = eventTags a + eventTags b
  | [], b => by simp [eventTags]
  | l :: a, b => by
    have ih := eventTags_append a b
    have e1 : eventTags (l :: a ++ b)
        = if l.head? = some 69 then eventTags (a ++ b) + 1 else eventTags (a ++ b) := rfl
    have e2 : eventTags (l :: a)
        = if l.head? = some 69 then eventTags a + 1 else eventTags a := rfl
    rw [e1, e2, ih]
    by_cases ht : l.head? = some 69
    · rw [if_pos ht, if_pos ht]
      omega
    · rw [if_neg ht, if_neg ht]

/-- A pass told line by line up to its first line beginning with `E` on which
the `sscanf` assigns four items: the lines before it leave no trace. -/
theorem passTrace_first_event (wfail : Nat → Bool) (l : CStr) (post : List CStr)
    (hl : l.head? = some 69) :
    ∀ (pre : List CStr) (j : Nat) (time : timeval), noEventYet pre →
      passTrace wfail j (pre ++ l :: post) time
        = ((passTrace wfail (j + eventTags pre + 1) post
              (hid_replay_event (wfail (j + eventTags pre)) l time).time).1,
            (hid_replay_event (wfail (j + eventTags pre)) l time).effects
              ++ (passTrace wfail (j + eventTags pre + 1) post
                (hid_replay_event (wfail (j + eventTags pre)) l time).time).2) := by
  intro pre
  induction pre with
  | nil =>
    intro j time _
    simp only [List.nil_append, passTrace, if_pos hl, eventTags, Nat.add_zero]
  | cons x pre ih =>
    intro j time hpre
    have hx := hpre x (by simp)
    have hrest : noEventYet pre := fun y hy => hpre y (by simp [hy])
    have e0 : passTrace wfail j (x :: pre ++ l :: post) time
        = if x.head? = some 69 then
            ((passTrace wfail (j + 1) (pre ++ l :: post)
                (hid_replay_event (wfail j) x time).time).1,
              (hid_replay_event (wfail j) x time).effects
                ++ (passTrace wfail (j + 1) (pre ++ l :: post)
                  (hid_replay_event (wfail j) x time).time).2)
          else passTrace wfail j (pre ++ l :: post) time := rfl
    rw [e0]
    by_cases ht : x.head? = some 69
    · have e : j + eventTags (x :: pre) = j + 1 + eventTags pre := by
        simp only [eventTags, if_pos ht]
        omega
      rw [if_pos ht, hid_replay_event_unparsed (wfail j) x time (hx.2 ht), e,
        ih (j + 1) time hrest]
      rfl
    · have e : eventTags (x :: pre) = eventTags pre := by
        simp only [eventTags, if_neg ht]
      rw [if_neg ht, e, ih j time hrest]

theorem noEventYet_ne_nil {pre : List CStr} (h : noEventYet pre) : ∀ l ∈ pre, l ≠ [] :=
  fun l hl => (h l hl).1

theorem ne_nil_of_head {l : CStr} {c : Nat} (h : l.head? = some c) : l ≠ [] := by
  intro h0
  rw [h0] at h
  simp at h

theorem logs_append (a b : List Effect) : logs (a ++ b) = logs a + logs b := by
  induction a with
  | nil => simp [logs]
  | cons x t ih =>
    have e : (x :: t) ++ b = x :: (t ++ b) := rfl
    rw [e]
    cases x <;> simp only [logs, ih]
    omega

theorem logs_event_text (w : Bool) (time : timeval) {sec usec len : CStr}
    {bytes : List (Nat × Nat)} {eol : CStr} (h : EventText sec usec len bytes eol) :
    logs (hid_replay_event w (eventLine sec usec len bytes eol) time).effects
      = if w then 1 else 0 := by
  rw [hid_replay_event_text w time h]
  have hp : ∀ (c : Prop) [Decidable c] (u : Nat),
      logs (if c then [Effect.usleep u] else []) = 0 := by
    intro c _ u
    by_cases hc : c <;> simp [hc, logs]
  cases w <;> simp [logs_append, hp, logs]

theorem filter_range_shift (f : Nat → Bool) (n : Nat) :
    ((List.range (n + 1)).filter f).length
      = (if f 0 then 1 else 0) + ((List.range n).filter (fun i => f (i + 1))).length := by
  rw [List.range_succ_eq_map, List.filter_cons, List.filter_map]
  have e : (f ∘ Nat.succ) = fun i => f (i + 1) := rfl
  rw [e]
  by_cases h0 : f 0 = true
  · simp only [h0, if_true, List.length_cons, List.length_map]
    omega
  · simp only [h0, if_false, List.length_map]
    simp

/-- In a pass over a source whose `E` lines are well-formed event lines, one
message is printed for each failing write. -/
theorem logs_passTrace (wfail : Nat → Bool) : ∀ (src : List RecLine) (j : Nat) (time : timeval),
    (∀ x ∈ src, x.wellFormed) →
    logs (passTrace wfail j (src.map RecLine.text) time).2
      = ((List.range (src.filterMap RecLine.message).length).filter
          (fun i => wfail (j + i))).length
  | [], _, _, _ => rfl
  | .other l :: src, j, time, h => by
    have h1 : RecLine.wellFormed (.other l) := h _ (by simp)
    have ih := logs_passTrace wfail src j time (fun x hx => h x (by simp [hx]))
    simp [passTrace, RecLine.text, RecLine.message, h1.2, ih]
  | .event sec usec len bytes eol :: src, j, time, h => by
    have h1 : EventText sec usec len bytes eol := h (.event sec usec len bytes eol) (by simp)
    have ih := logs_passTrace wfail src (j + 1)
      (hid_replay_event (wfail j) (eventLine sec usec len bytes eol) time).time
      (fun x hx => h x (by simp [hx]))
    have e : (List.filterMap RecLine.message (.event sec usec len bytes eol :: src)).length
        = (List.filterMap RecLine.message src).length + 1 := by
      simp [RecLine.message]
    rw [e, filter_range_shift]
    simp only [List.map_cons, RecLine.text, passTrace, eventLine_head, if_true, logs_append,
      logs_event_text (wfail j) time h1, ih, Nat.add_zero]
    have e2 : (fun i => wfail (j + 1 + i)) = fun i => wfail (j + (i + 1)) := by
      funext i
      rw [show j + 1 + i = j + (i + 1) by omega]
    rw [e2]

/-! ## The properties of the specification -/

/-- C1: for every well-formed event line `E: <sec>.<usec> <len> <b1> ... <blen>`
(`sec` a run of decimal digits denoting a `long`, `usec` six decimal digits,
`len` a decimal number between 1 and 4096 that is the number of the two-digit
hexadecimal bytes that follow, white space only at the end of the line), the
`sscanf` of `hid_replay_event` assigns its four items with the seconds and
microseconds of the line, a clock that was unset holds that timestamp
afterwards, and `hid_replay_event` writes exactly one input message, whose
size is `len` and whose data bytes are `b1 ... blen` in order. -/
theorem C1_event_line_written (wfail : Bool) (time : timeval) (sec usec len : CStr)
    (bytes : List (Nat × Nat)) (eol : CStr) (h : EventText sec usec len bytes eol) :
    (sscanf_event (eventLine sec usec len bytes eol)).n = 4
    ∧ (sscanf_event (eventLine sec usec len bytes eol)).sec = numValue 10 sec
    ∧ (sscanf_event (eventLine sec usec len bytes eol)).usec = numValue 10 usec
    ∧ (hid_replay_event wfail (eventLine sec usec len bytes eol) ⟨0, 0⟩).time
        = ⟨(numValue 10 sec : Int), (numValue 10 usec : Int)⟩
    ∧ writes (hid_replay_event wfail (eventLine sec usec len bytes eol) time).effects
        = [⟨bytes.map byteValue, bytes.length⟩] := by
  obtain ⟨buf, hsc, _⟩ := event_text_scan h
  refine ⟨by rw [hsc], by rw [hsc], by rw [hsc], ?_, writes_event_text wfail time h⟩
  rw [hid_replay_event_text wfail ⟨0, 0⟩ h]
  simp [pacingDelta_self]

/-- The spec's example for C1: `E: 0.000000 3 01 02 03` gives the timestamp
`(0, 0)` and the payload `01 02 03`. -/
theorem C1_event_line_written_witness :
    (sscanf_event (str "E: 0.000000 3 01 02 03\n")).n = 4
    ∧ (sscanf_event (str "E: 0.000000 3 01 02 03\n")).sec = 0
    ∧ (sscanf_event (str "E: 0.000000 3 01 02 03\n")).usec = 0
    ∧ (hid_replay_event false (str "E: 0.000000 3 01 02 03\n") ⟨0, 0⟩).time = ⟨0, 0⟩
    ∧ writes (hid_replay_event false (str "E: 0.000000 3 01 02 03\n") ⟨5, 0⟩).effects
        = [⟨[1, 2, 3], 3⟩] :=
  C1_event_line_written false ⟨5, 0⟩ [48] [48, 48, 48, 48, 48, 48] [51]
    [(48, 49), (48, 50), (48, 51)] [10]
    ⟨⟨by decide, by decide, rfl, by decide, by decide, by decide⟩, by decide, rfl, by decide,
      by decide, by decide, by decide⟩

/-- C2, as amended: for every header made of a line `N: <name>`, a line
`I: <bus> <vendor> <product>` (hexadecimal fields, each at most `0xffff`) and
a line `R: <len> <b1> ... <blen>` (`len` between 1 and 4096, followed by
exactly `len` two-digit hexadecimal bytes), the name not empty, not beginning
with white space and, together with its line end, shorter than the 128 bytes
of the name field (at most 126 characters before a newline), the text of the
`I:` line behind `I: ` shorter than 64 bytes, `hid_replay_parse_header` stops
after the third line and leaves a descriptor with that name, those three
identifiers, `rd_size = len` and `rd_data` pointing at `rdesc_buf`, whose
first `len` bytes are the listed bytes in order. -/
theorem C2_header_parsed (name bus vendor product len e1 e2 e3 : CStr)
    (bytes : List (Nat × Nat)) (rest : List CStr) (buf0 : CStr) (mem : RdescBuf)
    (dev : uhid_create_req) (r : HeaderResult)
    (hn : NameText name) (he1 : isLineEnd e1) (hcap : name.length + e1.length < NAME_SIZE)
    (hbus : HexValue bus) (hven : HexValue vendor) (hpro : HexValue product)
    (he2 : isLineEnd e2)
    (hfit : bus.length + 1 + vendor.length + 1 + product.length + e2.length < PHYS_SIZE)
    (hne : len ≠ []) (hd : ∀ c ∈ len, isdigit c = true)
    (hlen : numValue 10 len = bytes.length) (h1 : 1 ≤ bytes.length)
    (h4096 : bytes.length ≤ 4096) (hb : ∀ q ∈ bytes, hexPair q = true) (he3 : isLineEnd e3)
    (hr : r = hid_replay_parse_header
      (nameLine name e1 :: infoLine bus vendor product e2 :: rdescLine len bytes e3 :: rest)
      buf0 mem dev) :
    r.dev.name = name ∧ r.dev.bus = numValue 16 bus ∧ r.dev.vendor = numValue 16 vendor
    ∧ r.dev.product = numValue 16 product ∧ r.dev.rd_data = Ptr.rdesc_buf
    ∧ r.dev.rd_size = bytes.length ∧ rdesc_bytes r.mem r.dev.rd_size = bytes.map byteValue
    ∧ r.fp = rest ∧ r.ret = 0 := by
  have hN : (nameLine name e1).head? = some 78 := rfl
  have hI : (infoLine bus vendor product e2).head? = some 73 := rfl
  have hR : (rdescLine len bytes e3).head? = some 82 := rfl
  have lN : 0 < ((nameLine name e1).length : Int) := by simp [nameLine]; omega
  have lI : 0 < ((infoLine bus vendor product e2).length : Int) := by simp [infoLine]; omega
  have m1 : (0 ||| HID_REPLAY_MASK_NAME) ≠ HID_REPLAY_MASK_COMPLETE := by decide
  have m2 : (0 ||| HID_REPLAY_MASK_NAME ||| HID_REPLAY_MASK_INFO) ≠ HID_REPLAY_MASK_COMPLETE := by
    decide
  have m3 : (0 ||| HID_REPLAY_MASK_NAME ||| HID_REPLAY_MASK_INFO ||| HID_REPLAY_MASK_RDESC)
      = HID_REPLAY_MASK_COMPLETE := by decide
  have hrd := hid_replay_rdesc_line len bytes e3 mem
    { dev with name := name, bus := numValue 16 bus, vendor := numValue 16 vendor,
               product := numValue 16 product }
    hne hd hlen h1 h4096 hb (isEol_of_isLineEnd he3)
  have hst : hid_replay_parse_header
      (nameLine name e1 :: infoLine bus vendor product e2 :: rdescLine len bytes e3 :: rest)
      buf0 mem dev
      = ⟨0, rest, storeSeq 0 (bytes.map byteValue) mem,
          { dev with name := name, bus := numValue 16 bus, vendor := numValue 16 vendor,
                     product := numValue 16 product, rd_data := Ptr.rdesc_buf,
                     rd_size := bytes.length }⟩ := by
    simp only [hid_replay_parse_header, header_loop]
    rw [header_switch_name _ _ hN]
    simp only [hid_replay_name_line name e1 dev hn he1 hcap, lN, m1, ne_eq, not_false_eq_true,
      and_self, if_true]
    rw [header_switch_info _ _ hI]
    simp only [hid_replay_info_values bus vendor product e2 _ hbus hven hpro (isEol_of_isLineEnd he2) hfit, lI, m2, ne_eq,
      not_false_eq_true, and_self, if_true]
    rw [header_switch_rdesc _ _ hR]
    simp only [hrd.1, hrd.2, m3, ne_eq, not_true_eq_false, and_false, if_false]
  rw [hr, hst]
  refine ⟨rfl, rfl, rfl, rfl, rfl, rfl, ?_, rfl, rfl⟩
  have := rdesc_bytes_storeSeq (bytes.map byteValue) mem
  simpa using this

/-- The spec's example for C2: `N: Test`, `I: 3 046d c52b`, `R: 2 05 01`. -/
theorem C2_header_parsed_witness :
    (hid_replay_parse_header
      [str "N: Test\n", str "I: 3 046d c52b\n", str "R: 2 05 01\n", str "E: 0.000000 1 00\n"]
      [] [] ⟨[], [], Ptr.unset, 0, 0, 0, 0⟩).dev.name = str "Test"
    ∧ (hid_replay_parse_header
      [str "N: Test\n", str "I: 3 046d c52b\n", str "R: 2 05 01\n", str "E: 0.000000 1 00\n"]
      [] [] ⟨[], [], Ptr.unset, 0, 0, 0, 0⟩).dev.bus = 0x0003
    ∧ (hid_replay_parse_header
      [str "N: Test\n", str "I: 3 046d c52b\n", str "R: 2 05 01\n", str "E: 0.000000 1 00\n"]
      [] [] ⟨[], [], Ptr.unset, 0, 0, 0, 0⟩).dev.vendor = 0x046d
    ∧ (hid_replay_parse_header
      [str "N: Test\n", str "I: 3 046d c52b\n", str "R: 2 05 01\n", str "E: 0.000000 1 00\n"]
      [] [] ⟨[], [], Ptr.unset, 0, 0, 0, 0⟩).dev.product = 0xc52b
    ∧ (hid_replay_parse_header
      [str "N: Test\n", str "I: 3 046d c52b\n", str "R: 2 05 01\n", str "E: 0.000000 1 00\n"]
      [] [] ⟨[], [], Ptr.unset, 0, 0, 0, 0⟩).dev.rd_data = Ptr.rdesc_buf
    ∧ (hid_replay_parse_header
      [str "N: Test\n", str "I: 3 046d c52b\n", str "R: 2 05 01\n", str "E: 0.000000 1 00\n"]
      [] [] ⟨[], [], Ptr.unset, 0, 0, 0, 0⟩).dev.rd_size = 2
    ∧ rdesc_bytes (hid_replay_parse_header
      [str "N: Test\n", str "I: 3 046d c52b\n", str "R: 2 05 01\n", str "E: 0.000000 1 00\n"]
      [] [] ⟨[], [], Ptr.unset, 0, 0, 0, 0⟩).mem (hid_replay_parse_header
      [str "N: Test\n", str "I: 3 046d c52b\n", str "R: 2 05 01\n", str "E: 0.000000 1 00\n"]
      [] [] ⟨[], [], Ptr.unset, 0, 0, 0, 0⟩).dev.rd_size = [0x05, 0x01]
    ∧ (hid_replay_parse_header
      [str "N: Test\n", str "I: 3 046d c52b\n", str "R: 2 05 01\n", str "E: 0.000000 1 00\n"]
      [] [] ⟨[], [], Ptr.unset, 0, 0, 0, 0⟩).fp = [str "E: 0.000000 1 00\n"]
    ∧ (hid_replay_parse_header
      [str "N: Test\n", str "I: 3 046d c52b\n", str "R: 2 05 01\n", str "E: 0.000000 1 00\n"]
      [] [] ⟨[], [], Ptr.unset, 0, 0, 0, 0⟩).ret = 0 :=
  C2_header_parsed (str "Test") (str "3") (str "046d") (str "c52b") (str "2") [10] [10] [10]
    [(48, 53), (48, 49)] [str "E: 0.000000 1 00\n"] [] [] ⟨[], [], Ptr.unset, 0, 0, 0, 0⟩ _
    ⟨by decide, by decide, by decide, by decide⟩ (Or.inr (Or.inl rfl)) (by decide)
    ⟨by decide, by decide, by decide⟩ ⟨by decide, by decide, by decide⟩
    ⟨by decide, by decide, by decide⟩ (Or.inr (Or.inl rfl)) (by decide)
    (by decide) (by decide) rfl (by decide) (by decide) (by decide) (Or.inr (Or.inl rfl)) rfl

set_option maxRecDepth 20000 in
/-- C2 as stated fails: a name of 127 characters fits the 128-byte name field
with its terminator, but on the line `N: ` + name + newline (131 bytes) the
test `len - 3 >= sizeof(dev->name)` (128 against 128) makes `hid_replay_name`
return at once, and the header is parsed with the name left as it was. -/
theorem C2_counterexample :
    (List.replicate 127 97).length + 1 ≤ NAME_SIZE
    ∧ (hid_replay_parse_header
        [nameLine (List.replicate 127 97) [10], str "I: 3 046d c52b\n", str "R: 2 05 01\n"]
        [] [] ⟨str "old", [], Ptr.unset, 0, 0, 0, 0⟩).dev
      = ⟨str "old", [], Ptr.rdesc_buf, 2, 0x0003, 0x046d, 0xc52b⟩ := by
  decide

/-- C3, as amended: in one replay pass (the read loop of `main` from the start
of the source, with the clock reset) over a source in which every line that
begins with `E` is a well-formed event line, every other line is skipped, the
loop ends after one call of `hid_replay_read_one` per event line and one more,
and the input messages written are exactly the payloads of the event lines,
in source order, none repeated or omitted: `N` event lines give `N` writes. -/
theorem C3_pass_writes_events_in_order (wfail : Nat → Bool) (src : List RecLine) (fuel : Nat)
    (hsrc : ∀ x ∈ src, x.wellFormed) (hfuel : (src.filterMap RecLine.message).length < fuel) :
    (main_pass wfail fuel (src.map RecLine.text)).map (fun x => writes x.2)
      = some (src.filterMap RecLine.message) := by
  have hne : ∀ l ∈ src.map RecLine.text, l ≠ [] := by
    intro l hl
    obtain ⟨x, hx, rfl⟩ := List.mem_map.mp hl
    exact recLine_ne_nil x (hsrc x hx)
  rw [main_pass, read_loop_trace wfail _ fuel 0 ⟨0, 0⟩ hne
    (by rw [eventTags_recLines src hsrc]; exact hfuel)]
  simp [writes_passTrace wfail src 0 ⟨0, 0⟩ hsrc]

/-- A pass over a comment, two event lines and an empty line writes the two
payloads in order. -/
theorem C3_pass_writes_events_in_order_witness :
    (main_pass (fun _ => false) 3
        [str "# x\n", str "E: 1.000000 1 0a\n", str "\n", str "E: 1.000100 2 0b 0c\n"]).map
        (fun x => writes x.2)
      = some [⟨[10], 1⟩, ⟨[11, 12], 2⟩] :=
  C3_pass_writes_events_in_order (fun _ => false)
    [.other (str "# x\n"), .event [49] [48, 48, 48, 48, 48, 48] [49] [(48, 97)] [10],
      .other [10], .event [49] [48, 48, 48, 49, 48, 48] [50] [(48, 98), (48, 99)] [10]] 3
    (by
      intro x hx
      simp only [List.mem_cons, List.mem_singleton, List.not_mem_nil, or_false] at hx
      rcases hx with rfl | rfl | rfl | rfl
      · exact ⟨by decide, by decide⟩
      · exact ⟨⟨by decide, by decide, rfl, by decide, by decide, by decide⟩, by decide, rfl,
          by decide, by decide, by decide, by decide⟩
      · exact ⟨by decide, by decide⟩
      · exact ⟨⟨by decide, by decide, rfl, by decide, by decide, by decide⟩, by decide, rfl,
          by decide, by decide, by decide, by decide⟩)
    (by decide)

/-- C3 as stated fails: the line `E: 0.000000 1 01 02` declares one byte and
carries two, so it is no well-formed event line, yet a pass over it writes an
input message (its first byte). -/
theorem C3_counterexample :
    (¬ ∃ sec usec len bytes eol, EventText sec usec len bytes eol
        ∧ eventLine sec usec len bytes eol = str "E: 0.000000 1 01 02\n")
    ∧ (main_pass (fun _ => false) 2 [str "E: 0.000000 1 01 02\n"]).map (fun x => writes x.2)
        = some [⟨[1], 1⟩] := by
  refine ⟨?_, by decide⟩
  rintro ⟨sec, usec, len, bytes, eol, h, e⟩
  have hw := writes_event_text false ⟨0, 0⟩ h
  rw [e] at hw
  have hc : writes (hid_replay_event false (str "E: 0.000000 1 01 02\n") ⟨0, 0⟩).effects
      = [⟨[1], 1⟩] := by decide
  rw [hc] at hw
  have hlen : bytes.length = 1 := by
    have := congrArg (fun l => l.map uhid_input_req.size) hw
    simpa [eventMessage] using this.symm
  obtain ⟨p, ps, rfl⟩ := List.exists_cons_of_ne_nil (l := bytes) (by
    intro h0
    rw [h0] at hlen
    simp at hlen)
  have hps : ps = [] := by
    simp only [List.length_cons] at hlen
    exact List.eq_nil_of_length_eq_zero (by omega)
  subst hps
  have h1 := h.len_eq
  have h2 := h.sec_long
  have hsc := sscanf_event_line sec usec len p [] eol h.head (by omega)
    (by rw [h1]; simp) h.hex h.eol
  rw [e] at hsc
  have hb : (sscanf_event (str "E: 0.000000 1 01 02\n")).buf = [48, 49, 32, 48, 50] := by decide
  rw [hsc] at hb
  simp only [payloadText, List.nil_append, List.cons.injEq] at hb
  have hsp := eolHead_space h.eol 48 (by rw [hb.2.2]; simp)
  simp [isspace] at hsp

/-- C4, as amended: for every well-formed event line processed while the clock
holds a set (non-zero) anchor, when the capture delta `d` (the event timestamp
minus the anchor, in microseconds) exceeds 500 and is below `2^32`,
`hid_replay_event` sleeps exactly `min d 3000000` microseconds, then writes
the event, and leaves the event timestamp as the anchor; so with a set anchor
ten seconds before the event the sleep is exactly 3,000,000. -/
theorem C4_sleep_is_clamped_delta (wfail : Bool) (time : timeval) (sec usec len : CStr)
    (bytes : List (Nat × Nat)) (eol : CStr) (h : EventText sec usec len bytes eol)
    (hset : ¬ (time.tv_sec = 0 ∧ time.tv_usec = 0)) (d : Nat)
    (hd : (d : Int) = 1000000 * ((numValue 10 sec : Int) - time.tv_sec)
      + ((numValue 10 usec : Int) - time.tv_usec))
    (h500 : 500 < d) (hwrap : d < 2 ^ 32) :
    hid_replay_event wfail (eventLine sec usec len bytes eol) time
      = ⟨⟨(numValue 10 sec : Int), (numValue 10 usec : Int)⟩,
          [Effect.usleep (min d 3000000), Effect.write (eventMessage bytes)]
            ++ (if wfail then [Effect.fprintf_stderr] else [])⟩ := by
  have hp : pacingDelta time (numValue 10 sec) (numValue 10 usec) = d := by
    rw [pacingDelta_eq, ← hd]
    omega
  rw [hid_replay_event_text wfail time h]
  simp only [if_neg hset, hp, if_pos h500]
  by_cases hc : 3000000 < d
  · simp [hc, Nat.min_eq_right (Nat.le_of_lt hc)]
  · simp [hc, Nat.min_eq_left (Nat.le_of_not_lt hc)]

/-- An event ten seconds after the anchor `(1, 0)` is preceded by a sleep of
3,000,000 microseconds. -/
theorem C4_sleep_is_clamped_delta_witness :
    hid_replay_event false (str "E: 11.000000 1 01\n") ⟨1, 0⟩
      = ⟨⟨11, 0⟩, [Effect.usleep 3000000, Effect.write ⟨[1], 1⟩]⟩ :=
  C4_sleep_is_clamped_delta false ⟨1, 0⟩ [49, 49] [48, 48, 48, 48, 48, 48] [49] [(48, 49)] [10]
    ⟨⟨by decide, by decide, rfl, by decide, by decide, by decide⟩, by decide, rfl, by decide,
      by decide, by decide, by decide⟩
    (by decide) 10000000 (by decide) (by decide) (by decide)

/-- C4 as stated fails: in a pass whose first event has the timestamp
`0.000000`, the clock still reads as unset when the second event, ten seconds
later, is processed; no sleep is issued at all. -/
theorem C4_counterexample :
    (main_pass (fun _ => false) 3 [str "E: 0.000000 1 01\n", str "E: 10.000000 1 02\n"])
      = some (⟨10, 0⟩, [Effect.write ⟨[1], 1⟩, Effect.write ⟨[2], 1⟩]) := by
  decide

/-- C5, as amended: for every well-formed event line whose timestamp is earlier
than a set (non-zero) anchor, by less than 4,291,967,296 microseconds, the
negative difference wraps in the 32-bit unsigned `usec` to a value above
3,000,000: `hid_replay_event` sleeps 3,000,000 microseconds, moves the anchor
to the event timestamp, and still writes the event. -/
theorem C5_earlier_timestamp_sleeps (wfail : Bool) (time : timeval) (sec usec len : CStr)
    (bytes : List (Nat × Nat)) (eol : CStr) (h : EventText sec usec len bytes eol)
    (hset : ¬ (time.tv_sec = 0 ∧ time.tv_usec = 0))
    (hneg : 1000000 * ((numValue 10 sec : Int) - time.tv_sec)
      + ((numValue 10 usec : Int) - time.tv_usec) < 0)
    (hlow : -4291967296 < 1000000 * ((numValue 10 sec : Int) - time.tv_sec)
      + ((numValue 10 usec : Int) - time.tv_usec)) :
    hid_replay_event wfail (eventLine sec usec len bytes eol) time
      = ⟨⟨(numValue 10 sec : Int), (numValue 10 usec : Int)⟩,
          [Effect.usleep 3000000, Effect.write (eventMessage bytes)]
            ++ (if wfail then [Effect.fprintf_stderr] else [])⟩ := by
  have hp : 3000000 < pacingDelta time (numValue 10 sec) (numValue 10 usec) := by
    rw [pacingDelta_eq]
    omega
  rw [hid_replay_event_text wfail time h]
  simp only [if_neg hset, if_pos hp, if_pos (show 500 < pacingDelta time (numValue 10 sec)
    (numValue 10 usec) by omega)]
  simp

/-- An event one second before the anchor `(10, 0)`. -/
theorem C5_earlier_timestamp_sleeps_witness :
    hid_replay_event false (str "E: 9.000000 1 01\n") ⟨10, 0⟩
      = ⟨⟨9, 0⟩, [Effect.usleep 3000000, Effect.write ⟨[1], 1⟩]⟩ :=
  C5_earlier_timestamp_sleeps false ⟨10, 0⟩ [57] [48, 48, 48, 48, 48, 48] [49] [(48, 49)] [10]
    ⟨⟨by decide, by decide, rfl, by decide, by decide, by decide⟩, by decide, rfl, by decide,
      by decide, by decide, by decide⟩
    (by decide) (by decide) (by decide)

/-- C5 as stated fails: with the anchor at `(10, 0)`, the event line
`E: 9.000000 1 01` is preceded by a sleep of three seconds and moves the
anchor to `(9, 0)`. -/
theorem C5_counterexample :
    sleeps (hid_replay_event false (str "E: 9.000000 1 01\n") ⟨10, 0⟩).effects = [3000000]
    ∧ (hid_replay_event false (str "E: 9.000000 1 01\n") ⟨10, 0⟩).time = ⟨9, 0⟩ := by
  decide

/-- C6, as amended: in every pass (the clock is reset to `(0, 0)` before the
read loop, in single-shot mode and in every interactive repetition alike), the
first event line whose timestamp parses (the `sscanf` assigns its four items),
whatever lines come before it, is processed without any sleep and its
timestamp becomes the anchor of the rest of the pass, which ends within one
call of `hid_replay_read_one` per line beginning with `E` and one more; the
line is written at once when it is a well-formed event line.  No line from
that one on is longer than 4096 characters, so that none stores beyond the
data array of the message. -/
theorem C6_first_event_without_sleep (wfail : Nat → Bool) (pre post : List CStr) (l : CStr)
    (fuel : Nat) (hpre : noEventYet pre) (hl : l.head? = some 69)
    (hn : (sscanf_event l).n = 4) (hpost : ∀ x ∈ post, x ≠ [])
    (_hfit : ∀ x ∈ l :: post, x.length ≤ UHID_DATA_MAX)
    (hfuel : eventTags pre + 1 + eventTags post < fuel) :
    sleeps (hid_replay_event (wfail (eventTags pre)) l ⟨0, 0⟩).effects = []
    ∧ (hid_replay_event (wfail (eventTags pre)) l ⟨0, 0⟩).time
        = ⟨toLong (sscanf_event l).sec, (sscanf_event l).usec⟩
    ∧ (∃ t effs,
        read_loop wfail (fuel - (eventTags pre + 1)) (eventTags pre + 1) post
            ⟨toLong (sscanf_event l).sec, (sscanf_event l).usec⟩ = some (t, effs)
        ∧ main_pass wfail fuel (pre ++ l :: post)
            = some (t, (hid_replay_event (wfail (eventTags pre)) l ⟨0, 0⟩).effects ++ effs))
    ∧ ∀ (sec usec len : CStr) (bytes : List (Nat × Nat)) (eol : CStr),
        EventText sec usec len bytes eol → l = eventLine sec usec len bytes eol →
        (hid_replay_event (wfail (eventTags pre)) l ⟨0, 0⟩).effects
          = [Effect.write (eventMessage bytes)]
              ++ (if wfail (eventTags pre) then [Effect.fprintf_stderr] else []) := by
  have hn4 : ¬ ((sscanf_event l).n ≠ 4) := by simp [hn]
  have htime : (hid_replay_event (wfail (eventTags pre)) l ⟨0, 0⟩).time
      = ⟨toLong (sscanf_event l).sec, (sscanf_event l).usec⟩ := by
    rw [time_event, if_neg hn4]
    simp [pacingDelta_self]
  have hall : ∀ x ∈ pre ++ l :: post, x ≠ [] := by
    intro x hx
    rcases List.mem_append.mp hx with h | h
    · exact noEventYet_ne_nil hpre x h
    · rcases List.mem_cons.mp h with h | h
      · rw [h]
        exact ne_nil_of_head hl
      · exact hpost x h
  have htags : eventTags (pre ++ l :: post) = eventTags pre + 1 + eventTags post := by
    rw [eventTags_append]
    simp only [eventTags, if_pos hl]
    omega
  have hmain := read_loop_trace wfail (pre ++ l :: post) fuel 0 ⟨0, 0⟩ hall (by omega)
  have htr := passTrace_first_event wfail l post hl pre 0 ⟨0, 0⟩ hpre
  simp only [Nat.zero_add] at htr
  have hrest := read_loop_trace wfail post (fuel - (eventTags pre + 1)) (eventTags pre + 1)
    ⟨toLong (sscanf_event l).sec, (sscanf_event l).usec⟩ hpost (by omega)
  refine ⟨?_, htime, ⟨_, _, hrest, ?_⟩, ?_⟩
  · rw [sleeps_event, if_neg hn4]
    simp [pacingDelta_self]
  · rw [main_pass, hmain, htr, htime]
  · intro sec usec len bytes eol h he
    rw [he, hid_replay_event_text _ ⟨0, 0⟩ h]
    simp [pacingDelta_self]

/-- A pass that begins with a comment and a broken `E` line: the first event,
at `3.000000`, is written at once, the next one, a second later, after a sleep
of that second. -/
theorem C6_first_event_without_sleep_witness :
    sleeps (hid_replay_event false (str "E: 3.000000 1 01\n") ⟨0, 0⟩).effects = []
    ∧ (hid_replay_event false (str "E: 3.000000 1 01\n") ⟨0, 0⟩).time
        = ⟨toLong (sscanf_event (str "E: 3.000000 1 01\n")).sec,
            (sscanf_event (str "E: 3.000000 1 01\n")).usec⟩
    ∧ (∃ t effs,
        read_loop (fun _ => false) (4 - (eventTags [str "# c\n", str "E: x\n"] + 1))
            (eventTags [str "# c\n", str "E: x\n"] + 1) [str "E: 4.000000 1 02\n"]
            ⟨toLong (sscanf_event (str "E: 3.000000 1 01\n")).sec,
              (sscanf_event (str "E: 3.000000 1 01\n")).usec⟩ = some (t, effs)
        ∧ main_pass (fun _ => false) 4
            ([str "# c\n", str "E: x\n"] ++ str "E: 3.000000 1 01\n" :: [str "E: 4.000000 1 02\n"])
            = some (t, (hid_replay_event false (str "E: 3.000000 1 01\n") ⟨0, 0⟩).effects
                ++ effs))
    ∧ ∀ (sec usec len : CStr) (bytes : List (Nat × Nat)) (eol : CStr),
        EventText sec usec len bytes eol →
        str "E: 3.000000 1 01\n" = eventLine sec usec len bytes eol →
        (hid_replay_event false (str "E: 3.000000 1 01\n") ⟨0, 0⟩).effects
          = [Effect.write (eventMessage bytes)]
              ++ (if false = true then [Effect.fprintf_stderr] else []) :=
  C6_first_event_without_sleep (fun _ => false) [str "# c\n", str "E: x\n"]
    [str "E: 4.000000 1 02\n"] (str "E: 3.000000 1 01\n") 4 (by decide) (by decide) (by decide)
    (by decide) (by decide) (by decide)

/-- C6 as stated fails: in a pass that begins with `E: 1.000000 3 01 02`, the
first event line whose timestamp parses (four items, two bytes for three
declared) sets the anchor to `(1, 0)` but is not written; the only write of
the pass is that of the next line, after a sleep of three seconds. -/
theorem C6_counterexample :
    (sscanf_event (str "E: 1.000000 3 01 02\n")).n = 4
    ∧ hid_replay_event false (str "E: 1.000000 3 01 02\n") ⟨0, 0⟩ = ⟨⟨1, 0⟩, []⟩
    ∧ main_pass (fun _ => false) 3 [str "E: 1.000000 3 01 02\n", str "E: 11.000000 1 01\n"]
        = some (⟨11, 0⟩, [Effect.usleep 3000000, Effect.write ⟨[1], 1⟩]) := by
  decide

/-- C7: for every well-formed event line processed while the clock holds a set
(non-zero) anchor, when the capture delta (the event timestamp minus the
anchor, in microseconds) is between 0 and 500 inclusive, `hid_replay_event`
issues no sleep, leaves the anchor unchanged and writes the event. -/
theorem C7_small_gap_no_sleep (wfail : Bool) (time : timeval) (sec usec len : CStr)
    (bytes : List (Nat × Nat)) (eol : CStr) (h : EventText sec usec len bytes eol)
    (hset : ¬ (time.tv_sec = 0 ∧ time.tv_usec = 0))
    (h0 : 0 ≤ 1000000 * ((numValue 10 sec : Int) - time.tv_sec)
      + ((numValue 10 usec : Int) - time.tv_usec))
    (h500 : 1000000 * ((numValue 10 sec : Int) - time.tv_sec)
      + ((numValue 10 usec : Int) - time.tv_usec) ≤ 500) :
    hid_replay_event wfail (eventLine sec usec len bytes eol) time
      = ⟨time, [Effect.write (eventMessage bytes)]
            ++ (if wfail then [Effect.fprintf_stderr] else [])⟩ := by
  have hp : ¬ (500 < pacingDelta time (numValue 10 sec) (numValue 10 usec)) := by
    rw [pacingDelta_eq]
    omega
  rw [hid_replay_event_text wfail time h]
  simp only [if_neg hset, if_neg hp]
  simp

/-- The spec's example for C7: an event 100 microseconds after the anchor. -/
theorem C7_small_gap_no_sleep_witness :
    hid_replay_event false (str "E: 5.000100 1 01\n") ⟨5, 0⟩
      = ⟨⟨5, 0⟩, [Effect.write ⟨[1], 1⟩]⟩ :=
  C7_small_gap_no_sleep false ⟨5, 0⟩ [53] [48, 48, 48, 49, 48, 48] [49] [(48, 49)] [10]
    ⟨⟨by decide, by decide, rfl, by decide, by decide, by decide⟩, by decide, rfl, by decide,
      by decide, by decide, by decide⟩
    (by decide) (by decide) (by decide)

/-- C8, as amended: for every event line that carries at most 4096 hexadecimal
bytes and whose declared length (below `2^31`) exceeds their number,
`hid_replay_event` writes no input message, and `hid_replay_read_one` returns
0 with the following lines unread, so that the pass continues with the next
line. -/
theorem C8_short_event_dropped (wfail : Bool) (time : timeval) (sec usec len : CStr)
    (bytes : List (Nat × Nat)) (eol : CStr) (fp : List CStr) (hd : EventHead sec usec len)
    (hsec : numValue 10 sec < 2 ^ 64) (hlen : numValue 10 len < 2 ^ 31)
    (hfew : bytes.length < numValue 10 len) (_hmax : bytes.length ≤ UHID_DATA_MAX)
    (hb : ∀ q ∈ bytes, hexPair q = true) (he : isEol eol) :
    writes (hid_replay_event wfail (eventLine sec usec len bytes eol) time).effects = []
    ∧ (hid_replay_read_one wfail (eventLine sec usec len bytes eol :: fp) time).error = 0
    ∧ (hid_replay_read_one wfail (eventLine sec usec len bytes eol :: fp) time).fp = fp
    ∧ writes (hid_replay_read_one wfail (eventLine sec usec len bytes eol :: fp) time).effects
        = [] := by
  have hw := writes_event_short wfail time sec usec len bytes eol hd hsec hlen hfew hb he
  rw [read_one_event wfail _ fp time (eventLine_ne_nil sec usec len bytes eol)
    (eventLine_head sec usec len bytes eol)]
  exact ⟨hw, rfl, rfl, hw⟩

/-- The line `E: 1.000000 3 01 02` declares three bytes and carries two. -/
theorem C8_short_event_dropped_witness :
    writes (hid_replay_event false (str "E: 1.000000 3 01 02\n") ⟨0, 0⟩).effects = []
    ∧ (hid_replay_read_one false [str "E: 1.000000 3 01 02\n", str "E: 1.000000 1 01\n"]
        ⟨0, 0⟩).error = 0
    ∧ (hid_replay_read_one false [str "E: 1.000000 3 01 02\n", str "E: 1.000000 1 01\n"]
        ⟨0, 0⟩).fp = [str "E: 1.000000 1 01\n"]
    ∧ writes (hid_replay_read_one false [str "E: 1.000000 3 01 02\n", str "E: 1.000000 1 01\n"]
        ⟨0, 0⟩).effects = [] :=
  C8_short_event_dropped false ⟨0, 0⟩ [49] [48, 48, 48, 48, 48, 48] [51] [(48, 49), (48, 50)]
    [10] [str "E: 1.000000 1 01\n"]
    ⟨by decide, by decide, rfl, by decide, by decide, by decide⟩
    (by decide) (by decide) (by decide) (by decide) (by decide) (by decide)

/-- C8 as stated fails for more bytes than declared: the line
`E: 0.000000 1 01 02` declares one byte and carries two, and
`hid_replay_event` writes an input message for it, of size 1. -/
theorem C8_counterexample :
    numValue 10 [49] ≠ [(48, 49), (48, 50)].length
    ∧ eventLine [48] [48, 48, 48, 48, 48, 48] [49] [(48, 49), (48, 50)] [10]
        = str "E: 0.000000 1 01 02\n"
    ∧ writes (hid_replay_event false (str "E: 0.000000 1 01 02\n") ⟨0, 0⟩).effects
        = [⟨[1], 1⟩] := by
  decide

/-- C9, as amended: for every event line that declares length 0 and carries no
byte, the `sscanf` of `hid_replay_event` assigns three items only and the
function returns at once, without any write, without any sleep and with the
clock unchanged; a line that declares length 0 is written as one message of
size 0 with an empty payload only when a byte follows the length. -/
theorem C9_bare_zero_length_dropped (wfail : Bool) (time : timeval) (sec usec len eol : CStr)
    (hd : EventHead sec usec len) (hsec : numValue 10 sec < 2 ^ 64)
    (hzero : numValue 10 len = 0) (he : isEol eol) :
    hid_replay_event wfail (eventLine sec usec len [] eol) time = ⟨time, []⟩
    ∧ ∀ (p : Nat × Nat) (ps : List (Nat × Nat)), (∀ q ∈ p :: ps, hexPair q = true) →
        writes (hid_replay_event wfail (eventLine sec usec len (p :: ps) eol) time).effects
          = [⟨[], 0⟩] := by
  constructor
  · have h3 := sscanf_event_bare sec usec len eol hd hsec (by omega) he
    simp only [hid_replay_event, h3]
    rfl
  · intro p ps hb
    have hsc := sscanf_event_line sec usec len p ps eol hd hsec (by omega) hb he
    rw [hzero] at hsc
    simp only [hid_replay_event, hsc]
    simp [event_loop, writes_append, writes_pause, writes_log, writes, toU16]

/-- The line `E: 1.000000 0` is dropped; `E: 1.000000 0 00` is written empty. -/
theorem C9_bare_zero_length_dropped_witness :
    hid_replay_event false (str "E: 1.000000 0\n") ⟨7, 0⟩ = ⟨⟨7, 0⟩, []⟩
    ∧ ∀ (p : Nat × Nat) (ps : List (Nat × Nat)), (∀ q ∈ p :: ps, hexPair q = true) →
        writes (hid_replay_event false
          (eventLine [49] [48, 48, 48, 48, 48, 48] [48] (p :: ps) [10]) ⟨7, 0⟩).effects
          = [⟨[], 0⟩] :=
  C9_bare_zero_length_dropped false ⟨7, 0⟩ [49] [48, 48, 48, 48, 48, 48] [48] [10]
    ⟨by decide, by decide, rfl, by decide, by decide, by decide⟩ (by decide) rfl (by decide)

/-- C9 as stated fails: the line `E: 1.000000 0` leads to no write at all. -/
theorem C9_counterexample :
    eventLine [49] [48, 48, 48, 48, 48, 48] [48] [] [10] = str "E: 1.000000 0\n"
    ∧ (sscanf_event (str "E: 1.000000 0\n")).n = 3
    ∧ (hid_replay_event false (str "E: 1.000000 0\n") ⟨0, 0⟩).effects = [] := by
  decide

/-- C11, as amended: for every header consisting of one well-formed line of
each tag `N`, `P`, `I` and `R`, `hid_replay_parse_header` yields the same
descriptor (name, physical path, bus, vendor, product, report-descriptor
bytes) for every one of the 18 orderings of those four lines in which the `P`
line is not the last, and reads all four lines. -/
theorem C11_header_order_unless_phys_last (name phys bus vendor product len e1 e2 e3 e4 : CStr)
    (bytes : List (Nat × Nat)) (rest : List CStr) (buf0 : CStr) (mem : RdescBuf)
    (dev : uhid_create_req) (ts : List HeaderTag)
    (hn : NameText name) (he1 : isLineEnd e1) (hcap : name.length + e1.length < NAME_SIZE)
    (hp : NameText phys) (hpcap : phys.length + e2.length < PHYS_SIZE)
    (hbus : HexField bus) (hven : HexField vendor) (hpro : HexField product)
    (he3 : isLineEnd e3)
    (hne : len ≠ []) (hd : ∀ c ∈ len, isdigit c = true)
    (hlen : numValue 10 len = bytes.length) (h1 : 1 ≤ bytes.length)
    (h4096 : bytes.length ≤ 4096) (hb : ∀ q ∈ bytes, hexPair q = true) (he4 : isLineEnd e4)
    (hperm : ts.Perm [HeaderTag.N, HeaderTag.P, HeaderTag.I, HeaderTag.R])
    (hlast : ts.getLast? ≠ some HeaderTag.P) :
    (hid_replay_parse_header
        (ts.map (headerLine (nameLine name e1) (physLine phys e2)
          (infoLine bus vendor product e3) (rdescLine len bytes e4)) ++ rest) buf0 mem dev).dev
      = { dev with name := name, phys := phys ++ eolHead e2, bus := numValue 16 bus,
                   vendor := numValue 16 vendor, product := numValue 16 product,
                   rd_data := Ptr.rdesc_buf, rd_size := bytes.length }
    ∧ rdesc_bytes (hid_replay_parse_header
        (ts.map (headerLine (nameLine name e1) (physLine phys e2)
          (infoLine bus vendor product e3) (rdescLine len bytes e4)) ++ rest) buf0 mem dev).mem
        bytes.length = bytes.map byteValue
    ∧ (hid_replay_parse_header
        (ts.map (headerLine (nameLine name e1) (physLine phys e2)
          (infoLine bus vendor product e3) (rdescLine len bytes e4)) ++ rest) buf0 mem dev).fp
      = rest := by
  rw [header_any_order name phys bus vendor product len e1 e2 e3 e4 bytes rest buf0 mem dev ts
    hn he1 hcap hp hpcap hbus hven hpro he3 hne hd hlen h1 h4096 hb he4 hperm hlast]
  refine ⟨rfl, ?_, rfl⟩
  have := rdesc_bytes_storeSeq (bytes.map byteValue) mem
  simpa using this

/-- The four lines in the order `R`, `P`, `I`, `N`. -/
theorem C11_header_order_unless_phys_last_witness :
    (hid_replay_parse_header
        ([str "R: 2 05 01\n", str "P: usb\n", str "I: 3 046d c52b\n", str "N: Test\n"]
          ++ [str "E: 0.000000 1 00\n"]) [] [] ⟨[], [], Ptr.unset, 0, 0, 0, 0⟩).dev
      = ⟨str "Test", str "usb", Ptr.rdesc_buf, 2, 0x0003, 0x046d, 0xc52b⟩
    ∧ rdesc_bytes (hid_replay_parse_header
        ([str "R: 2 05 01\n", str "P: usb\n", str "I: 3 046d c52b\n", str "N: Test\n"]
          ++ [str "E: 0.000000 1 00\n"]) [] [] ⟨[], [], Ptr.unset, 0, 0, 0, 0⟩).mem 2
        = [0x05, 0x01]
    ∧ (hid_replay_parse_header
        ([str "R: 2 05 01\n", str "P: usb\n", str "I: 3 046d c52b\n", str "N: Test\n"]
          ++ [str "E: 0.000000 1 00\n"]) [] [] ⟨[], [], Ptr.unset, 0, 0, 0, 0⟩).fp
      = [str "E: 0.000000 1 00\n"] :=
  C11_header_order_unless_phys_last (str "Test") (str "usb") (str "3") (str "046d") (str "c52b")
    (str "2") [10] [10] [10] [10] [(48, 53), (48, 49)] [str "E: 0.000000 1 00\n"] [] []
    ⟨[], [], Ptr.unset, 0, 0, 0, 0⟩ [HeaderTag.R, HeaderTag.P, HeaderTag.I, HeaderTag.N]
    ⟨by decide, by decide, by decide, by decide⟩ (Or.inr (Or.inl rfl)) (by decide)
    ⟨by decide, by decide, by decide, by decide⟩ (by decide)
    ⟨by decide, by decide, by decide⟩ ⟨by decide, by decide, by decide⟩
    ⟨by decide, by decide, by decide⟩ (Or.inr (Or.inl rfl))
    (by decide) (by decide) rfl (by decide) (by decide) (by decide) (Or.inr (Or.inl rfl))
    (by decide) (by decide)

/-- C11 as stated fails: in the order `N`, `I`, `R`, `P` the parser stops
after the `R:` line, the `P:` line is left unread and the physical path stays
as it was (here empty), while in the order `P`, `N`, `I`, `R` it is `usb`. -/
theorem C11_counterexample :
    (hid_replay_parse_header
        [str "N: Test\n", str "I: 3 046d c52b\n", str "R: 2 05 01\n", str "P: usb\n"]
        [] [] ⟨[], [], Ptr.unset, 0, 0, 0, 0⟩).dev.phys = []
    ∧ (hid_replay_parse_header
        [str "N: Test\n", str "I: 3 046d c52b\n", str "R: 2 05 01\n", str "P: usb\n"]
        [] [] ⟨[], [], Ptr.unset, 0, 0, 0, 0⟩).fp = [str "P: usb\n"]
    ∧ (hid_replay_parse_header
        [str "P: usb\n", str "N: Test\n", str "I: 3 046d c52b\n", str "R: 2 05 01\n"]
        [] [] ⟨[], [], Ptr.unset, 0, 0, 0, 0⟩).dev.phys = str "usb" := by
  decide

/-- C12, as amended: for every `R:` line that carries at most 4096 hexadecimal
bytes and whose declared length (below `2^31`) exceeds their number,
`hid_replay_rdesc` leaves `rd_data` and `rd_size`, with the rest of the
descriptor, as they were; a line whose bytes are as many as it declares,
between 1 and 4096, sets them. -/
theorem C12_short_rdesc_leaves_descriptor (len : CStr) (bytes : List (Nat × Nat)) (eol : CStr)
    (mem : RdescBuf) (dev : uhid_create_req) (hne : len ≠ [])
    (hd : ∀ c ∈ len, isdigit c = true) (hlen : numValue 10 len < 2 ^ 31)
    (hfew : bytes.length < numValue 10 len) (_hmax : bytes.length ≤ 4096)
    (hb : ∀ q ∈ bytes, hexPair q = true) (he : isEol eol) :
    (hid_replay_rdesc (rdescLine len bytes eol) mem dev).dev = dev
    ∧ ∀ (len' : CStr) (full : List (Nat × Nat)), len' ≠ [] →
        (∀ c ∈ len', isdigit c = true) → numValue 10 len' = full.length →
        1 ≤ full.length → full.length ≤ 4096 → (∀ q ∈ full, hexPair q = true) →
        (hid_replay_rdesc (rdescLine len' full eol) mem dev).dev
          = { dev with rd_data := Ptr.rdesc_buf, rd_size := full.length } := by
  refine ⟨hid_replay_rdesc_short len bytes eol mem dev hne hd hlen hfew hb he, ?_⟩
  intro len' full hne' hd' hfull hpos hmax hhex
  exact (hid_replay_rdesc_line len' full eol mem dev hne' hd' hfull hpos hmax hhex he).1

/-- The line `R: 3 05 01` declares three bytes and carries two. -/
theorem C12_short_rdesc_leaves_descriptor_witness :
    (hid_replay_rdesc (str "R: 3 05 01\n") [] ⟨[], [], Ptr.unset, 0, 0, 0, 0⟩).dev
        = ⟨[], [], Ptr.unset, 0, 0, 0, 0⟩
    ∧ ∀ (len' : CStr) (full : List (Nat × Nat)), len' ≠ [] →
        (∀ c ∈ len', isdigit c = true) → numValue 10 len' = full.length →
        1 ≤ full.length → full.length ≤ 4096 → (∀ q ∈ full, hexPair q = true) →
        (hid_replay_rdesc (rdescLine len' full [10]) [] ⟨[], [], Ptr.unset, 0, 0, 0, 0⟩).dev
          = { (⟨[], [], Ptr.unset, 0, 0, 0, 0⟩ : uhid_create_req) with
                rd_data := Ptr.rdesc_buf, rd_size := full.length } :=
  C12_short_rdesc_leaves_descriptor [51] [(48, 53), (48, 49)] [10] []
    ⟨[], [], Ptr.unset, 0, 0, 0, 0⟩ (by decide) (by decide) (by decide) (by decide) (by decide)
    (by decide) (by decide)

/-- C12 as stated fails for more bytes than declared: the line `R: 1 05 01`
declares one byte and carries two, and `hid_replay_rdesc` sets `rd_data` and
`rd_size = 1`. -/
theorem C12_counterexample :
    numValue 10 [49] ≠ [(48, 53), (48, 49)].length
    ∧ rdescLine [49] [(48, 53), (48, 49)] [10] = str "R: 1 05 01\n"
    ∧ (hid_replay_rdesc (str "R: 1 05 01\n") [] ⟨[], [], Ptr.unset, 0, 0, 0, 0⟩).dev
        = ⟨[], [], Ptr.rdesc_buf, 1, 0, 0, 0⟩ := by
  decide

/-- C13, the code at the failing input: when `open` fails
`__hid_replay_create_device` returns `NULL` and `main` exits with
`EXIT_FAILURE`; but when `open` succeeds (descriptor 3) and the `write` of the
`UHID_CREATE` message fails, the function destroys the device and then still
returns the pointer to the freed object, so `hid_replay_create_devices` does
not return `NULL` and `main` does not exit. -/
theorem C13_failed_create_write_returns_freed_device :
    (__hid_replay_create_device ⟨[], [], Ptr.unset, 0, 0, 0, 0⟩ true (-1) 0).device = none
    ∧ main_after_create (hid_replay_create_devices [] [] [] ⟨[], [], Ptr.unset, 0, 0, 0, 0⟩
        true (-1) 0) = some 1
    ∧ __hid_replay_create_device ⟨[], [], Ptr.unset, 0, 0, 0, 0⟩ true 3 (-1)
        = ⟨some ⟨3⟩, true, [DevEffect.open_uhid,
            DevEffect.write_create ⟨[], [], Ptr.unset, 0, 0, 0, 0⟩, DevEffect.fprintf_stderr,
            DevEffect.close 3, DevEffect.free]⟩
    ∧ (hid_replay_create_devices [] [] [] ⟨[], [], Ptr.unset, 0, 0, 0, 0⟩ true 3 (-1)).device
        = some ⟨3⟩
    ∧ main_after_create (hid_replay_create_devices [] [] [] ⟨[], [], Ptr.unset, 0, 0, 0, 0⟩
        true 3 (-1)) = none := by
  decide

/-- C14: when the write of an input message fails, `hid_replay_event` only
prints a message: for a well-formed event line it does what it does when the
write succeeds, the write included, and prints; `hid_replay_read_one` still
returns 0 with the following lines unread; and a pass over a source whose `E`
lines are well-formed event lines ends with every event written, in order,
whatever writes fail, with the same sleeps and dispatch attempts and the same
final clock and one message printed for each failed write; and a pass over any
lines of at most 4096 characters (so that no line stores beyond the data array
of the message) ends, within one call of `hid_replay_read_one` per line
beginning with `E` and one more, with the same sleeps, dispatch attempts and
final clock whatever writes fail. -/
theorem C14_write_failure_only_logged (wfail wfail' : Nat → Bool) (src : List RecLine)
    (fuel : Nat) (time : timeval) (sec usec len : CStr) (bytes : List (Nat × Nat))
    (eol : CStr) (fp : List CStr) (h : EventText sec usec len bytes eol)
    (hsrc : ∀ x ∈ src, x.wellFormed)
    (hfuel : (src.filterMap RecLine.message).length < fuel) :
    hid_replay_event true (eventLine sec usec len bytes eol) time
      = ⟨(hid_replay_event false (eventLine sec usec len bytes eol) time).time,
          (hid_replay_event false (eventLine sec usec len bytes eol) time).effects
            ++ [Effect.fprintf_stderr]⟩
    ∧ writes (hid_replay_event true (eventLine sec usec len bytes eol) time).effects
        = [eventMessage bytes]
    ∧ (hid_replay_read_one true (eventLine sec usec len bytes eol :: fp) time).error = 0
    ∧ (hid_replay_read_one true (eventLine sec usec len bytes eol :: fp) time).fp = fp
    ∧ (∃ x x', main_pass wfail fuel (src.map RecLine.text) = some x
        ∧ main_pass wfail' fuel (src.map RecLine.text) = some x'
        ∧ x.1 = x'.1 ∧ attempts x.2 = attempts x'.2
        ∧ writes x.2 = src.filterMap RecLine.message
        ∧ writes x'.2 = src.filterMap RecLine.message
        ∧ logs x.2 = ((List.range (src.filterMap RecLine.message).length).filter wfail).length)
    ∧ ∀ (lines : List CStr) (n : Nat),
        (∀ l ∈ lines, l ≠ [] ∧ l.length ≤ UHID_DATA_MAX) → eventTags lines < n →
        ∃ y y', main_pass wfail n lines = some y ∧ main_pass wfail' n lines = some y'
          ∧ y.1 = y'.1 ∧ attempts y.2 = attempts y'.2 := by
  have hne : ∀ l ∈ src.map RecLine.text, l ≠ [] := by
    intro l hl
    obtain ⟨x, hx, rfl⟩ := List.mem_map.mp hl
    exact recLine_ne_nil x (hsrc x hx)
  have ht := eventTags_recLines src hsrc
  have h1 := read_loop_trace wfail _ fuel 0 ⟨0, 0⟩ hne (by rw [ht]; exact hfuel)
  have h2 := read_loop_trace wfail' _ fuel 0 ⟨0, 0⟩ hne (by rw [ht]; exact hfuel)
  have h3 := read_loop_wfail wfail wfail' fuel 0 (src.map RecLine.text) ⟨0, 0⟩
  rw [h1, h2] at h3
  simp only [Option.map_some', Option.some.injEq, Prod.mk.injEq] at h3
  refine ⟨?_, writes_event_text true time h, ?_, ?_, ⟨_, _, h1, h2, h3.1, h3.2,
    writes_passTrace wfail src 0 ⟨0, 0⟩ hsrc, writes_passTrace wfail' src 0 ⟨0, 0⟩ hsrc, ?_⟩, ?_⟩
  · rw [hid_replay_event_text true time h, hid_replay_event_text false time h]
    simp
  · rw [read_one_event true _ fp time (eventLine_ne_nil sec usec len bytes eol)
      (eventLine_head sec usec len bytes eol)]
  · rw [read_one_event true _ fp time (eventLine_ne_nil sec usec len bytes eol)
      (eventLine_head sec usec len bytes eol)]
  · have := logs_passTrace wfail src 0 ⟨0, 0⟩ hsrc
    simpa using this
  · intro lines n hl hn
    have a := read_loop_trace wfail lines n 0 ⟨0, 0⟩ (fun l hm => (hl l hm).1) hn
    have b := read_loop_trace wfail' lines n 0 ⟨0, 0⟩ (fun l hm => (hl l hm).1) hn
    have c := read_loop_wfail wfail wfail' n 0 lines ⟨0, 0⟩
    rw [a, b] at c
    simp only [Option.map_some', Option.some.injEq, Prod.mk.injEq] at c
    exact ⟨_, _, a, b, c.1, c.2⟩

/-- A pass over two event lines in which the first write fails, against one in
which none does. -/
theorem C14_write_failure_only_logged_witness :
    hid_replay_event true (str "E: 1.000000 1 0a\n") ⟨1, 0⟩
      = ⟨(hid_replay_event false (str "E: 1.000000 1 0a\n") ⟨1, 0⟩).time,
          (hid_replay_event false (str "E: 1.000000 1 0a\n") ⟨1, 0⟩).effects
            ++ [Effect.fprintf_stderr]⟩
    ∧ writes (hid_replay_event true (str "E: 1.000000 1 0a\n") ⟨1, 0⟩).effects = [⟨[10], 1⟩]
    ∧ (hid_replay_read_one true (str "E: 1.000000 1 0a\n" :: [str "# x\n"]) ⟨1, 0⟩).error = 0
    ∧ (hid_replay_read_one true (str "E: 1.000000 1 0a\n" :: [str "# x\n"]) ⟨1, 0⟩).fp
        = [str "# x\n"]
    ∧ (∃ x x', main_pass (fun j => decide (j = 0)) 3
          [str "E: 1.000000 1 0a\n", str "# x\n", str "E: 1.000100 2 0b 0c\n"] = some x
        ∧ main_pass (fun _ => false) 3
          [str "E: 1.000000 1 0a\n", str "# x\n", str "E: 1.000100 2 0b 0c\n"] = some x'
        ∧ x.1 = x'.1 ∧ attempts x.2 = attempts x'.2
        ∧ writes x.2 = [⟨[10], 1⟩, ⟨[11, 12], 2⟩]
        ∧ writes x'.2 = [⟨[10], 1⟩, ⟨[11, 12], 2⟩]
        ∧ logs x.2 = ((List.range 2).filter (fun j => decide (j = 0))).length)
    ∧ ∀ (lines : List CStr) (n : Nat),
        (∀ l ∈ lines, l ≠ [] ∧ l.length ≤ UHID_DATA_MAX) → eventTags lines < n →
        ∃ y y', main_pass (fun j => decide (j = 0)) n lines = some y
          ∧ main_pass (fun _ => false) n lines = some y'
          ∧ y.1 = y'.1 ∧ attempts y.2 = attempts y'.2 :=
  C14_write_failure_only_logged (fun j => decide (j = 0)) (fun _ => false)
    [.event [49] [48, 48, 48, 48, 48, 48] [49] [(48, 97)] [10], .other (str "# x\n"),
      .event [49] [48, 48, 48, 49, 48, 48] [50] [(48, 98), (48, 99)] [10]] 3 ⟨1, 0⟩
    [49] [48, 48, 48, 48, 48, 48] [49] [(48, 97)] [10] [str "# x\n"]
    ⟨⟨by decide, by decide, rfl, by decide, by decide, by decide⟩, by decide, rfl, by decide,
      by decide, by decide, by decide⟩
    (by
      intro x hx
      simp only [List.mem_cons, List.mem_singleton, List.not_mem_nil, or_false] at hx
      rcases hx with rfl | rfl | rfl
      · exact ⟨⟨by decide, by decide, rfl, by decide, by decide, by decide⟩, by decide, rfl,
          by decide, by decide, by decide, by decide⟩
      · exact ⟨by decide, by decide⟩
      · exact ⟨⟨by decide, by decide, rfl, by decide, by decide, by decide⟩, by decide, rfl,
          by decide, by decide, by decide, by decide⟩)
    (by decide)

/-- C15: for every line and every clock, `hid_replay_event` sleeps at most
once, and a sleep it issues lasts more than 500 and at most 3,000,000
microseconds, also when the timestamps are out of order or the 32-bit
difference wraps. -/
theorem C15_sleep_bounded (w : Bool) (l : CStr) (time : timeval) :
    (sleeps (hid_replay_event w l time).effects).length ≤ 1
    ∧ ∀ u ∈ sleeps (hid_replay_event w l time).effects, 500 < u ∧ u ≤ 3000000 := by
  rw [sleeps_event]
  by_cases hn : (sscanf_event l).n ≠ 4
  · simp [hn]
  · rw [if_neg hn]
    generalize pacingDelta (if time.tv_sec = 0 ∧ time.tv_usec = 0
      then ⟨toLong (sscanf_event l).sec, (sscanf_event l).usec⟩ else time)
      (toLong (sscanf_event l).sec) (sscanf_event l).usec = u
    by_cases h5 : 500 < u
    · by_cases h3 : 3000000 < u
      · simp [h5, h3]
      · simp only [if_pos h5, if_neg h3, List.length_singleton, List.mem_singleton]
        refine ⟨Nat.le_refl _, ?_⟩
        intro v hv
        omega
    · simp [h5]

/-- C16, as amended: for every well-formed event line processed while the
clock holds a set (non-zero) anchor, the wait on which `hid_replay_event`
decides is the capture delta alone (the event timestamp minus the anchor, in
microseconds, as a 32-bit unsigned value): the sleeps are those the
specification derives from that wait with nothing subtracted; the function
reads no wall clock, so time spent since the anchor does not shorten the
sleep. -/
theorem C16_wait_is_capture_delta (wfail : Bool) (time : timeval) (sec usec len : CStr)
    (bytes : List (Nat × Nat)) (eol : CStr) (h : EventText sec usec len bytes eol)
    (hset : ¬ (time.tv_sec = 0 ∧ time.tv_usec = 0)) :
    sleeps (hid_replay_event wfail (eventLine sec usec len bytes eol) time).effects
      = spec_sleeps (spec_wait ((1000000 * ((numValue 10 sec : Int) - time.tv_sec)
          + ((numValue 10 usec : Int) - time.tv_usec)) % 2 ^ 32) 0) := by
  rw [sleeps_event_text wfail time h]
  simp only [if_neg hset, pacingDelta_eq, spec_sleeps, spec_wait, Int.sub_zero]
  generalize (1000000 * ((numValue 10 sec : Int) - time.tv_sec)
    + ((numValue 10 usec : Int) - time.tv_usec)) % 2 ^ 32 = x
  by_cases h5 : 500 < x
  · have h5' : 500 < x.toNat := by omega
    rw [if_pos h5, if_pos h5']
    by_cases h3 : 3000000 < x.toNat
    · rw [if_pos h3, Nat.min_eq_right (Nat.le_of_lt h3)]
    · rw [if_neg h3, Nat.min_eq_left (Nat.le_of_not_lt h3)]
  · have h5' : ¬ 500 < x.toNat := by omega
    rw [if_neg h5, if_neg h5']

/-- An event 1000 microseconds after the anchor `(5, 0)`. -/
theorem C16_wait_is_capture_delta_witness :
    sleeps (hid_replay_event false (str "E: 5.001000 1 01\n") ⟨5, 0⟩).effects
      = spec_sleeps (spec_wait ((1000000 * (((5 : Nat) : Int) - 5)
          + (((1000 : Nat) : Int) - 0)) % 2 ^ 32) 0) :=
  C16_wait_is_capture_delta false ⟨5, 0⟩ [53] [48, 48, 49, 48, 48, 48] [49] [(48, 49)] [10]
    ⟨⟨by decide, by decide, rfl, by decide, by decide, by decide⟩, by decide, rfl, by decide,
      by decide, by decide, by decide⟩
    (by decide)

/-- C16 as stated fails: for a capture delta of 1000 microseconds of which 600
have already passed on the wall clock, the wait of the claim is 400 and no
sleep follows from it, but `hid_replay_event`, which takes no wall-clock
reading at all, sleeps the full 1000 microseconds. -/
theorem C16_counterexample :
    spec_sleeps (spec_wait 1000 600) = []
    ∧ sleeps (hid_replay_event false (str "E: 5.001000 1 01\n") ⟨5, 0⟩).effects = [1000] := by
  decide

/-- C17, the code at the failing input: on the line `R: 4097` followed by 4097
bytes `00`, `hid_replay_rdesc` stores a byte at index 4096, outside the 4096
bytes of `rdesc_buf`, and returns with `rd_data` set and `rd_size = 4097`. -/
theorem C17_rdesc_stores_beyond_buffer :
    (4096, 0) ∈ (hid_replay_rdesc (rdescLine (str "4097") (List.replicate 4097 (48, 48)) [10])
        [] ⟨[], [], Ptr.unset, 0, 0, 0, 0⟩).mem
    ∧ (hid_replay_rdesc (rdescLine (str "4097") (List.replicate 4097 (48, 48)) [10])
        [] ⟨[], [], Ptr.unset, 0, 0, 0, 0⟩).dev = ⟨[], [], Ptr.rdesc_buf, 4097, 0, 0, 0⟩ := by
  have h := hid_replay_rdesc_full (str "4097") (List.replicate 4097 (48, 48)) [10] []
    ⟨[], [], Ptr.unset, 0, 0, 0, 0⟩ (by decide) (by decide)
    (by rw [List.length_replicate]; decide) (by rw [List.length_replicate]; omega)
    (by rw [List.length_replicate]; omega)
    (by
      intro q hq
      rw [List.eq_of_mem_replicate hq]
      decide)
    (by decide)
  rw [h.1, h.2]
  refine ⟨?_, by rw [List.length_replicate]⟩
  have hm := mem_storeSeq ((List.replicate 4097 ((48 : Nat), (48 : Nat))).map byteValue) 0 4096
    0 [] (by
      rw [List.getElem?_map, List.getElem?_replicate]
      decide)
  rw [Nat.zero_add] at hm
  exact hm

set_option maxRecDepth 20000 in
/-- C18, the code at the failing input: on the line `N:` followed by 128 bytes
`a`, without a blank and without a newline (130 bytes, so `len - 3` is 127),
`hid_replay_name` stores a name of 128 characters, which with its terminator
takes 129 bytes of the 128-byte field. -/
theorem C18_name_overflows_field :
    (hid_replay_name (78 :: 58 :: List.replicate 128 97) 130
        ⟨[], [], Ptr.unset, 0, 0, 0, 0⟩).name = List.replicate 128 97
    ∧ ((78 :: 58 :: List.replicate 128 97 : CStr).length : Int) = 130
    ∧ NAME_SIZE < (List.replicate 128 97).length + 1 := by
  decide

/-- C19, as amended: an event line whose timestamp and length parse, whose
declared length is below `2^31` and whose payload has at least one hexadecimal
byte, at most 4096, but fewer than declared is dropped without any write, yet
`hid_replay_event` has run its pacing step for it: it issues the same sleep
and leaves the same clock as a well-formed event line with that timestamp, so
that it moves the anchor when it sleeps or when the clock is unset. -/
theorem C19_short_event_still_paces (w w' : Bool) (time : timeval) (sec usec len : CStr)
    (p : Nat × Nat) (ps : List (Nat × Nat)) (eol : CStr) (len' : CStr)
    (bytes' : List (Nat × Nat)) (eol' : CStr) (hd : EventHead sec usec len)
    (hlen : numValue 10 len < 2 ^ 31) (hfew : (p :: ps).length < numValue 10 len)
    (_hmax : (p :: ps).length ≤ UHID_DATA_MAX)
    (hb : ∀ q ∈ p :: ps, hexPair q = true) (he : isEol eol)
    (hv : EventText sec usec len' bytes' eol') :
    writes (hid_replay_event w (eventLine sec usec len (p :: ps) eol) time).effects = []
    ∧ sleeps (hid_replay_event w (eventLine sec usec len (p :: ps) eol) time).effects
        = sleeps (hid_replay_event w' (eventLine sec usec len' bytes' eol') time).effects
    ∧ (hid_replay_event w (eventLine sec usec len (p :: ps) eol) time).time
        = (hid_replay_event w' (eventLine sec usec len' bytes' eol') time).time
    ∧ (hid_replay_event w (eventLine sec usec len (p :: ps) eol) ⟨0, 0⟩).time
        = ⟨(numValue 10 sec : Int), (numValue 10 usec : Int)⟩ := by
  have hs := hid_replay_event_short w time sec usec len p ps eol hd hv.sec_long hlen hfew hb he
  have hs0 := hid_replay_event_short w ⟨0, 0⟩ sec usec len p ps eol hd hv.sec_long hlen hfew hb he
  refine ⟨?_, ?_, ?_, ?_⟩
  · rw [hs]
    simp only [writes_pause]
  · rw [sleeps_event_text w' time hv, hs]
    simp only [sleeps_pause]
  · rw [hid_replay_event_text w' time hv, hs]
  · rw [hs0]
    simp [pacingDelta_self]

/-- The line `E: 9.000000 3 01 02`, two bytes for three declared, against the
well-formed `E: 9.000000 1 01`, with the anchor at `(1, 0)`. -/
theorem C19_short_event_still_paces_witness :
    writes (hid_replay_event false (str "E: 9.000000 3 01 02\n") ⟨1, 0⟩).effects = []
    ∧ sleeps (hid_replay_event false (str "E: 9.000000 3 01 02\n") ⟨1, 0⟩).effects
        = sleeps (hid_replay_event false (str "E: 9.000000 1 01\n") ⟨1, 0⟩).effects
    ∧ (hid_replay_event false (str "E: 9.000000 3 01 02\n") ⟨1, 0⟩).time
        = (hid_replay_event false (str "E: 9.000000 1 01\n") ⟨1, 0⟩).time
    ∧ (hid_replay_event false (str "E: 9.000000 3 01 02\n") ⟨0, 0⟩).time = ⟨9, 0⟩ :=
  C19_short_event_still_paces false false ⟨1, 0⟩ [57] [48, 48, 48, 48, 48, 48] [51] (48, 49)
    [(48, 50)] [10] [49] [(48, 49)] [10]
    ⟨by decide, by decide, rfl, by decide, by decide, by decide⟩ (by decide) (by decide)
    (by decide) (by decide) (by decide)
    ⟨⟨by decide, by decide, rfl, by decide, by decide, by decide⟩, by decide, rfl, by decide,
      by decide, by decide, by decide⟩

/-- C19 as stated fails when the line carries no byte at all: with the anchor
at `(1, 0)`, the line `E: 9.000000 3` (timestamp and length parse, no byte for
three declared) has no effect, no sleep and no change of the clock, while the
well-formed `E: 9.000000 1 01` sleeps 3,000,000 microseconds and moves the
anchor to `(9, 0)`. -/
theorem C19_counterexample :
    eventLine [57] [48, 48, 48, 48, 48, 48] [51] [] [10] = str "E: 9.000000 3\n"
    ∧ (sscanf_event (str "E: 9.000000 3\n")).n = 3
    ∧ (sscanf_event (str "E: 9.000000 3\n")).sec = 9
    ∧ (sscanf_event (str "E: 9.000000 3\n")).event_len = 3
    ∧ hid_replay_event false (str "E: 9.000000 3\n") ⟨1, 0⟩ = ⟨⟨1, 0⟩, []⟩
    ∧ hid_replay_event false (str "E: 9.000000 1 01\n") ⟨1, 0⟩
        = ⟨⟨9, 0⟩, [Effect.usleep 3000000, Effect.write ⟨[1], 1⟩]⟩ := by
  decide

/-- C20, as amended: `hid_replay_parse_header` sets the bit of a tag when a
line with that tag is read, whether or not the line parsed: for every source
that begins with a shortest run of lines holding the tags `N`, `R` and `I` in
which every `R:` line is one that `hid_replay_rdesc` gives up on (fewer bytes,
at most 4096, than the length below `2^31` it declares, or no decimal length
and rest of line for `sscanf`), the parser returns after the last line of that
run, the lines after it (a later valid `R:` line among them) are left unread,
and `rd_data` and `rd_size` are returned as they were, unset. -/
theorem C20_completion_without_rdesc (pre rest : List CStr) (buf0 : CStr) (mem : RdescBuf)
    (dev : uhid_create_req) (hne : ∀ l ∈ pre ++ rest, l ≠ [])
    (hc : headerComplete pre = true)
    (hmin : ∀ j, j < pre.length → headerComplete (pre.take j) = false)
    (hR : ∀ l ∈ pre, lineTag 82 l = true → rdescRejected l) :
    (hid_replay_parse_header (pre ++ rest) buf0 mem dev).fp = rest
    ∧ (hid_replay_parse_header (pre ++ rest) buf0 mem dev).ret = 0
    ∧ (hid_replay_parse_header (pre ++ rest) buf0 mem dev).dev.rd_data = dev.rd_data
    ∧ (hid_replay_parse_header (pre ++ rest) buf0 mem dev).dev.rd_size = dev.rd_size := by
  obtain ⟨h1, h2⟩ := header_loop_run pre rest ⟨buf0, 0, mem, dev⟩ rfl hne hc hmin
  have h3 := headerFold_rd pre ⟨buf0, 0, mem, dev⟩ hR
  simp only [hid_replay_parse_header, h1, h2, h3.1, h3.2, and_self]

/-- A header `R: x` (no length), `R: 3 05 01` (two bytes for three declared),
`N`, `I`, followed by a valid `R:` line that is never read. -/
theorem C20_completion_without_rdesc_witness :
    (hid_replay_parse_header ([str "R: x\n", str "R: 3 05 01\n", str "N: a\n", str "I: 3 1 2\n"]
        ++ [str "R: 2 05 01\n"]) [] [] ⟨[], [], Ptr.unset, 0, 0, 0, 0⟩).fp
        = [str "R: 2 05 01\n"]
    ∧ (hid_replay_parse_header ([str "R: x\n", str "R: 3 05 01\n", str "N: a\n", str "I: 3 1 2\n"]
        ++ [str "R: 2 05 01\n"]) [] [] ⟨[], [], Ptr.unset, 0, 0, 0, 0⟩).ret = 0
    ∧ (hid_replay_parse_header ([str "R: x\n", str "R: 3 05 01\n", str "N: a\n", str "I: 3 1 2\n"]
        ++ [str "R: 2 05 01\n"]) [] [] ⟨[], [], Ptr.unset, 0, 0, 0, 0⟩).dev.rd_data
        = Ptr.unset
    ∧ (hid_replay_parse_header ([str "R: x\n", str "R: 3 05 01\n", str "N: a\n", str "I: 3 1 2\n"]
        ++ [str "R: 2 05 01\n"]) [] [] ⟨[], [], Ptr.unset, 0, 0, 0, 0⟩).dev.rd_size = 0 :=
  C20_completion_without_rdesc [str "R: x\n", str "R: 3 05 01\n", str "N: a\n", str "I: 3 1 2\n"]
    [str "R: 2 05 01\n"] [] [] ⟨[], [], Ptr.unset, 0, 0, 0, 0⟩
    (by decide) (by decide) (by decide)
    (by
      intro l hl ht
      simp only [List.mem_cons, List.mem_singleton, List.not_mem_nil, or_false] at hl
      rcases hl with rfl | rfl | rfl | rfl
      · exact Or.inr (by decide)
      · exact Or.inl ⟨[51], [(48, 53), (48, 49)], [10], by decide, by decide, by decide,
          by decide, by decide, by decide, by decide, by decide⟩
      · exact absurd ht (by decide)
      · exact absurd ht (by decide))

/-- C20 as stated fails for an `R:` line malformed by a surplus byte or by a
negative length: after `N` and `I`, the line `R: 1 05 01` completes the set
with `rd_data` set and `rd_size = 1`, and the line `R: -1 05` with `rd_data`
set and `rd_size = 65535`. -/
theorem C20_counterexample :
    (hid_replay_parse_header [str "N: a\n", str "I: 3 1 2\n", str "R: 1 05 01\n",
        str "R: 2 05 01\n"] [] [] ⟨[], [], Ptr.unset, 0, 0, 0, 0⟩).dev.rd_data = Ptr.rdesc_buf
    ∧ (hid_replay_parse_header [str "N: a\n", str "I: 3 1 2\n", str "R: 1 05 01\n",
        str "R: 2 05 01\n"] [] [] ⟨[], [], Ptr.unset, 0, 0, 0, 0⟩).dev.rd_size = 1
    ∧ (hid_replay_parse_header [str "N: a\n", str "I: 3 1 2\n", str "R: 1 05 01\n",
        str "R: 2 05 01\n"] [] [] ⟨[], [], Ptr.unset, 0, 0, 0, 0⟩).fp = [str "R: 2 05 01\n"]
    ∧ (hid_replay_parse_header [str "N: a\n", str "I: 3 1 2\n", str "R: -1 05\n"]
        [] [] ⟨[], [], Ptr.unset, 0, 0, 0, 0⟩).dev.rd_data = Ptr.rdesc_buf
    ∧ (hid_replay_parse_header [str "N: a\n", str "I: 3 1 2\n", str "R: -1 05\n"]
        [] [] ⟨[], [], Ptr.unset, 0, 0, 0, 0⟩).dev.rd_size = 65535 := by
  decide

end HidReplay
